import Mathlib

/-!
Verification of the zotero-ref-extract extraction → normalization → conversion
pipeline.  The TypeScript sources are shallowly embedded: dynamic JavaScript
values become the `JsonValue` inductive, objects become ordered association
lists, and each pipeline function is translated directly from its source.

Modelling conventions (applied uniformly):
* a JavaScript property that is absent or `undefined` is modelled as the key
  being absent from the association list;
* where the original program would throw a `TypeError` on schema-violating
  data (e.g. calling `.toLowerCase()` on a number), the model takes the
  branch as if the field were absent; the theorems below only exercise
  schema-conforming values at such points;
* JavaScript numbers are modelled as integers (the schema only stores years
  and similar integral values in numeric positions);
* `String.toLower`/`Char.toUpper`/whitespace predicates model the ASCII
  fragment of the corresponding JavaScript operations.
-/

namespace ZRE

/-- Model of a parsed JSON / JavaScript value as produced by `JSON.parse` and
consumed by the pipeline. -/
inductive JsonValue : Type where
  | null : JsonValue
  | bool : Bool → JsonValue
  | num : Int → JsonValue
  | str : String → JsonValue
  | arr : List JsonValue → JsonValue
  | obj : List (String × JsonValue) → JsonValue
deriving Repr

mutual
/-- Structural equality test on `JsonValue`. -/
def beqJV : JsonValue → JsonValue → Bool
  | .null, .null => true
  | .bool a, .bool b => a == b
  | .num a, .num b => a == b
  | .str a, .str b => a == b
  | .arr a, .arr b => beqJVList a b
  | .obj a, .obj b => beqJVObj a b
  | _, _ => false

/-- Structural equality test on lists of values. -/
def beqJVList : List JsonValue → List JsonValue → Bool
  | [], [] => true
  | x :: xs, y :: ys => beqJV x y && beqJVList xs ys
  | _, _ => false

/-- Structural equality test on property lists. -/
def beqJVObj : List (String × JsonValue) → List (String × JsonValue) → Bool
  | [], [] => true
  | (k1, v1) :: xs, (k2, v2) :: ys => k1 == k2 && beqJV v1 v2 && beqJVObj xs ys
  | _, _ => false
end

/-- A JavaScript object: an insertion-ordered association list of properties. -/
abbrev Obj := List (String × JsonValue)

/-- JavaScript truthiness of a value. -/
def jsTruthy : JsonValue → Bool
  | .null => false
  | .bool b => b
  | .num n => n != 0
  | .str s => s != ""
  | .arr _ => true
  | .obj _ => true

/-- The "empty" test used by `mergeItems`: `null` or the empty string
(`undefined` is modelled as an absent key). -/
def jsEmpty : JsonValue → Bool
  | .null => true
  | .str s => s == ""
  | _ => false

/-- Property lookup on an object (first occurrence; JS objects have unique keys). -/
def getProp (o : Obj) (k : String) : Option JsonValue :=
  o.lookup k

/-- Property read that succeeds only on string values. -/
def getStrProp (o : Obj) (k : String) : Option String :=
  match getProp o k with
  | some (.str s) => some s
  | _ => none

/-- JavaScript property assignment `o[k] = v`: replaces the value in place if
the key exists, otherwise appends the property. -/
def setProp (o : Obj) (k : String) (v : JsonValue) : Obj :=
  if (o.lookup k).isSome then
    o.map (fun kv => if kv.1 == k then (kv.1, v) else kv)
  else o ++ [(k, v)]

/-- Property access `v.k` on an arbitrary value: `undefined` (= `none`) unless
`v` is an object with the property.  Primitive boxing in JavaScript makes
property access on strings/numbers yield `undefined` as well. -/
def propOf (v : JsonValue) (k : String) : Option JsonValue :=
  match v with
  | .obj fs => getProp fs k
  | _ => none

mutual
/-- JavaScript `String(x)` conversion for the values reaching it in this
pipeline. -/
def jsToString : JsonValue → String
  | .null => "null"
  | .bool b => cond b "true" "false"
  | .num n => toString n
  | .str s => s
  | .arr xs => jsArrToString xs
  | .obj _ => "[object Object]"

/-- `Array.prototype.toString`: elements joined with commas, `null` rendered
as the empty string. -/
def jsArrToString : List JsonValue → String
  | [] => ""
  | [x] => jsEltToString x
  | x :: y :: rest => jsEltToString x ++ "," ++ jsArrToString (y :: rest)

/-- One array element inside `Array.prototype.toString`. -/
def jsEltToString : JsonValue → String
  | .null => ""
  | .bool b => cond b "true" "false"
  | .num n => toString n
  | .str s => s
  | .arr xs => jsArrToString xs
  | .obj _ => "[object Object]"
end

/-! ## normalize.ts -/

/-- `String.prototype.toLowerCase` (ASCII fragment), character-wise. -/
def jsToLower (s : String) : String :=
  String.mk (s.data.map Char.toLower)

/-- `String.prototype.trim`: strip whitespace from both ends. -/
def jsTrim (s : String) : String :=
  String.mk (((s.data.dropWhile Char.isWhitespace).reverse.dropWhile Char.isWhitespace).reverse)

/-- `String.prototype.startsWith`. -/
def strStarts (s q : String) : Bool :=
  q.data.isPrefixOf s.data

/-- Drop the first `n` characters of a string. -/
def strDrop (s : String) (n : Nat) : String :=
  String.mk (s.data.drop n)

/-- The four literal strings matched by the anchored regular expression
`^https?:\/\/(dx\.)?doi\.org\//` in `normalizeDoi`. -/
def doiUrlPres : List String :=
  ["http://doi.org/", "https://doi.org/", "http://dx.doi.org/", "https://dx.doi.org/"]

/-- Strip the first matching anchored alternative, if any (a regex `replace`
with an anchored pattern removes at most one occurrence, at the start). -/
def stripFirstMatching (pres : List String) (s : String) : String :=
  match pres.find? (fun p => strStarts s p) with
  | some p => strDrop s p.length
  | none => s

/-- The `replace(/^doi:/, '')` step of `normalizeDoi`. -/
def stripDoiColon (s1 : String) : String :=
  if strStarts s1 "doi:" then strDrop s1 4 else s1

/-- `normalizeDoi`: lowercase, strip a `https?://(dx.)?doi.org/` start, strip
a `doi:` start, trim. -/
def normalizeDoi (doi : String) : String :=
  jsTrim (stripDoiColon (stripFirstMatching doiUrlPres (jsToLower doi)))

/-- `normalizeUrl`: lowercase, remove a trailing run of slashes, trim. -/
def normalizeUrl (url : String) : String :=
  let low := jsToLower url
  jsTrim (String.mk ((low.data.reverse.dropWhile (fun c => c == '/')).reverse))

/-- ASCII-alphanumeric test used by `normalizeTitle`'s `[^a-z0-9]` class. -/
def isLowAlnum (c : Char) : Bool :=
  ('a' ≤ c && c ≤ 'z') || ('0' ≤ c && c ≤ '9')

/-- `normalizeTitle`: lowercase, keep `[a-z0-9]`, truncate to 100 characters. -/
def normalizeTitle (title : String) : String :=
  String.mk (((jsToLower title).data.filter isLowAlnum).take 100)

/-- First position of four consecutive digits, as matched by `/\d{4}/`. -/
def find4Digits : List Char → Option String
  | c1 :: c2 :: c3 :: c4 :: rest =>
    if c1.isDigit && c2.isDigit && c3.isDigit && c4.isDigit then
      some (String.mk [c1, c2, c3, c4])
    else find4Digits (c2 :: c3 :: c4 :: rest)
  | _ => none

/-- The optional-chain `item.issued?.['date-parts']?.[0]?.[0]`. -/
def issuedDp0 (item : Obj) : Option JsonValue :=
  match getProp item "issued" with
  | some (.obj io) =>
    match getProp io "date-parts" with
    | some (.arr (first :: _)) =>
      match first with
      | .arr (v :: _) => some v
      | _ => none
    | _ => none
  | _ => none

/-- `extractYear`: `String(issued['date-parts'][0][0])` when truthy, else the
first 4-digit run of `issued.literal`, else `"unknown"`. -/
def extractYear (item : Obj) : String :=
  let viaDp : Option String :=
    match issuedDp0 item with
    | some v => if jsTruthy v then some (jsToString v) else none
    | none => none
  match viaDp with
  | some y => y
  | none =>
    match getProp item "issued" with
    | some (.obj io) =>
      match getProp io "literal" with
      | some (.str s) =>
        if s == "" then "unknown"
        else
          match find4Digits s.data with
          | some m => m
          | none => "unknown"
      | _ => "unknown"
    | _ => "unknown"

/-- Lowercase and keep only `[a-z]`, as in `.toLowerCase().replace(/[^a-z]/g, '')`. -/
def asciiLowerOnly (s : String) : String :=
  String.mk ((jsToLower s).data.filter (fun c => 'a' ≤ c && c ≤ 'z'))

/-- `literal.split(/\s+/)[0]`: the characters before the first whitespace
character (empty when the string starts with whitespace). -/
def firstWordOf (s : String) : String :=
  String.mk (s.data.takeWhile (fun c => !c.isWhitespace))

/-- `getFirstAuthorFamily`: normalized family name of the first author, else
the first word of the first author's literal name, else `"unknown"`. -/
def getFirstAuthorFamily (item : Obj) : String :=
  match getProp item "author" with
  | some (.arr (first :: _)) =>
    let famBranch : Option String :=
      match propOf first "family" with
      | some (.str f) => if f == "" then none else some (asciiLowerOnly f)
      | _ => none
    match famBranch with
    | some r => r
    | none =>
      match propOf first "literal" with
      | some (.str l) =>
        if l == "" then "unknown" else asciiLowerOnly (firstWordOf l)
      | _ => "unknown"
  | _ => "unknown"

/-- The composite fallback `key:firstAuthor|year|title` of `generateDedupeKey`. -/
def compositeKey (item : Obj) : String :=
  let title := normalizeTitle ((getStrProp item "title").getD "")
  let year := extractYear item
  let firstAuthor := getFirstAuthorFamily item
  "key:" ++ firstAuthor ++ "|" ++ year ++ "|" ++ title

/-- The URL-then-composite tail of `generateDedupeKey`. -/
def urlOrComposite (item : Obj) : String :=
  let urlTaken : Option String :=
    match getProp item "URL" with
    | some (.str u) => if u == "" then none else some ("url:" ++ normalizeUrl u)
    | _ => none
  match urlTaken with
  | some k => k
  | none => compositeKey item

/-- `generateDedupeKey`: strict priority truthy DOI, then truthy URL, then the
composite `key:firstAuthor|year|title`. -/
def generateDedupeKey (item : Obj) : String :=
  let doiTaken : Option String :=
    match getProp item "DOI" with
    | some (.str d) => if d == "" then none else some ("doi:" ++ normalizeDoi d)
    | _ => none
  match doiTaken with
  | some k => k
  | none => urlOrComposite item

/-- One step of the `mergeItems` loop over the source's own fields. -/
def mergeStep (tgt : Obj) (kv : String × JsonValue) : Obj :=
  if jsEmpty kv.2 then tgt
  else
    match getProp tgt kv.1 with
    | some tv => if jsEmpty tv then setProp tgt kv.1 kv.2 else tgt
    | none => setProp tgt kv.1 kv.2

/-- `mergeItems`: copy each non-(null/empty) own field of `source` into
`target` where the target field is absent, null or the empty string. -/
def mergeItems (target source : Obj) : Obj :=
  source.foldl mergeStep target

/-- The loop of `deduplicateItems` over the extracted items, carrying the
insertion-ordered `seen` map and the duplicate counter. -/
def dedupeGo : List Obj → List (String × Obj) → Nat → List (String × Obj) × Nat
  | [], seen, d => (seen, d)
  | r :: rest, seen, d =>
    let k := generateDedupeKey r
    match seen.lookup k with
    | some _ =>
      dedupeGo rest
        (seen.map (fun e => if e.1 == k then (e.1, mergeItems e.2 r) else e)) (d + 1)
    | none => dedupeGo rest (seen ++ [(k, r)]) d

/-- `deduplicateItems` on the items of the extracted references: unique items
in first-seen order plus the number of duplicates removed. -/
def deduplicateItems (refs : List Obj) : List Obj × Nat :=
  let res := dedupeGo refs [] 0
  (res.1.map Prod.snd, res.2)

/-- Trim a value if it is a string, as done field-wise by `trimName`. -/
def trimStrV : JsonValue → JsonValue
  | .str s => .str (jsTrim s)
  | v => v

/-- `trimName`: `Object.entries` over the value, trimming string fields.  On a
(nested) array, `Object.entries` enumerates indices, so the array is rebuilt
as a plain object keyed by the decimal indices. -/
def trimName : JsonValue → JsonValue
  | .obj fs => .obj (fs.map (fun kv => (kv.1, trimStrV kv.2)))
  | .arr xs => .obj (xs.enum.map (fun p => (toString p.1, trimStrV p.2)))
  | v => v

/-- `trimItem`: trim string fields; map array fields element-wise, applying
`trimName` to each element that is a non-null object (`typeof v === 'object'`). -/
def trimItem (item : Obj) : Obj :=
  item.map (fun kv =>
    (kv.1,
      match kv.2 with
      | .str s => .str (jsTrim s)
      | .arr xs =>
        .arr (xs.map (fun v =>
          match v with
          | .obj fs => trimName (.obj fs)
          | .arr ys => trimName (.arr ys)
          | other => other))
      | other => other))

/-- Model of `String.prototype.localeCompare` on the normalized sort keys
(lowercase ASCII alphanumerics), where the root collation coincides with
code-point order. -/
def strCmp (a b : String) : Int :=
  if a < b then -1 else if b < a then 1 else 0

/-- The comparator passed to `Array.prototype.sort` by `sortItems`. -/
def cmpItems (a b : Obj) : Int :=
  let authorA := getFirstAuthorFamily a
  let authorB := getFirstAuthorFamily b
  if authorA ≠ authorB then strCmp authorA authorB
  else
    let yearA := extractYear a
    let yearB := extractYear b
    if yearA ≠ yearB then strCmp yearA yearB
    else
      strCmp (normalizeTitle ((getStrProp a "title").getD ""))
        (normalizeTitle ((getStrProp b "title").getD ""))

/-- Non-strict order induced by the comparator. -/
def sortLe (a b : Obj) : Prop := cmpItems a b ≤ 0

instance : DecidableRel sortLe := fun a b =>
  inferInstanceAs (Decidable (cmpItems a b ≤ 0))

/-- `sortItems`: `[...items].sort(comparator)`.  ECMAScript requires `sort` to
be stable, and for a consistent comparator the stable sorted permutation is
unique, so the insertion sort below is the function computed by the source. -/
def sortItems (items : List Obj) : List Obj :=
  items.insertionSort sortLe

/-- `normalizeRefs`: deduplicate, trim, sort; also report duplicates removed. -/
def normalizeRefs (refs : List Obj) : List Obj × Nat :=
  let dd := deduplicateItems refs
  (sortItems (dd.1.map trimItem), dd.2)

/-- Capitalize the first character: `s.charAt(0).toUpperCase() + s.slice(1)`. -/
def capFirst (s : String) : String :=
  match s.data with
  | [] => ""
  | c :: cs => String.mk (c.toUpper :: cs)

/-- The stop-list of `getFirstTitleWord`. -/
def skipWordsList : List String := ["a", "an", "the", "on", "in", "of", "for", "to"]

/-- Maximal non-whitespace runs of a character list.  `split(/\s+/)` may also
produce empty boundary strings, but the consumer loop in `getFirstTitleWord`
skips every word whose cleaned form is empty, so only these runs matter. -/
def wsChunksGo : List Char → List Char → List (List Char)
  | [], acc => if acc.isEmpty then [] else [acc.reverse]
  | c :: cs, acc =>
    if c.isWhitespace then
      if acc.isEmpty then wsChunksGo cs [] else acc.reverse :: wsChunksGo cs []
    else wsChunksGo cs (c :: acc)

/-- `title.toLowerCase().split(/\s+/)`, restricted to the non-empty words. -/
def titleWords (title : String) : List String :=
  (wsChunksGo (jsToLower title).data []).map String.mk

/-- `word.replace(/[^a-z]/g, '')` (the word is already lowercased). -/
def cleanWord (w : String) : String :=
  String.mk (w.data.filter (fun c => 'a' ≤ c && c ≤ 'z'))

/-- The search loop of `getFirstTitleWord`. -/
def findGoodWord : List String → String
  | [] => "Untitled"
  | w :: ws =>
    let c := cleanWord w
    if c != "" && !(skipWordsList.contains c) then capFirst c else findGoodWord ws

/-- `getFirstTitleWord`: first title word that cleans to a non-empty
non-stop-word, capitalized; `"Untitled"` otherwise. -/
def getFirstTitleWord (title : String) : String :=
  findGoodWord (titleWords title)

/-- `generateCiteKey`: `{Author}{Year}{TitleWord}`. -/
def generateCiteKey (item : Obj) : String :=
  let author0 := getFirstAuthorFamily item
  let author := if author0 == "" then "unknown" else author0
  let year := extractYear item
  let titleWord := getFirstTitleWord ((getStrProp item "title").getD "")
  capFirst author ++ year ++ titleWord

/-! ## JSON serialization (`JSON.stringify`) and parsing (`JSON.parse`) -/

/-- JSON insignificant whitespace (exactly the characters `JSON.parse` skips). -/
def jsonWsChar (c : Char) : Bool :=
  c == ' ' || c == '\t' || c == '\n' || c == '\r'

/-- Lowercase hexadecimal digit, as used by `JSON.stringify` escapes. -/
def hexDigitChar (n : Nat) : Char :=
  if n < 10 then Char.ofNat ('0'.toNat + n) else Char.ofNat ('a'.toNat + (n - 10))

/-- Per-character escaping of `JSON.stringify` (quote, backslash, the control
shorthands, `\u00xx` for the remaining control characters). -/
def escapeJsonChar (c : Char) : List Char :=
  if c == '"' then ['\\', '"']
  else if c == '\\' then ['\\', '\\']
  else if c.toNat == 8 then ['\\', 'b']
  else if c.toNat == 12 then ['\\', 'f']
  else if c == '\n' then ['\\', 'n']
  else if c == '\r' then ['\\', 'r']
  else if c == '\t' then ['\\', 't']
  else if c.toNat < 32 then
    ['\\', 'u', '0', '0', hexDigitChar (c.toNat / 16), hexDigitChar (c.toNat % 16)]
  else [c]

/-- A JSON string literal for `s`. -/
def quoteJson (s : String) : List Char :=
  '"' :: (s.data.map escapeJsonChar).flatten ++ ['"']

/-- Decimal digits of a positive number, most significant first. -/
def natDigitsGo (m : Nat) (acc : List Char) : List Char :=
  if h : m = 0 then acc
  else natDigitsGo (m / 10) (Char.ofNat ('0'.toNat + m % 10) :: acc)
termination_by m
decreasing_by exact Nat.div_lt_self (Nat.pos_of_ne_zero h) (by omega)

/-- Canonical decimal digits of a natural number. -/
def natDigits (m : Nat) : List Char :=
  if m = 0 then ['0'] else natDigitsGo m []

/-- Canonical decimal rendering of an integer, as `JSON.stringify` prints
integral numbers. -/
def intChars (n : Int) : List Char :=
  if n < 0 then '-' :: natDigits n.natAbs else natDigits n.natAbs

/-- Indentation produced by `JSON.stringify(v, null, 2)` at nesting `lvl`. -/
def indentOf (lvl : Nat) : List Char := List.replicate (2 * lvl) ' '

/-- Separator between array elements / object members. -/
def jsonSep (p : Bool) (lvl : Nat) : List Char :=
  if p then ',' :: '\n' :: indentOf lvl else [',']

mutual
/-- `JSON.stringify(v)` (for `p = false`) and `JSON.stringify(v, null, 2)`
(for `p = true`, at nesting level `lvl`), character by character. -/
def rVal (p : Bool) (lvl : Nat) : JsonValue → List Char
  | .null => ['n', 'u', 'l', 'l']
  | .bool b => cond b ['t', 'r', 'u', 'e'] ['f', 'a', 'l', 's', 'e']
  | .num n => intChars n
  | .str s => quoteJson s
  | .arr [] => ['[', ']']
  | .arr (x :: xs) =>
    if p then
      '[' :: '\n' ::
        (indentOf (lvl + 1) ++ rArr p (lvl + 1) (x :: xs) ++
          '\n' :: (indentOf lvl ++ [']']))
    else '[' :: (rArr p lvl (x :: xs) ++ [']'])
  | .obj [] => ['{', '}']
  | .obj (m :: ms) =>
    if p then
      '{' :: '\n' ::
        (indentOf (lvl + 1) ++ rObj p (lvl + 1) (m :: ms) ++
          '\n' :: (indentOf lvl ++ ['}']))
    else '{' :: (rObj p lvl (m :: ms) ++ ['}'])

/-- Array elements joined by the separator. -/
def rArr (p : Bool) (lvl : Nat) : List JsonValue → List Char
  | [] => []
  | [x] => rVal p lvl x
  | x :: y :: ys => rVal p lvl x ++ jsonSep p lvl ++ rArr p lvl (y :: ys)

/-- Object members joined by the separator. -/
def rObj (p : Bool) (lvl : Nat) : List (String × JsonValue) → List Char
  | [] => []
  | [m] => rMember p lvl m
  | m :: m2 :: ms => rMember p lvl m ++ jsonSep p lvl ++ rObj p lvl (m2 :: ms)

/-- One object member `"key": value`. -/
def rMember (p : Bool) (lvl : Nat) (m : String × JsonValue) : List Char :=
  quoteJson m.1 ++ ':' :: (if p then ' ' :: rVal p lvl m.2 else rVal p lvl m.2)
end

/-- Skip insignificant whitespace. -/
def skipWs (cs : List Char) : List Char := cs.dropWhile jsonWsChar

/-- Value of one hexadecimal digit. -/
def hexVal (c : Char) : Option Nat :=
  let n := c.toNat
  if 48 ≤ n && n < 58 then some (n - 48)
  else if 97 ≤ n && n < 103 then some (n - 87)
  else if 65 ≤ n && n < 71 then some (n - 55)
  else none

/-- Prepend a decoded character to a string-body parse result. -/
def consStr (c : Char) : Option (List Char × List Char) → Option (List Char × List Char) :=
  Option.map (fun pr => (c :: pr.1, pr.2))

/-- Decode a 4-digit hexadecimal escape payload. -/
def hex4 (h1 h2 h3 h4 : Char) : Option Nat :=
  match hexVal h1, hexVal h2, hexVal h3, hexVal h4 with
  | some a, some b, some c, some d => some (((a * 16 + b) * 16 + c) * 16 + d)
  | _, _, _, _ => none

/-- Parse the body of a JSON string literal after its opening quote, returning
the decoded characters and the input after the closing quote.  Surrogate-pair
escapes are not modelled (Lean characters are scalar values; the serializer
never emits them). -/
def parseStrBody : List Char → Option (List Char × List Char)
  | [] => none
  | '"' :: rest => some ([], rest)
  | '\\' :: rest =>
    match rest with
    | '"' :: r => consStr '"' (parseStrBody r)
    | '\\' :: r => consStr '\\' (parseStrBody r)
    | '/' :: r => consStr '/' (parseStrBody r)
    | 'b' :: r => consStr (Char.ofNat 8) (parseStrBody r)
    | 'f' :: r => consStr (Char.ofNat 12) (parseStrBody r)
    | 'n' :: r => consStr '\n' (parseStrBody r)
    | 'r' :: r => consStr '\r' (parseStrBody r)
    | 't' :: r => consStr '\t' (parseStrBody r)
    | 'u' :: h1 :: h2 :: h3 :: h4 :: r =>
      match hex4 h1 h2 h3 h4 with
      | some n => if n < 0xd800 then consStr (Char.ofNat n) (parseStrBody r) else none
      | none => none
    | _ => none
  | c :: rest => if c.toNat < 32 then none else consStr c (parseStrBody rest)

/-- Parse a JSON natural-number literal (no leading zeros; fractional and
exponent parts are rejected since the model stores only integers). -/
def parseNatLit (cs : List Char) : Option (Nat × List Char) :=
  let ds := cs.takeWhile Char.isDigit
  let rest := cs.dropWhile Char.isDigit
  if ds.isEmpty then none
  else if 1 < ds.length ∧ ds.head? = some '0' then none
  else
    match rest with
    | '.' :: _ => none
    | 'e' :: _ => none
    | 'E' :: _ => none
    | _ => some (ds.foldl (fun acc c => 10 * acc + (c.toNat - '0'.toNat)) 0, rest)

/-- Parse a JSON integer literal with optional minus sign. -/
def parseIntLit (cs : List Char) : Option (Int × List Char) :=
  match cs with
  | '-' :: rest => (parseNatLit rest).map (fun pr => (-(pr.1 : Int), pr.2))
  | _ => (parseNatLit cs).map (fun pr => ((pr.1 : Int), pr.2))

mutual
/-- Fueled recursive-descent JSON value parser (models `JSON.parse`).  Returns
the value and the unconsumed input directly after it. -/
def parseVal : Nat → List Char → Option (JsonValue × List Char)
  | 0, _ => none
  | n + 1, cs =>
    match skipWs cs with
    | '{' :: rest =>
      match skipWs rest with
      | '}' :: r2 => some (.obj [], r2)
      | cs2 => (parseMembers n cs2).map (fun pr => (.obj pr.1, pr.2))
    | '[' :: rest =>
      match skipWs rest with
      | ']' :: r2 => some (.arr [], r2)
      | cs2 => (parseElems n cs2).map (fun pr => (.arr pr.1, pr.2))
    | '"' :: rest => (parseStrBody rest).map (fun pr => (.str (String.mk pr.1), pr.2))
    | 't' :: 'r' :: 'u' :: 'e' :: rest => some (.bool true, rest)
    | 'f' :: 'a' :: 'l' :: 's' :: 'e' :: rest => some (.bool false, rest)
    | 'n' :: 'u' :: 'l' :: 'l' :: rest => some (.null, rest)
    | cs2 => (parseIntLit cs2).map (fun pr => (.num pr.1, pr.2))

/-- Parse the non-empty element list of an array together with the closing
bracket. -/
def parseElems : Nat → List Char → Option (List JsonValue × List Char)
  | 0, _ => none
  | n + 1, cs =>
    match parseVal n cs with
    | none => none
    | some (v, r) =>
      match skipWs r with
      | ']' :: r2 => some ([v], r2)
      | ',' :: r2 =>
        match parseElems n r2 with
        | none => none
        | some (vs, r3) => some (v :: vs, r3)
      | _ => none

/-- Parse the non-empty member list of an object together with the closing
brace; the input must start at the first member's opening quote. -/
def parseMembers : Nat → List Char → Option (Obj × List Char)
  | 0, _ => none
  | n + 1, cs =>
    match cs with
    | '"' :: rest =>
      match parseStrBody rest with
      | none => none
      | some (kcs, r1) =>
        match skipWs r1 with
        | ':' :: r2 =>
          match parseVal n r2 with
          | none => none
          | some (v, r3) =>
            match skipWs r3 with
            | '}' :: r4 => some ([(String.mk kcs, v)], r4)
            | ',' :: r4 =>
              match parseMembers n (skipWs r4) with
              | none => none
              | some (ms, r5) => some ((String.mk kcs, v) :: ms, r5)
            | _ => none
        | _ => none
    | _ => none
end

/-- `JSON.parse`: parse one value and require only whitespace after it. -/
def parseJson (s : String) : Option JsonValue :=
  match parseVal (s.length + 1) s.data with
  | some (v, rest) => if (skipWs rest).isEmpty then some v else none
  | none => none

/-! ## citationJs.ts (format conversion) -/

/-- The nullish-coalescing operator `a ?? b` on values (with `undefined`
handled by the caller via `Option`). -/
def nullishCoalesce (a b : JsonValue) : JsonValue :=
  match a with
  | .null => b
  | v => v

/-- The id expression `item.id ?? generateCiteKey(item) ?? `ref-(index+1)``
from `convertToFormat`. -/
def assignIdValue (item : Obj) (index : Nat) : JsonValue :=
  match getProp item "id" with
  | some .null =>
    nullishCoalesce (.str (generateCiteKey item)) (.str ("ref-" ++ toString (index + 1)))
  | some v => v
  | none =>
    nullishCoalesce (.str (generateCiteKey item)) (.str ("ref-" ++ toString (index + 1)))

/-- `{...item, id: <assigned id>}`. -/
def withId (item : Obj) (index : Nat) : Obj :=
  setProp item "id" (assignIdValue item index)

/-- The `itemsWithIds` array of `convertToFormat`. -/
def itemsWithIds (items : List Obj) : List Obj :=
  items.enum.map (fun p => withId p.2 p.1)

/-- `formatCslJson`: `JSON.stringify(items)` or `JSON.stringify(items, null, 2)`. -/
def formatCslJson (items : List Obj) (minify : Bool) : String :=
  if minify then String.mk (rVal false 0 (.arr (items.map .obj)))
  else String.mk (rVal true 0 (.arr (items.map .obj)))

/-- `convertToFormat` in the native CSL-JSON case. -/
def convertToCsl (items : List Obj) (minify : Bool) : String :=
  formatCslJson (itemsWithIds items) minify

/-- Left brace as text. -/
def lb : String := "\x7b"

/-- Right brace as text. -/
def rb : String := "\x7d"

/-- `item.type`, defaulting to a failed map lookup when absent. -/
def itemTypeStr (item : Obj) : String := (getStrProp item "type").getD ""

/-- CSL→BibLaTeX type map. -/
def biblatexTypeMap : List (String × String) :=
  [("article-journal", "article"), ("article-magazine", "article"),
   ("article-newspaper", "article"), ("book", "book"), ("chapter", "incollection"),
   ("paper-conference", "inproceedings"), ("thesis", "thesis"), ("report", "report"),
   ("webpage", "online"), ("dataset", "dataset"), ("software", "software")]

/-- `mapCslTypeToBibLaTeX`. -/
def mapCslTypeToBibLaTeX (t : String) : String :=
  (biblatexTypeMap.lookup t).getD "misc"

/-- CSL→BibTeX type map. -/
def bibtexTypeMap : List (String × String) :=
  [("article-journal", "article"), ("article-magazine", "article"),
   ("article-newspaper", "article"), ("book", "book"), ("chapter", "incollection"),
   ("paper-conference", "inproceedings"), ("thesis", "phdthesis"), ("report", "techreport")]

/-- `mapCslTypeToBibTeX`. -/
def mapCslTypeToBibTeX (t : String) : String :=
  (bibtexTypeMap.lookup t).getD "misc"

/-- CSL→RIS type map. -/
def risTypeMap : List (String × String) :=
  [("article-journal", "JOUR"), ("article-magazine", "MGZN"),
   ("article-newspaper", "NEWS"), ("book", "BOOK"), ("chapter", "CHAP"),
   ("paper-conference", "CONF"), ("thesis", "THES"), ("report", "RPRT"),
   ("webpage", "ELEC"), ("dataset", "DATA"), ("software", "COMP")]

/-- `mapCslTypeToRis`. -/
def mapCslTypeToRis (t : String) : String :=
  (risTypeMap.lookup t).getD "GEN"

/-- The family/given rendering of one author in the bracket formats. -/
def authorRenderFam (a : JsonValue) : String :=
  match propOf a "family" with
  | some (.str f) =>
    if f == "" then ""
    else
      match propOf a "given" with
      | some (.str g) => if g == "" then f else f ++ ", " ++ g
      | _ => f
  | _ => ""

/-- One author in the bracket formats: literal as-is, else `Family, Given`,
else `Family`, else dropped. -/
def authorRender (a : JsonValue) : String :=
  match propOf a "literal" with
  | some (.str l) => if l == "" then authorRenderFam a else l
  | _ => authorRenderFam a

/-- `.map(...).filter(Boolean).join(' and ')` over the author array. -/
def joinAuthors (authors : List JsonValue) : String :=
  String.intercalate " and " ((authors.map authorRender).filter (fun s => s != ""))

/-- A conditionally pushed field line `  name = {text}`. -/
def bibField (name : String) (v : Option JsonValue) : List String :=
  match v with
  | some w => if jsTruthy w then ["  " ++ name ++ " = " ++ lb ++ jsToString w ++ rb] else []
  | none => []

/-- The `author` field line of the bracket formats. -/
def bibAuthorField (item : Obj) : List String :=
  match getProp item "author" with
  | some (.arr (a :: as)) =>
    let s := joinAuthors (a :: as)
    if s == "" then [] else ["  author = " ++ lb ++ s ++ rb]
  | _ => []

/-- The `year` field line (first component of the issued date). -/
def bibYearField (item : Obj) : List String :=
  match issuedDp0 item with
  | some v => if jsTruthy v then ["  year = " ++ lb ++ jsToString v ++ rb] else []
  | none => []

/-- `generateBibLaTeXEntry`: manual fallback rendering of one BibLaTeX entry. -/
def generateBibLaTeXEntry (item : Obj) : String :=
  let key := generateCiteKey item
  let type := mapCslTypeToBibLaTeX (itemTypeStr item)
  let containerName := if type == "article" then "journaltitle" else "booktitle"
  let fields : List String :=
    bibAuthorField item ++ bibField "title" (getProp item "title") ++
    bibYearField item ++ bibField containerName (getProp item "container-title") ++
    bibField "volume" (getProp item "volume") ++ bibField "number" (getProp item "issue") ++
    bibField "pages" (getProp item "page") ++ bibField "doi" (getProp item "DOI") ++
    bibField "url" (getProp item "URL") ++ bibField "publisher" (getProp item "publisher") ++
    bibField "isbn" (getProp item "ISBN")
  "@" ++ type ++ lb ++ key ++ ",\n" ++ String.intercalate ",\n" fields ++ "\n" ++ rb

/-- `generateBibTeXEntry`: manual fallback rendering of one BibTeX entry. -/
def generateBibTeXEntry (item : Obj) : String :=
  let key := generateCiteKey item
  let type := mapCslTypeToBibTeX (itemTypeStr item)
  let fields : List String :=
    bibAuthorField item ++ bibField "title" (getProp item "title") ++
    bibYearField item ++ bibField "journal" (getProp item "container-title") ++
    bibField "volume" (getProp item "volume") ++ bibField "number" (getProp item "issue") ++
    bibField "pages" (getProp item "page") ++ bibField "doi" (getProp item "DOI") ++
    bibField "url" (getProp item "URL") ++ bibField "publisher" (getProp item "publisher")
  "@" ++ type ++ lb ++ key ++ ",\n" ++ String.intercalate ",\n" fields ++ "\n" ++ rb

/-- The family/given RIS author line. -/
def risAuthorFam (a : JsonValue) : List String :=
  match propOf a "family" with
  | some (.str f) =>
    if f == "" then []
    else
      match propOf a "given" with
      | some (.str g) => if g == "" then ["AU  - " ++ f] else ["AU  - " ++ f ++ ", " ++ g]
      | _ => ["AU  - " ++ f]
  | _ => []

/-- One author's RIS `AU` line, if any. -/
def risAuthor (a : JsonValue) : List String :=
  match propOf a "literal" with
  | some (.str l) =>
    if l == "" then risAuthorFam a else ["AU  - " ++ l]
  | _ => risAuthorFam a

/-- A conditionally pushed RIS line `TAG  - text`. -/
def risField (tag : String) (v : Option JsonValue) : List String :=
  match v with
  | some w => if jsTruthy w then [tag ++ "  - " ++ jsToString w] else []
  | none => []

/-- The RIS `SP`/`EP` lines from a `page` range split on hyphens. -/
def risPages (item : Obj) : List String :=
  match getProp item "page" with
  | some (.str s) =>
    if s == "" then []
    else
      let parts := s.splitOn "-"
      let spLines :=
        match parts.head? with
        | some sp => if sp == "" then [] else ["SP  - " ++ jsTrim sp]
        | none => []
      let epLines :=
        match parts.get? 1 with
        | some ep => if ep == "" then [] else ["EP  - " ++ jsTrim ep]
        | none => []
      spLines ++ epLines
  | _ => []

/-- `generateRisEntry`: manual fallback rendering of one RIS record. -/
def generateRisEntry (item : Obj) : String :=
  let lines : List String :=
    ["TY  - " ++ mapCslTypeToRis (itemTypeStr item)] ++
    (match getProp item "author" with
     | some (.arr l) => l.foldr (fun a acc => risAuthor a ++ acc) []
     | _ => []) ++
    risField "TI" (getProp item "title") ++
    (match issuedDp0 item with
     | some v => if jsTruthy v then ["PY  - " ++ jsToString v] else []
     | none => []) ++
    risField "JO" (getProp item "container-title") ++
    risField "VL" (getProp item "volume") ++
    risField "IS" (getProp item "issue") ++
    risPages item ++
    risField "DO" (getProp item "DOI") ++
    risField "UR" (getProp item "URL") ++
    risField "PB" (getProp item "publisher") ++
    ["ER  - ", ""]
  String.intercalate "\n" lines

/-- `manualBibLaTeX`. -/
def manualBibLaTeX (items : List Obj) : String :=
  String.intercalate "\n\n" (items.map generateBibLaTeXEntry)

/-- `manualBibTeX`. -/
def manualBibTeX (items : List Obj) : String :=
  String.intercalate "\n\n" (items.map generateBibTeXEntry)

/-- `manualRis`. -/
def manualRis (items : List Obj) : String :=
  String.intercalate "\n" (items.map generateRisEntry)

/-! ## docx.ts (citation payload extraction) -/

/-- Truthiness of a property (absent behaves like `undefined`). -/
def truthyProp (o : Obj) (k : String) : Bool :=
  jsTruthy ((getProp o k).getD .null)

/-- The loop of `findBalancedBrace`: scan with depth / in-string / escape
state, reporting the index where the depth first returns to zero at a `}`. -/
def fbbGo : List Char → Nat → Int → Bool → Bool → Option Nat
  | [], _, _, _, _ => none
  | c :: rest, i, depth, inString, escape =>
    if escape then fbbGo rest (i + 1) depth inString false
    else if c == '\\' && inString then fbbGo rest (i + 1) depth inString true
    else if c == '"' then fbbGo rest (i + 1) depth (!inString) false
    else if inString then fbbGo rest (i + 1) depth inString false
    else if c == '{' then fbbGo rest (i + 1) (depth + 1) inString false
    else if c == '}' then
      if depth - 1 == 0 then some i else fbbGo rest (i + 1) (depth - 1) inString false
    else fbbGo rest (i + 1) depth inString false

/-- `findBalancedBrace(text, start)`. -/
def findBalancedBrace (cs : List Char) (start : Nat) : Option Nat :=
  fbbGo (cs.drop start) start 0 false false

/-- The three marker literals matched by
`/ADDIN (?:ZOTERO_ITEM |ZOTERO_BIBL |CSL_CITATION )/g`. -/
def markerStrs : List String :=
  ["ADDIN ZOTERO_ITEM ", "ADDIN ZOTERO_BIBL ", "ADDIN CSL_CITATION "]

/-- Length of the marker matching at the head of the input, if any (the three
alternatives are mutually exclusive at any position). -/
def markerAt (cs : List Char) : Option Nat :=
  (markerStrs.find? (fun m => cs.take m.data.length == m.data)).map (fun m => m.length)

/-- Fuelled worker for `scanMarkers`: the fuel bounds the number of characters
still to scan (every step consumes at least one), keeping the recursion
structural. -/
def scanMarkersGo : Nat → List Char → Nat → List Nat
  | 0, _, _ => []
  | _ + 1, [], _ => []
  | fuel + 1, c :: rest, i =>
    match markerAt (c :: rest) with
    | some len => (i + len) :: scanMarkersGo fuel (rest.drop (len - 1)) (i + len)
    | none => scanMarkersGo fuel rest (i + 1)

/-- Positions directly after each marker occurrence, scanning left to right
with the search resuming past each match (the `lastIndex` behaviour of a
global-regex `exec` loop). -/
def scanMarkers (cs : List Char) (i : Nat) : List Nat :=
  scanMarkersGo cs.length cs i

/-- `text.indexOf(c, start)`. -/
def indexOfFrom (cs : List Char) (c : Char) (start : Nat) : Option Nat :=
  match (cs.drop start).findIdx? (fun x => x == c) with
  | some j => some (start + j)
  | none => none

/-- The block contributed by one marker ending at position `e`: the text from
the next `{` to its balanced closing brace, if both exist. -/
def blockAt (cs : List Char) (e : Nat) : Option (List Char) :=
  match indexOfFrom cs '{' e with
  | none => none
  | some js =>
    match findBalancedBrace cs js with
    | none => none
    | some je => some ((cs.drop js).take (je + 1 - js))

/-- `extractJsonBlocks`: for each marker, find the next `{` and its balanced
closing brace; unmatched or unbalanced occurrences contribute nothing. -/
def extractJsonBlocks (cs : List Char) : List (List Char) :=
  (scanMarkers cs 0).filterMap (blockAt cs)

/-! ### zod schemas from types.ts

Each schema is modelled as a function returning the transformed (`parse`d)
value: unknown keys are stripped by plain `z.object` schemas and preserved
after the declared keys by `.passthrough()`. -/

/-- `z.string()`. -/
def zodString : JsonValue → Option JsonValue
  | .str s => some (.str s)
  | _ => none

/-- `z.number()`. -/
def zodNumber : JsonValue → Option JsonValue
  | .num n => some (.num n)
  | _ => none

/-- `z.boolean()`. -/
def zodBoolean : JsonValue → Option JsonValue
  | .bool b => some (.bool b)
  | _ => none

/-- `z.union([f, g])`: first success wins. -/
def zodUnion2 (f g : JsonValue → Option JsonValue) (v : JsonValue) : Option JsonValue :=
  match f v with
  | some r => some r
  | none => g v

/-- `z.record(z.unknown())`. -/
def zodRecordUnknown : JsonValue → Option JsonValue
  | .obj fs => some (.obj fs)
  | _ => none

/-- `z.array(f)`. -/
def zodArray (f : JsonValue → Option JsonValue) : JsonValue → Option JsonValue
  | .arr xs => (xs.mapM f).map .arr
  | _ => none

/-- One (possibly optional) field of a `z.object` schema: the validated
key/value singleton, the empty list when an optional key is absent, failure
otherwise. -/
def zodObjField (o : Obj) (k : String) (f : JsonValue → Option JsonValue)
    (required : Bool) : Option (List (String × JsonValue)) :=
  match getProp o k with
  | none => if required then none else some []
  | some v => (f v).map (fun r => [(k, r)])

/-- `CslNameSchema`. -/
def zodCslName (v : JsonValue) : Option JsonValue :=
  match v with
  | .obj o => do
    let f1 ← zodObjField o "family" zodString false
    let f2 ← zodObjField o "given" zodString false
    let f3 ← zodObjField o "literal" zodString false
    let f4 ← zodObjField o "dropping-particle" zodString false
    let f5 ← zodObjField o "non-dropping-particle" zodString false
    let f6 ← zodObjField o "suffix" zodString false
    some (.obj (f1 ++ f2 ++ f3 ++ f4 ++ f5 ++ f6))
  | _ => none

/-- `CslDateSchema`. -/
def zodCslDate (v : JsonValue) : Option JsonValue :=
  match v with
  | .obj o => do
    let f1 ← zodObjField o "date-parts" (zodArray (zodArray (zodUnion2 zodNumber zodString))) false
    let f2 ← zodObjField o "season" (zodUnion2 zodNumber zodString) false
    let f3 ← zodObjField o "circa" (zodUnion2 zodBoolean (zodUnion2 zodNumber zodString)) false
    let f4 ← zodObjField o "literal" zodString false
    let f5 ← zodObjField o "raw" zodString false
    some (.obj (f1 ++ f2 ++ f3 ++ f4 ++ f5))
  | _ => none

/-- The declared keys of `CslItemSchema` (everything else passes through). -/
def cslItemKeys : List String :=
  ["type", "id", "DOI", "ISBN", "ISSN", "PMID", "PMCID", "URL",
   "title", "title-short", "container-title", "container-title-short", "collection-title",
   "author", "editor", "translator", "collection-editor", "container-author",
   "issued", "accessed", "event-date", "submitted",
   "volume", "issue", "page", "page-first", "number-of-pages", "edition",
   "publisher", "publisher-place",
   "abstract", "language", "note", "keyword", "citation-key", "citation-label"]

/-- Validate a sequence of optional fields in declaration order. -/
def zodOptFields (o : Obj) :
    List (String × (JsonValue → Option JsonValue)) → Option (List (String × JsonValue))
  | [] => some []
  | (k, f) :: rest => do
    let x ← zodObjField o k f false
    let xs ← zodOptFields o rest
    some (x ++ xs)

/-- The optional fields of `CslItemSchema`, in declaration order. -/
def cslItemFieldSpecs : List (String × (JsonValue → Option JsonValue)) :=
  [("id", zodUnion2 zodString zodNumber),
   ("DOI", zodString), ("ISBN", zodString), ("ISSN", zodString),
   ("PMID", zodString), ("PMCID", zodString), ("URL", zodString),
   ("title", zodString), ("title-short", zodString), ("container-title", zodString),
   ("container-title-short", zodString), ("collection-title", zodString),
   ("author", zodArray zodCslName), ("editor", zodArray zodCslName),
   ("translator", zodArray zodCslName), ("collection-editor", zodArray zodCslName),
   ("container-author", zodArray zodCslName),
   ("issued", zodCslDate), ("accessed", zodCslDate),
   ("event-date", zodCslDate), ("submitted", zodCslDate),
   ("volume", zodUnion2 zodString zodNumber), ("issue", zodUnion2 zodString zodNumber),
   ("page", zodString), ("page-first", zodString),
   ("number-of-pages", zodUnion2 zodString zodNumber),
   ("edition", zodUnion2 zodString zodNumber),
   ("publisher", zodString), ("publisher-place", zodString),
   ("abstract", zodString), ("language", zodString), ("note", zodString),
   ("keyword", zodString), ("citation-key", zodString), ("citation-label", zodString)]

/-- `CslItemSchema` (with `.passthrough()`). -/
def zodCslItem (v : JsonValue) : Option JsonValue :=
  match v with
  | .obj o => do
    let t ← zodObjField o "type" zodString true
    let fs ← zodOptFields o cslItemFieldSpecs
    let extras := o.filter (fun kv => !(cslItemKeys.contains kv.1))
    some (.obj (t ++ fs ++ extras))
  | _ => none

/-- `ZoteroCitationItemSchema`. -/
def zodZoteroCitationItem (v : JsonValue) : Option JsonValue :=
  match v with
  | .obj o => do
    let f1 ← zodObjField o "id" (zodUnion2 zodString zodNumber) false
    let f2 ← zodObjField o "uris" (zodArray zodString) false
    let f3 ← zodObjField o "itemData" zodCslItem false
    let f4 ← zodObjField o "locator" zodString false
    let f5 ← zodObjField o "label" zodString false
    let f6 ← zodObjField o "prefix" zodString false
    let f7 ← zodObjField o "suffix" zodString false
    let f8 ← zodObjField o "suppress-author" zodBoolean false
    some (.obj (f1 ++ f2 ++ f3 ++ f4 ++ f5 ++ f6 ++ f7 ++ f8))
  | _ => none

/-- `ZoteroCitationSchema`. -/
def zodZoteroCitation (v : JsonValue) : Option JsonValue :=
  match v with
  | .obj o => do
    let f1 ← zodObjField o "citationID" zodString false
    let f2 ← zodObjField o "citationItems" (zodArray zodZoteroCitationItem) false
    let f3 ← zodObjField o "properties" zodRecordUnknown false
    let f4 ← zodObjField o "schema" zodString false
    some (.obj (f1 ++ f2 ++ f3 ++ f4))
  | _ => none

/-- `extractItemData` (the relaxed-fallback acceptance): requires a truthy
object-typed `itemData` with a truthy `type`. -/
def extractItemDataM (item : JsonValue) : Option Obj :=
  match propOf item "itemData" with
  | some (.obj io) =>
    (match getProp io "type" with
     | some tv => if jsTruthy tv then some io else none
     | none => none)
  | _ => none

/-- The strict-path handling of one (schema-transformed) citation item in
`parseCitationJson`. -/
def strictItemRefs (ci : JsonValue) : List Obj :=
  match propOf ci "itemData" with
  | some idv =>
    if jsTruthy idv then
      match zodCslItem idv with
      | some (.obj item) => [item]
      | _ =>
        match idv with
        | .obj io => if truthyProp io "type" then [io] else []
        | _ => []
    else []
  | none => []

/-- `parseCitationJson`: `JSON.parse`, strict schema validation with the
relaxed fallback.  `none` models the thrown `JsonParseError`. -/
def parseCitationJson (jsonStr : String) : Option (List Obj) :=
  match parseJson jsonStr with
  | none => none
  | some parsed =>
    match zodZoteroCitation parsed with
    | some (.obj citation) =>
      (match getProp citation "citationItems" with
       | some (.arr citationItems) =>
         some (citationItems.foldr (fun ci acc => strictItemRefs ci ++ acc) [])
       | _ => some [])
    | _ =>
      match parsed with
      | .obj po =>
        (match getProp po "citationItems" with
         | some (.arr items) => some (items.filterMap extractItemDataM)
         | _ => some [])
      | _ => some []

/-- The items extracted from one part's concatenated instruction text (json
parse failures of single blocks are caught and skipped). -/
def docxExtractItems (text : String) : List Obj :=
  ((extractJsonBlocks text.data).map
    (fun b => (parseCitationJson (String.mk b)).getD [])).flatten

/-- The final output list of the pipeline for a batch of extracted items. -/
def pipelineItems (refs : List Obj) : List Obj :=
  (normalizeRefs refs).1

/-- Extraction plus normalization on one instruction text. -/
def docxPipeline (text : String) : List Obj :=
  pipelineItems (docxExtractItems text)

/-! ## pdf.ts (TEI → CSL mapping) -/

mutual
/-- `extractText(element)` without a type filter. -/
def extractTextPlain : JsonValue → Option String
  | .str s => if s == "" then none else some (jsTrim s)
  | .arr xs => textFromListPlain xs
  | .obj o =>
    (match getProp o "#text" with
     | some tv => some (jsTrim (jsToString tv))
     | none => textFromKeys o)
  | _ => none

/-- The array loop of `extractText` without a type filter: first truthy text. -/
def textFromListPlain : List JsonValue → Option String
  | [] => none
  | el :: rest =>
    match extractTextPlain el with
    | some t => if t == "" then textFromListPlain rest else some t
    | none => textFromListPlain rest

/-- The non-attribute-key loop of `extractText`'s object branch. -/
def textFromKeys : Obj → Option String
  | [] => none
  | (k, v) :: rest =>
    if strStarts k "@_" then textFromKeys rest
    else
      match extractTextPlain v with
      | some t => if t == "" then textFromKeys rest else some t
      | none => textFromKeys rest
end

/-- Attribute comparison `el[k] === ty`. -/
def attrEq (v : JsonValue) (k ty : String) : Bool :=
  match propOf v k with
  | some (.str s) => s == ty
  | _ => false

/-- The array loop of `extractText` with a type filter on the elements. -/
def textFromListTyped (ty : String) : List JsonValue → Option String
  | [] => none
  | el :: rest =>
    if attrEq el "@_unit" ty || attrEq el "@_type" ty then
      match extractTextPlain el with
      | some t => if t == "" then textFromListTyped ty rest else some t
      | none => textFromListTyped ty rest
    else textFromListTyped ty rest

/-- `extractText(element, type)` with a type filter. -/
def extractTextTyped (ty : String) : JsonValue → Option String
  | .str s => if s == "" then none else some (jsTrim s)
  | .arr xs => textFromListTyped ty xs
  | .obj o =>
    if attrEq (.obj o) "@_unit" ty || attrEq (.obj o) "@_type" ty then
      (match getProp o "#text" with
       | some tv => some (jsTrim (jsToString tv))
       | none => textFromKeys o)
    else none
  | _ => none

/-- Truthiness of an optional string. -/
def truthyOptStr : Option String → Bool
  | some s => s != ""
  | none => false

/-- The structured-name case of `extractAuthors`. -/
def authorFromPers (pers : JsonValue) : Option Obj :=
  let forename := match propOf pers "forename" with
    | some v => extractTextPlain v
    | none => none
  let surname := match propOf pers "surname" with
    | some v => extractTextPlain v
    | none => none
  if truthyOptStr surname || truthyOptStr forename then
    some ((match surname with | some s => [("family", JsonValue.str s)] | none => []) ++
      (match forename with | some g => [("given", JsonValue.str g)] | none => []))
  else none

/-- The literal-name case of `extractAuthors`. -/
def literalFrom (v : JsonValue) : Option Obj :=
  match extractTextPlain v with
  | some n => if n == "" then none else some [("literal", JsonValue.str n)]
  | none => none

/-- `extractAuthors`. -/
def extractAuthors (authorElement : Option JsonValue) : List Obj :=
  match authorElement with
  | none => []
  | some ae =>
    let authorList := match ae with
      | .arr xs => xs
      | v => [v]
    authorList.filterMap (fun author =>
      match author with
      | .obj ao =>
        (match getProp ao "persName" with
         | some pers => if jsTruthy pers then authorFromPers pers else literalFrom author
         | none => literalFrom author)
      | .arr xs => literalFrom (.arr xs)
      | _ => none)

/-- `extractIdentifiers`: read the typed `idno` list into the item. -/
def extractIdentifiers (src : Obj) (item : Obj) : Obj :=
  match getProp src "idno" with
  | none => item
  | some idno =>
    if !(jsTruthy idno) then item
    else
      let idList := match idno with
        | .arr xs => xs
        | v => [v]
      idList.foldl
        (fun it idv =>
          match idv with
          | .obj io =>
            (match getStrProp io "@_type", extractTextPlain (.obj io) with
             | some t, some v2 =>
               if t == "" || v2 == "" then it
               else
                 match t.toUpper with
                 | "DOI" => setProp it "DOI" (.str v2)
                 | "PMID" => setProp it "PMID" (.str v2)
                 | "PMCID" => setProp it "PMCID" (.str v2)
                 | "ISSN" => setProp it "ISSN" (.str v2)
                 | "ISBN" => setProp it "ISBN" (.str v2)
                 | _ => it
             | _, _ => it)
          | _ => it)
        item

/-- `parseInt(s, 10)` (decimal prefix parse with sign, `NaN` as `none`). -/
def jsParseInt (s : String) : Option Int :=
  let cs := s.data.dropWhile (fun c => c.isWhitespace)
  let signAndRest : Bool × List Char :=
    match cs with
    | '-' :: r => (true, r)
    | '+' :: r => (false, r)
    | r => (false, r)
  let ds := signAndRest.2.takeWhile Char.isDigit
  if ds.isEmpty then none
  else
    let m : Int := (ds.foldl (fun acc c => 10 * acc + (c.toNat - '0'.toNat)) 0 : Nat)
    some (if signAndRest.1 then -m else m)

/-- `parseInt(year.substring(0, 4), 10)`. -/
def parseIntPre4 (s : String) : Option Int :=
  jsParseInt (String.mk (s.data.take 4))

/-- Conditionally assign a truthy extracted text. -/
def assignTruthyStr (it : Obj) (k : String) (ov : Option String) : Obj :=
  match ov with
  | some s => if s == "" then it else setProp it k (.str s)
  | none => it

/-- The year string chosen from a TEI `date` element:
`typeof date === 'string' ? date : date['@_when'] || date['#text']`. -/
def teiYearOf (d : JsonValue) : Option String :=
  match d with
  | .str s => some s
  | _ =>
    let avail := match propOf d "@_when" with
      | some (.str s) => if s == "" then none else some s
      | _ => none
    match avail with
    | some s => some s
    | none =>
      match propOf d "#text" with
      | some (.str s) => some s
      | _ => none

/-- The `imprint` block of `biblStructToCsl`. -/
def imprintInto (mg : JsonValue) (it0 : Obj) : Obj :=
  match propOf mg "imprint" with
  | some imp =>
    if jsTruthy imp then
      let volume := match propOf imp "biblScope" with
        | some bs => extractTextTyped "volume" bs
        | none => none
      let issue := match propOf imp "biblScope" with
        | some bs => extractTextTyped "issue" bs
        | none => none
      let pages := match propOf imp "biblScope" with
        | some bs => extractTextTyped "page" bs
        | none => none
      let it := assignTruthyStr it0 "volume" volume
      let it := assignTruthyStr it "issue" issue
      let it := assignTruthyStr it "page" pages
      let it :=
        match propOf imp "date" with
        | some d =>
          if jsTruthy d then
            match teiYearOf d with
            | some y =>
              if y == "" then it
              else
                match parseIntPre4 y with
                | some yn => setProp it "issued" (.obj [("date-parts", .arr [.arr [.num yn]])])
                | none => it
            | none => it
          else it
        | none => it
      let publisher := match propOf imp "publisher" with
        | some pv => extractTextPlain pv
        | none => none
      assignTruthyStr it "publisher" publisher
    else it0
  | none => it0

/-- The `analytic` block of `biblStructToCsl`. -/
def analyticInto (an : JsonValue) (it0 : Obj) : Obj :=
  let title := match propOf an "title" with
    | some tv => extractTextPlain tv
    | none => none
  let it := assignTruthyStr it0 "title" title
  let authors := extractAuthors (propOf an "author")
  let it := if authors.isEmpty then it else setProp it "author" (.arr (authors.map .obj))
  match an with
  | .obj ao => extractIdentifiers ao it
  | _ => it

/-- The `monogr` block of `biblStructToCsl`. -/
def monogrInto (mg : JsonValue) (it0 : Obj) : Obj :=
  let containerTitle := match propOf mg "title" with
    | some tv => extractTextPlain tv
    | none => none
  let it := assignTruthyStr it0 "container-title" containerTitle
  let it :=
    if !(truthyProp it "title") then
      let it :=
        match containerTitle with
        | some ct => setProp it "title" (.str ct)
        | none => it
      setProp it "type" (.str "book")
    else it
  let it := imprintInto mg it
  let it :=
    if !(truthyProp it "author") then
      let authors := extractAuthors (propOf mg "author")
      if authors.isEmpty then it else setProp it "author" (.arr (authors.map .obj))
    else it
  match mg with
  | .obj mo => extractIdentifiers mo it
  | _ => it

/-- `biblStructToCsl`: map one TEI `biblStruct` to a CSL item, requiring at
least a truthy title. -/
def biblStructToCsl (bibl : JsonValue) : Option Obj :=
  match bibl with
  | .obj o =>
    let item0 : Obj := [("type", .str "article-journal")]
    let item1 :=
      match getProp o "analytic" with
      | some an => if jsTruthy an then analyticInto an item0 else item0
      | none => item0
    let item2 :=
      match getProp o "monogr" with
      | some mg => if jsTruthy mg then monogrInto mg item1 else item1
      | none => item1
    let item3 := extractIdentifiers o item2
    if truthyProp item3 "title" then some item3 else none
  | _ => none

mutual
/-- `findElements`: collect every element named `name` anywhere in the tree
(an array-valued match contributes its elements). -/
def findElems (name : String) : JsonValue → List JsonValue
  | .obj o =>
    (match getProp o name with
     | some (.arr vs) => vs
     | some v => [v]
     | none => []) ++ findElemsFields name o
  | .arr xs => findElemsList name xs
  | _ => []

/-- Recursion of `findElements` into the property values. -/
def findElemsFields (name : String) : Obj → List JsonValue
  | [] => []
  | (_, v) :: rest =>
    (match v with
     | .arr xs => findElemsList name xs
     | .obj o2 => findElems name (.obj o2)
     | _ => []) ++ findElemsFields name rest

/-- Recursion of `findElements` over an array's items. -/
def findElemsList (name : String) : List JsonValue → List JsonValue
  | [] => []
  | x :: xs => findElems name x ++ findElemsList name xs
end

/-- `parseTeiToCsl` on an already-parsed TEI document tree. -/
def parseTeiToCsl (doc : JsonValue) : List Obj :=
  (findElems "biblStruct" doc).filterMap biblStructToCsl

/-! ## Claim-side definitions

These definitions follow the wording of spec claims (not the source); each is
compared against the corresponding source-derived function above. -/

/-- C9, claim wording: string fields trimmed; inside array-valued fields each
person name (an object) has its string-valued fields trimmed; every other
value passes through unchanged. -/
def specC9ValueClaim : JsonValue → JsonValue
  | .str s => .str (jsTrim s)
  | .arr xs =>
    .arr (xs.map (fun v =>
      match v with
      | .obj fs => .obj (fs.map (fun kv => (kv.1, trimStrV kv.2)))
      | w => w))
  | w => w

/-- C9, amended wording: as the claim, except that an array element that is
itself an array is rebuilt as an index-keyed plain object (with its string
elements trimmed), because `trimName` enumerates it with `Object.entries`. -/
def specC9ValueAmended : JsonValue → JsonValue
  | .str s => .str (jsTrim s)
  | .arr xs =>
    .arr (xs.map (fun v =>
      match v with
      | .obj fs => .obj (fs.map (fun kv => (kv.1, trimStrV kv.2)))
      | .arr ys => .obj (ys.enum.map (fun p => (toString p.1, trimStrV p.2)))
      | w => w))
  | w => w

/-- C9 counterexample item: an array-valued field holding a nested array. -/
def exC9item : Obj := [("keyword", .arr [.arr [.str " a "]])]

/-- C7, claim wording: the literal-name normalization of the deduplication
engine (first word of the literal, lowercased, non-letters stripped). -/
def specC7LitName (first : JsonValue) : String :=
  match propOf first "literal" with
  | some (.str l) => if l == "" then "unknown" else asciiLowerOnly (firstWordOf l)
  | _ => "unknown"

/-- C7, claim wording: the normalized first-author family name. -/
def specC7FamilyName (first : JsonValue) : String :=
  match propOf first "family" with
  | some (.str f) => if f == "" then specC7LitName first else asciiLowerOnly f
  | _ => specC7LitName first

/-- C7, claim wording: the Author component, the literal `"Unknown"` exactly
when no author exists. -/
def specC7Author (item : Obj) : String :=
  match getProp item "author" with
  | some (.arr (first :: _)) => capFirst (specC7FamilyName first)
  | _ => "Unknown"

/-- C7, claim wording: first title word that cleans (lowercase, letters only)
to a non-empty word outside the stop-list, capitalized; `"Untitled"` when the
title is empty or every word is stopped. -/
def specC7TitleWord (title : String) : String :=
  match ((titleWords title).map cleanWord).filter
      (fun c => !(c == "" || skipWordsList.contains c)) with
  | [] => "Untitled"
  | c :: _ => capFirst c

/-- C7, claim wording: `{Author}{Year}{TitleWord}`. -/
def specC7CiteKey (item : Obj) : String :=
  specC7Author item ++ extractYear item ++
    specC7TitleWord ((getStrProp item "title").getD "")

/-- C7, amended wording: the Author component is `"Unknown"` also when the
normalized first-author name is empty. -/
def amendedC7Author (item : Obj) : String :=
  match getProp item "author" with
  | some (.arr (first :: _)) =>
    let n := specC7FamilyName first
    if n == "" then "Unknown" else capFirst n
  | _ => "Unknown"

/-- C7, amended claim key. -/
def amendedC7CiteKey (item : Obj) : String :=
  amendedC7Author item ++ extractYear item ++
    specC7TitleWord ((getStrProp item "title").getD "")

/-- C7 counterexample item: an author whose family name strips to empty. -/
def exC7item : Obj :=
  [("type", .str "a"), ("author", .arr [.obj [("family", .str "123")]]),
   ("title", .str "test")]

/-- C8 counterexample item: a record with an explicit `id`. -/
def exC8item : Obj :=
  [("type", .str "article-journal"), ("id", .str "Custom2020"),
   ("title", .str "A Test Article About Testing"),
   ("author", .arr [.obj [("family", .str "Smith"), ("given", .str "John")]]),
   ("issued", .obj [("date-parts", .arr [.arr [.num 2023]])])]

/-- C2: no strippable DOI prefix at the start (used to state the amended
prefix-equality claim for DOIs that are not themselves prefixed). -/
def noDoiPre (s : String) : Bool :=
  !(doiUrlPres.any (fun q => strStarts s q)) && !(strStarts s "doi:")

/-- C2 counterexample: a present-but-empty DOI with a URL. -/
def exC2a : Obj := [("DOI", .str ""), ("URL", .str "https://x")]

/-- C2 counterexample: a DOI that is the prefixed form of `exC2c`'s DOI. -/
def exC2b : Obj := [("DOI", .str "https://doi.org/https://doi.org/10.1/x")]

/-- C2 counterexample: a DOI that itself begins with `https://doi.org/`. -/
def exC2c : Obj := [("DOI", .str "https://doi.org/10.1/x")]

/-- C6: the triple of normalized sort keys used by the comparator. -/
def sortKey (item : Obj) : String × String × String :=
  (getFirstAuthorFamily item, extractYear item,
    normalizeTitle ((getStrProp item "title").getD ""))

/-- C6: lexicographic order on the sort-key triples. -/
def keyLe (a b : String × String × String) : Prop :=
  a.1 < b.1 ∨ (a.1 = b.1 ∧ (a.2.1 < b.2.1 ∨ (a.2.1 = b.2.1 ∧ a.2.2 ≤ b.2.2)))

/-- C10: the id assignment with the positional `ref-` fallback removed. -/
def assignIdNoRef (item : Obj) : JsonValue :=
  match getProp item "id" with
  | some .null => .str (generateCiteKey item)
  | some v => v
  | none => .str (generateCiteKey item)

/-- C5: characters that are inert for the brace scanner outside a string
(neither a quote nor a brace). -/
abbrev OutNeutral (c : Char) : Prop :=
  (c == '"') = false ∧ (c == '{') = false ∧ (c == '}') = false

/-- C5: the scanner passes over `cs` out-of-string at any depth of at least 1
without terminating, advancing the index and preserving the state. -/
def ScansThru (cs : List Char) : Prop :=
  ∀ (rest : List Char) (i : Nat) (d : Int), 1 ≤ d →
    fbbGo (cs ++ rest) i d false false = fbbGo rest (i + cs.length) d false false

/-- C4: the input directly after a rendered number never continues the
numeric literal (no digit, decimal point or exponent marker). -/
abbrev BoundaryOk : List Char → Prop
  | [] => True
  | c :: _ => c.isDigit = false ∧ c ≠ '.' ∧ c ≠ 'e' ∧ c ≠ 'E'

/-- C1: a DOCX instruction text whose single citation item carries an
`itemData` with a `type` but neither a title nor any identifier. -/
def exC1text : String :=
  "ADDIN ZOTERO_BIBL \x7b\"citationItems\":[\x7b\"itemData\":\x7b\"type\":\"article-journal\"\x7d\x7d]\x7d"

/-! # Verification -/

mutual
theorem beqJV_eq : ∀ a b, beqJV a b = true ↔ a = b
  | .null, b => by cases b <;> simp [beqJV]
  | .bool x, b => by cases b <;> simp [beqJV]
  | .num x, b => by cases b <;> simp [beqJV]
  | .str x, b => by cases b <;> simp [beqJV]
  | .arr xs, b => by
    cases b <;> simp [beqJV]
    case arr ys => exact beqJVList_eq xs ys
  | .obj fs, b => by
    cases b <;> simp [beqJV]
    case obj gs => exact beqJVObj_eq fs gs

theorem beqJVList_eq : ∀ xs ys, beqJVList xs ys = true ↔ xs = ys
  | [], ys => by cases ys <;> simp [beqJVList]
  | x :: xs, ys => by
    cases ys with
    | nil => simp [beqJVList]
    | cons y ys =>
      simp only [beqJVList, Bool.and_eq_true, List.cons.injEq]
      exact and_congr (beqJV_eq x y) (beqJVList_eq xs ys)

theorem beqJVObj_eq : ∀ xs ys, beqJVObj xs ys = true ↔ xs = ys
  | [], ys => by cases ys <;> simp [beqJVObj]
  | (k1, v1) :: xs, ys => by
    cases ys with
    | nil => simp [beqJVObj]
    | cons y ys =>
      obtain ⟨k2, v2⟩ := y
      simp only [beqJVObj, Bool.and_eq_true, List.cons.injEq, Prod.mk.injEq,
        beq_iff_eq, and_assoc]
      exact and_congr_right fun _ =>
        and_congr (beqJV_eq v1 v2) (beqJVObj_eq xs ys)
end

instance : DecidableEq JsonValue := fun a b => decidable_of_iff _ (beqJV_eq a b)

/-! ## Object-access lemmas -/

theorem getProp_cons (k1 : String) (v1 : JsonValue) (rest : Obj) (k : String) :
    getProp ((k1, v1) :: rest) k = if k = k1 then some v1 else getProp rest k := by
  by_cases h : k = k1
  · simp [getProp, List.lookup, h]
  · simp [getProp, List.lookup, beq_false_of_ne h, h]

theorem getProp_map_replace (tl : Obj) (k : String) (v : JsonValue) (k' : String)
    (h : k' ≠ k) :
    getProp (tl.map (fun kv => if kv.1 == k then (kv.1, v) else kv)) k' = getProp tl k' := by
  induction tl with
  | nil => rfl
  | cons hd tl ih =>
    obtain ⟨k1, v1⟩ := hd
    by_cases h1 : k1 = k
    · subst h1
      simp only [List.map_cons, beq_self_eq_true, if_true, getProp_cons, if_neg h]
      exact ih
    · simp only [List.map_cons, beq_false_of_ne h1, Bool.false_eq_true, if_false,
        getProp_cons]
      by_cases h2 : k' = k1
      · simp [h2]
      · simp only [if_neg h2]
        exact ih

theorem getProp_map_replace_self (tl : Obj) (k : String) (v : JsonValue)
    (hs : (getProp tl k).isSome) :
    getProp (tl.map (fun kv => if kv.1 == k then (kv.1, v) else kv)) k = some v := by
  induction tl with
  | nil => simp [getProp, List.lookup] at hs
  | cons hd tl ih =>
    obtain ⟨k1, v1⟩ := hd
    by_cases h1 : k1 = k
    · subst h1
      simp [List.map_cons, getProp_cons]
    · rw [getProp_cons, if_neg (Ne.symm h1)] at hs
      simp only [List.map_cons, beq_false_of_ne h1, Bool.false_eq_true, if_false,
        getProp_cons, if_neg (Ne.symm h1)]
      exact ih hs

theorem getProp_append_single (tl : Obj) (k : String) (v : JsonValue) (k' : String)
    (h : k' ≠ k) : getProp (tl ++ [(k, v)]) k' = getProp tl k' := by
  induction tl with
  | nil => simp [getProp, List.lookup, beq_false_of_ne h]
  | cons hd tl ih =>
    obtain ⟨k1, v1⟩ := hd
    simp only [List.cons_append, getProp_cons]
    by_cases h2 : k' = k1
    · simp [h2]
    · simp only [if_neg h2]
      exact ih

theorem getProp_append_single_self (tl : Obj) (k : String) (v : JsonValue)
    (hs : getProp tl k = none) : getProp (tl ++ [(k, v)]) k = some v := by
  induction tl with
  | nil => simp [getProp, List.lookup]
  | cons hd tl ih =>
    obtain ⟨k1, v1⟩ := hd
    rw [getProp_cons] at hs
    by_cases h2 : k = k1
    · rw [if_pos h2] at hs; exact absurd hs (by simp)
    · rw [if_neg h2] at hs
      simp only [List.cons_append, getProp_cons, if_neg h2]
      exact ih hs

theorem getProp_setProp_self (o : Obj) (k : String) (v : JsonValue) :
    getProp (setProp o k v) k = some v := by
  unfold setProp
  by_cases hs : (List.lookup k o).isSome
  · rw [if_pos hs]
    exact getProp_map_replace_self o k v hs
  · rw [if_neg hs]
    refine getProp_append_single_self o k v ?_
    exact Option.not_isSome_iff_eq_none.mp hs

theorem getProp_setProp_ne (o : Obj) (k : String) (v : JsonValue) (k' : String)
    (h : k' ≠ k) : getProp (setProp o k v) k' = getProp o k' := by
  unfold setProp
  by_cases hs : (List.lookup k o).isSome
  · rw [if_pos hs]
    exact getProp_map_replace o k v k' h
  · rw [if_neg hs]
    exact getProp_append_single o k v k' h

/-! ## C3: `mergeItems` is non-destructive -/

theorem mergeStep_ne (t : Obj) (kv : String × JsonValue) (k : String)
    (h : kv.1 ≠ k) : getProp (mergeStep t kv) k = getProp t k := by
  unfold mergeStep
  split
  · rfl
  · split
    · split
      · exact getProp_setProp_ne _ _ _ _ (Ne.symm h)
      · rfl
    · exact getProp_setProp_ne _ _ _ _ (Ne.symm h)

theorem mergeItems_cons (t : Obj) (kv : String × JsonValue) (s : Obj) :
    mergeItems t (kv :: s) = mergeItems (mergeStep t kv) s := by
  simp [mergeItems, List.foldl]

theorem mergeItems_preserve : ∀ (s t : Obj) (k : String) (v : JsonValue),
    getProp t k = some v → jsEmpty v = false → getProp (mergeItems t s) k = some v := by
  intro s
  induction s with
  | nil => intro t k v hv _; simpa [mergeItems] using hv
  | cons kv s' ih =>
    intro t k v hv hne
    rw [mergeItems_cons]
    refine ih (mergeStep t kv) k v ?_ hne
    by_cases hk : kv.1 = k
    · obtain ⟨k1, w1⟩ := kv
      simp only at hk
      subst hk
      unfold mergeStep
      split
      · exact hv
      · split
        next tv htv =>
          simp only at htv
          rw [hv] at htv
          injection htv with htv'
          subst htv'
          split
          next he => rw [he] at hne; exact absurd hne (by simp)
          next => exact hv
        next hnone =>
          simp only at hnone
          rw [hv] at hnone
          exact absurd hnone (by simp)
    · rw [mergeStep_ne t kv k hk]; exact hv

theorem mergeItems_origin : ∀ (s t : Obj) (k : String) (w : JsonValue),
    getProp (mergeItems t s) k = some w →
    getProp t k = some w ∨
      ((k, w) ∈ s ∧ jsEmpty w = false ∧
        (getProp t k = none ∨ ∃ v, getProp t k = some v ∧ jsEmpty v = true)) := by
  intro s
  induction s with
  | nil => intro t k w hw; left; simpa [mergeItems] using hw
  | cons kv s' ih =>
    intro t k w hw
    rw [mergeItems_cons] at hw
    rcases ih (mergeStep t kv) k w hw with hleft | ⟨hmem, hnempty, hstate⟩
    · by_cases hk : kv.1 = k
      · obtain ⟨k1, w1⟩ := kv
        simp only at hk
        subst hk
        unfold mergeStep at hleft
        revert hleft
        split
        next => intro hleft; left; exact hleft
        next hw1 =>
          have hw1' : jsEmpty w1 = false := by
            simpa using Bool.eq_false_iff.mpr hw1
          split
          next tv htv =>
            simp only at htv
            split
            next hte =>
              intro hleft
              rw [getProp_setProp_self] at hleft
              injection hleft with h1
              subst h1
              right
              exact ⟨List.mem_cons_self _ _, hw1', Or.inr ⟨tv, htv, hte⟩⟩
            next => intro hleft; left; exact hleft
          next hnone =>
            simp only at hnone
            intro hleft
            rw [getProp_setProp_self] at hleft
            injection hleft with h1
            subst h1
            right
            exact ⟨List.mem_cons_self _ _, hw1', Or.inl hnone⟩
      · rw [mergeStep_ne t kv k hk] at hleft
        left; exact hleft
    · right
      refine ⟨List.mem_cons_of_mem _ hmem, hnempty, ?_⟩
      by_cases hk : kv.1 = k
      · obtain ⟨k1, w1⟩ := kv
        simp only at hk
        subst hk
        unfold mergeStep at hstate
        revert hstate
        split
        next => exact id
        next =>
          split
          next tv htv =>
            simp only at htv
            split
            next =>
              rw [getProp_setProp_self]
              intro hstate
              rcases hstate with h | ⟨v, hv, hve⟩
              · exact absurd h (by simp)
              · injection hv with hv'
                subst hv'
                simp_all
            next => exact id
          next hnone =>
            simp only at hnone
            rw [getProp_setProp_self]
            intro hstate
            rcases hstate with h | ⟨v, hv, hve⟩
            · exact absurd h (by simp)
            · injection hv with hv'
              subst hv'
              simp_all
      · rw [mergeStep_ne t kv k hk] at hstate
        exact hstate

/-- C3: when a duplicate record is merged into a canonical record during
deduplication, every field of the canonical record whose value is not absent,
null, or the empty string is left unchanged; only absent/null/empty fields are
filled, and only from non-empty fields of the incoming record. -/
theorem thmC3 (t s : Obj) (k : String) :
    (∀ v, getProp t k = some v → jsEmpty v = false →
      getProp (mergeItems t s) k = some v) ∧
    (∀ w, getProp (mergeItems t s) k = some w →
      getProp t k = some w ∨
        ((k, w) ∈ s ∧ jsEmpty w = false ∧
          (getProp t k = none ∨ ∃ v, getProp t k = some v ∧ jsEmpty v = true))) :=
  ⟨fun v hv hne => mergeItems_preserve s t k v hv hne,
   fun w hw => mergeItems_origin s t k w hw⟩

/-- Witness for C3 at concrete records: a non-empty canonical title survives a
merge, and an absent volume is filled from the duplicate. -/
theorem thmC3_witness :
    getProp (mergeItems [("title", JsonValue.str "A")]
      [("title", JsonValue.str "B"), ("volume", JsonValue.str "42")]) "title" =
        some (JsonValue.str "A") ∧
    getProp (mergeItems [("title", JsonValue.str "A")]
      [("title", JsonValue.str "B"), ("volume", JsonValue.str "42")]) "volume" =
        some (JsonValue.str "42") :=
  ⟨(thmC3 [("title", JsonValue.str "A")]
      [("title", JsonValue.str "B"), ("volume", JsonValue.str "42")] "title").1
      (JsonValue.str "A") (by decide) (by decide),
   by decide⟩

/-! ## C10: `generateCiteKey` is total and non-empty; the `ref-` fallback is dead -/

theorem capFirst_ne (s : String) (h : s ≠ "") : capFirst s ≠ "" := by
  unfold capFirst
  cases hd : s.data with
  | nil => exact absurd (String.ext (hd.trans rfl)) h
  | cons c cs =>
    intro heq
    have := congrArg String.data heq
    simp at this

theorem append_ne_left (a b : String) (h : a ≠ "") : a ++ b ≠ "" := by
  intro he
  apply h
  apply String.ext
  have := congrArg String.data he
  rw [String.data_append] at this
  exact (List.append_eq_nil.mp this).1

/-- C10: for every record, `generateCiteKey` returns a non-empty string (each
component defaults to a non-empty literal), so the positional `ref-{n}` branch
of the id assignment in `convertToFormat` is unreachable: the assigned id
always equals the `ref`-free chain. -/
theorem thmC10 : ∀ (item : Obj) (index : Nat),
    generateCiteKey item ≠ "" ∧ assignIdValue item index = assignIdNoRef item := by
  intro item index
  constructor
  · show capFirst _ ++ _ ++ _ ≠ ""
    apply append_ne_left
    apply append_ne_left
    apply capFirst_ne
    split
    · decide
    · next h =>
      intro he
      exact h (by rw [he]; rfl)
  · unfold assignIdValue assignIdNoRef nullishCoalesce
    cases h : getProp item "id" with
    | none => rfl
    | some v => cases v <;> rfl

/-! ## C8: manual bracket-format entry keys are always the derived citekey -/

theorem bibEntryShape (t k F : String) :
    "@" ++ t ++ lb ++ k ++ ",\n" ++ F ++ "\n" ++ rb =
      "@" ++ t ++ lb ++ k ++ "," ++ ("\n" ++ F ++ "\n" ++ rb) := by
  apply String.ext
  simp [String.data_append, List.append_assoc]

/-- C8 (amended): the manual BibLaTeX and BibTeX renderers key every entry by
the derived citation key (never by the record id or a positional `ref-{n}`),
and a manual RIS record begins with its type tag and carries no entry key. -/
theorem thmC8 : ∀ item : Obj,
    (∃ r, generateBibLaTeXEntry item =
      "@" ++ mapCslTypeToBibLaTeX (itemTypeStr item) ++ lb ++
        generateCiteKey item ++ "," ++ r) ∧
    (∃ r, generateBibTeXEntry item =
      "@" ++ mapCslTypeToBibTeX (itemTypeStr item) ++ lb ++
        generateCiteKey item ++ "," ++ r) ∧
    (∃ rl, generateRisEntry item =
      String.intercalate "\n" (("TY  - " ++ mapCslTypeToRis (itemTypeStr item)) :: rl)) := by
  intro item
  refine ⟨?_, ?_, ?_⟩
  · exact ⟨_, bibEntryShape _ _ _⟩
  · exact ⟨_, bibEntryShape _ _ _⟩
  · exact ⟨_, rfl⟩

/-- C8 counterexample: for a record with id `Custom2020` the rendered manual
BibLaTeX entry is keyed `Smith2023Test` (the citekey), not by the id. -/
theorem thmC8_cex :
    getProp exC8item "id" = some (.str "Custom2020") ∧
    ¬ (("@article" ++ lb ++ "Custom2020" ++ ",").data <+:
        (generateBibLaTeXEntry exC8item).data) ∧
    (("@article" ++ lb ++ "Smith2023Test" ++ ",").data <+:
        (generateBibLaTeXEntry exC8item).data) := by
  refine ⟨by decide, ?_, ?_⟩ <;> decide

/-! ## C9: `trimItem` field-wise behaviour -/

theorem trimItemValue_eq (v : JsonValue) :
    (match v with
     | .str s => JsonValue.str (jsTrim s)
     | .arr xs =>
       JsonValue.arr (xs.map (fun v =>
         match v with
         | .obj fs => trimName (.obj fs)
         | .arr ys => trimName (.arr ys)
         | other => other))
     | other => other) = specC9ValueAmended v := by
  cases v <;> rfl

/-- C9 (amended): `trimItem` trims every top-level string field; inside an
array-valued field each object element has its string-valued fields trimmed
and each array element is rebuilt as an index-keyed object with its string
elements trimmed; every other value passes through unchanged. -/
theorem thmC9 : ∀ (item : Obj) (k : String),
    getProp (trimItem item) k = (getProp item k).map specC9ValueAmended := by
  intro item k
  induction item with
  | nil => rfl
  | cons hd tl ih =>
    obtain ⟨k1, v1⟩ := hd
    simp only [trimItem, List.map_cons]
    simp only [trimItem] at ih
    rw [getProp_cons, getProp_cons]
    by_cases hk : k = k1
    · rw [if_pos hk, if_pos hk]
      exact (congrArg some (trimItemValue_eq v1)).trans rfl
    · rw [if_neg hk, if_neg hk]
      exact ih

/-- C9 counterexample: on a nested array element, `trimItem` does not leave the
non-string value unchanged (it becomes an index-keyed object), refuting the
claim as stated. -/
theorem thmC9_cex :
    getProp (trimItem exC9item) "keyword" ≠
      (getProp exC9item "keyword").map specC9ValueClaim := by
  decide

/-! ## C7: `generateCiteKey` components -/

theorem gFAF_cons (first : JsonValue) (rest : List JsonValue) (item : Obj)
    (h : getProp item "author" = some (.arr (first :: rest))) :
    getFirstAuthorFamily item =
      (match (match propOf first "family" with
              | some (.str f) => if f == "" then none else some (asciiLowerOnly f)
              | _ => none) with
       | some r => r
       | none =>
         match propOf first "literal" with
         | some (.str l) => if l == "" then "unknown" else asciiLowerOnly (firstWordOf l)
         | _ => "unknown") := by
  unfold getFirstAuthorFamily
  rw [h]

theorem gFAF_eq_spec (item : Obj) (first : JsonValue) (others : List JsonValue)
    (h : getProp item "author" = some (.arr (first :: others))) :
    getFirstAuthorFamily item = specC7FamilyName first := by
  rw [gFAF_cons first others item h]
  unfold specC7FamilyName specC7LitName
  cases hf : propOf first "family" with
  | none => rfl
  | some fv =>
    cases fv with
    | str f =>
      by_cases hfe : f = ""
      · subst hfe; rfl
      · simp [beq_false_of_ne hfe]
    | null => rfl
    | bool b => rfl
    | num n => rfl
    | arr xs => rfl
    | obj fs => rfl

theorem findGoodWord_eq_filter : ∀ ws : List String,
    findGoodWord ws =
      (match (ws.map cleanWord).filter
          (fun c => !(c == "" || skipWordsList.contains c)) with
       | [] => "Untitled"
       | c :: _ => capFirst c) := by
  intro ws
  induction ws with
  | nil => rfl
  | cons w ws ih =>
    simp only [findGoodWord, List.map_cons, List.filter_cons]
    by_cases hp : (cleanWord w != "" && !skipWordsList.contains (cleanWord w)) = true
    · have hp2 : (!(cleanWord w == "" || skipWordsList.contains (cleanWord w))) = true := by
        simp only [Bool.not_or]
        simpa [bne] using hp
      rw [if_pos hp, if_pos hp2]
    · have hp2 : (!(cleanWord w == "" || skipWordsList.contains (cleanWord w))) = false := by
        simp only [Bool.not_or]
        simp only [Bool.not_eq_true] at hp
        simpa [bne] using hp
      rw [if_neg hp, hp2]
      simp only [Bool.false_eq_true, if_false]
      exact ih

theorem getFirstTitleWord_eq_spec (t : String) :
    getFirstTitleWord t = specC7TitleWord t := by
  unfold getFirstTitleWord specC7TitleWord
  rw [findGoodWord_eq_filter]

theorem authorKey_eq (item : Obj) :
    capFirst (if getFirstAuthorFamily item == "" then "unknown"
      else getFirstAuthorFamily item) = amendedC7Author item := by
  cases ha : getProp item "author" with
  | none =>
    rw [show amendedC7Author item = "Unknown" from by unfold amendedC7Author; rw [ha],
      show getFirstAuthorFamily item = "unknown" from by
        unfold getFirstAuthorFamily; rw [ha]]
    decide
  | some av =>
    cases av with
    | arr xs =>
      cases xs with
      | nil =>
        rw [show amendedC7Author item = "Unknown" from by unfold amendedC7Author; rw [ha],
          show getFirstAuthorFamily item = "unknown" from by
            unfold getFirstAuthorFamily; rw [ha]]
        decide
      | cons first others =>
        rw [show amendedC7Author item =
            (if specC7FamilyName first == "" then "Unknown"
              else capFirst (specC7FamilyName first)) from by
          unfold amendedC7Author; rw [ha]]
        rw [gFAF_eq_spec item first others ha]
        by_cases hn : specC7FamilyName first = ""
        · rw [hn]; decide
        · simp [beq_false_of_ne hn]
    | null =>
      rw [show amendedC7Author item = "Unknown" from by unfold amendedC7Author; rw [ha],
        show getFirstAuthorFamily item = "unknown" from by
          unfold getFirstAuthorFamily; rw [ha]]
      decide
    | bool b =>
      rw [show amendedC7Author item = "Unknown" from by unfold amendedC7Author; rw [ha],
        show getFirstAuthorFamily item = "unknown" from by
          unfold getFirstAuthorFamily; rw [ha]]
      decide
    | num n =>
      rw [show amendedC7Author item = "Unknown" from by unfold amendedC7Author; rw [ha],
        show getFirstAuthorFamily item = "unknown" from by
          unfold getFirstAuthorFamily; rw [ha]]
      decide
    | str sv =>
      rw [show amendedC7Author item = "Unknown" from by unfold amendedC7Author; rw [ha],
        show getFirstAuthorFamily item = "unknown" from by
          unfold getFirstAuthorFamily; rw [ha]]
      decide
    | obj fs =>
      rw [show amendedC7Author item = "Unknown" from by unfold amendedC7Author; rw [ha],
        show getFirstAuthorFamily item = "unknown" from by
          unfold getFirstAuthorFamily; rw [ha]]
      decide

/-- C7 (amended): `generateCiteKey` is exactly the claim key with the Author
component amended to be `"Unknown"` not only when no author exists but also
when the normalized first-author name is empty. -/
theorem thmC7 : ∀ item : Obj, generateCiteKey item = amendedC7CiteKey item := by
  intro item
  show capFirst _ ++ _ ++ _ = _
  unfold amendedC7CiteKey
  rw [getFirstTitleWord_eq_spec, authorKey_eq]

/-- C7 counterexample: for an author whose family name strips to empty, the
code yields `"Unknown..."` while the claim prescribes an empty Author
component. -/
theorem thmC7_cex :
    generateCiteKey exC7item ≠ specC7CiteKey exC7item ∧
    generateCiteKey exC7item = "UnknownunknownTest" ∧
    specC7CiteKey exC7item = "unknownTest" := by
  refine ⟨?_, ?_, ?_⟩ <;> decide

/-! ## C2: dedupe-key priority and DOI normalization -/

theorem dedupeKey_of_doi (item : Obj) (d : String)
    (h : getProp item "DOI" = some (.str d)) (hne : d ≠ "") :
    generateDedupeKey item = "doi:" ++ normalizeDoi d := by
  unfold generateDedupeKey
  rw [h]
  show (match (if d == "" then none else some ("doi:" ++ normalizeDoi d)) with
        | some k => k
        | none => urlOrComposite item) = "doi:" ++ normalizeDoi d
  rw [beq_false_of_ne hne]
  rfl

theorem jsToLower_append (a b : String) :
    jsToLower (a ++ b) = jsToLower a ++ jsToLower b := by
  apply String.ext
  simp [jsToLower, String.data_append]

theorem normalizeDoi_congr (d1 d2 : String) (h : jsToLower d1 = jsToLower d2) :
    normalizeDoi d1 = normalizeDoi d2 := by
  unfold normalizeDoi
  rw [h]

theorem strStarts_append_true (p x q : String) (h : strStarts p q = true) :
    strStarts (p ++ x) q = true := by
  unfold strStarts at *
  rw [List.isPrefixOf_iff_prefix] at *
  rw [String.data_append]
  exact h.trans (List.prefix_append _ _)

theorem prefix_take_eq {α : Type} {q l : List α} (h : q <+: l) (n : Nat)
    (hn : n ≤ q.length) : q.take n = l.take n := by
  obtain ⟨t, rfl⟩ := h
  rw [List.take_append_of_le_length hn]

theorem strStarts_append_false (p x q : String) (n : Nat)
    (hq : n ≤ q.data.length) (hp : n ≤ p.data.length)
    (hne : q.data.take n ≠ p.data.take n) : strStarts (p ++ x) q = false := by
  rw [Bool.eq_false_iff]
  intro hc
  unfold strStarts at hc
  rw [List.isPrefixOf_iff_prefix] at hc
  apply hne
  rw [prefix_take_eq hc n hq]
  rw [String.data_append, List.take_append_of_le_length hp]

theorem strDrop_append (p x : String) : strDrop (p ++ x) p.length = x := by
  apply String.ext
  unfold strDrop
  show ((p ++ x).data.drop p.length) = x.data
  rw [String.data_append]
  exact List.drop_left _ _

theorem noDoiPre_split (s : String) (h : noDoiPre s = true) :
    strStarts s "http://doi.org/" = false ∧ strStarts s "https://doi.org/" = false ∧
    strStarts s "http://dx.doi.org/" = false ∧ strStarts s "https://dx.doi.org/" = false ∧
    strStarts s "doi:" = false := by
  unfold noDoiPre doiUrlPres at h
  simp only [Bool.and_eq_true, Bool.not_eq_true', List.any_eq_false, List.mem_cons,
    List.not_mem_nil, or_false, forall_eq_or_imp, forall_eq] at h
  exact ⟨Bool.eq_false_iff.mpr h.1.1, Bool.eq_false_iff.mpr h.1.2.1,
    Bool.eq_false_iff.mpr h.1.2.2.1, Bool.eq_false_iff.mpr h.1.2.2.2, h.2⟩

theorem stripDoiUrl_none (x : String)
    (h1 : strStarts x "http://doi.org/" = false)
    (h2 : strStarts x "https://doi.org/" = false)
    (h3 : strStarts x "http://dx.doi.org/" = false)
    (h4 : strStarts x "https://dx.doi.org/" = false) :
    stripFirstMatching doiUrlPres x = x := by
  unfold stripFirstMatching doiUrlPres
  rw [List.find?_cons_of_neg _ (by rw [h1]; exact Bool.false_ne_true),
    List.find?_cons_of_neg _ (by rw [h2]; exact Bool.false_ne_true),
    List.find?_cons_of_neg _ (by rw [h3]; exact Bool.false_ne_true),
    List.find?_cons_of_neg _ (by rw [h4]; exact Bool.false_ne_true)]
  rfl

theorem stripDoiUrl_https (x : String) :
    stripFirstMatching doiUrlPres ("https://doi.org/" ++ x) = x := by
  unfold stripFirstMatching doiUrlPres
  rw [List.find?_cons_of_neg _ (by
      rw [strStarts_append_false "https://doi.org/" x "http://doi.org/" 5
        (by decide) (by decide) (by decide)]
      exact Bool.false_ne_true),
    List.find?_cons_of_pos _ (strStarts_append_true "https://doi.org/" x "https://doi.org/"
      (by decide))]
  show strDrop ("https://doi.org/" ++ x) ("https://doi.org/" : String).length = x
  exact strDrop_append _ _

theorem stripDoiUrl_doiColon (x : String) :
    stripFirstMatching doiUrlPres ("doi:" ++ x) = "doi:" ++ x := by
  refine stripDoiUrl_none _ ?_ ?_ ?_ ?_ <;>
    exact strStarts_append_false "doi:" x _ 1 (by decide) (by decide) (by decide)

theorem normalizeDoi_strip (p d : String)
    (hp : p = "https://doi.org/" ∨ p = "doi:")
    (h : noDoiPre (jsToLower d) = true) :
    normalizeDoi (p ++ d) = normalizeDoi d := by
  obtain ⟨h1, h2, h3, h4, h5⟩ := noDoiPre_split (jsToLower d) h
  unfold normalizeDoi
  rw [stripDoiUrl_none (jsToLower d) h1 h2 h3 h4]
  rcases hp with hp | hp <;> subst hp
  · rw [jsToLower_append,
      show jsToLower "https://doi.org/" = "https://doi.org/" from by decide,
      stripDoiUrl_https (jsToLower d)]
  · rw [jsToLower_append, show jsToLower "doi:" = "doi:" from by decide,
      stripDoiUrl_doiColon (jsToLower d)]
    unfold stripDoiColon
    rw [strStarts_append_true "doi:" (jsToLower d) "doi:" (by decide), if_pos rfl, h5]
    rw [show (4 : Nat) = ("doi:" : String).length from rfl, strDrop_append]
    simp

/-- C2 (amended): a record whose DOI is a non-empty string always deduplicates
by the DOI-derived key regardless of any URL; two records whose non-empty DOIs
differ only in casing share a key; and a record whose DOI adds a single
`https://doi.org/` or `doi:` prefix to another record's DOI shares its key,
provided the unprefixed DOI does not itself begin with such a prefix. -/
theorem thmC2 :
    (∀ (item : Obj) (d : String), getProp item "DOI" = some (.str d) → d ≠ "" →
      generateDedupeKey item = "doi:" ++ normalizeDoi d) ∧
    (∀ (i1 i2 : Obj) (d1 d2 : String), getProp i1 "DOI" = some (.str d1) →
      getProp i2 "DOI" = some (.str d2) → d1 ≠ "" → d2 ≠ "" →
      jsToLower d1 = jsToLower d2 →
      generateDedupeKey i1 = generateDedupeKey i2) ∧
    (∀ (i1 i2 : Obj) (p d : String), (p = "https://doi.org/" ∨ p = "doi:") →
      getProp i1 "DOI" = some (.str (p ++ d)) → getProp i2 "DOI" = some (.str d) →
      d ≠ "" → noDoiPre (jsToLower d) = true →
      generateDedupeKey i1 = generateDedupeKey i2) := by
  refine ⟨dedupeKey_of_doi, ?_, ?_⟩
  · intro i1 i2 d1 d2 h1 h2 hne1 hne2 hlow
    rw [dedupeKey_of_doi i1 d1 h1 hne1, dedupeKey_of_doi i2 d2 h2 hne2,
      normalizeDoi_congr d1 d2 hlow]
  · intro i1 i2 p d hp h1 h2 hne hnp
    have hpne : p ++ d ≠ "" := by
      rcases hp with hp | hp <;> subst hp <;> exact append_ne_left _ _ (by decide)
    rw [dedupeKey_of_doi i1 (p ++ d) h1 hpne, dedupeKey_of_doi i2 d h2 hne,
      normalizeDoi_strip p d hp hnp]

/-- C2 counterexample: a record with a present-but-empty DOI and a URL keys by
the URL, and a doubly-prefixed DOI does not share the key of its
singly-prefixed form, refuting the unconditional claim. -/
theorem thmC2_cex :
    (getProp exC2a "DOI" = some (.str "") ∧
      generateDedupeKey exC2a = "url:https://x" ∧
      generateDedupeKey exC2a ≠ "doi:" ++ normalizeDoi "") ∧
    (getProp exC2b "DOI" = some (.str ("https://doi.org/" ++ "https://doi.org/10.1/x")) ∧
      getProp exC2c "DOI" = some (.str "https://doi.org/10.1/x") ∧
      generateDedupeKey exC2b ≠ generateDedupeKey exC2c) := by
  refine ⟨⟨?_, ?_, ?_⟩, ⟨?_, ?_, ?_⟩⟩ <;> decide

/-- Witness for C2 at concrete records. -/
theorem thmC2_witness :
    generateDedupeKey [("DOI", JsonValue.str "10.1/X"), ("URL", JsonValue.str "https://e")] =
      "doi:" ++ normalizeDoi "10.1/X" ∧
    generateDedupeKey [("DOI", JsonValue.str "doi:10.1/x")] =
      generateDedupeKey [("DOI", JsonValue.str "10.1/x")] :=
  ⟨thmC2.1 [("DOI", JsonValue.str "10.1/X"), ("URL", JsonValue.str "https://e")] "10.1/X"
      (by decide) (by decide),
   thmC2.2.2 [("DOI", JsonValue.str "doi:10.1/x")] [("DOI", JsonValue.str "10.1/x")]
      "doi:" "10.1/x" (Or.inr rfl) (by decide) (by decide) (by decide) (by decide)⟩

/-! ## C6: `sortItems` sorts by author, year, title and is stable -/

theorem strCmp_le_iff (a b : String) : strCmp a b ≤ 0 ↔ a ≤ b := by
  unfold strCmp
  by_cases h1 : a < b
  · simp [h1, le_of_lt h1]
  · by_cases h2 : b < a
    · simp [h1, h2, not_le.mpr h2]
    · simp [h1, h2, not_lt.mp h2]

theorem cmpItems_expand (a b : Obj) :
    cmpItems a b =
      (if getFirstAuthorFamily a ≠ getFirstAuthorFamily b then
        strCmp (getFirstAuthorFamily a) (getFirstAuthorFamily b)
      else if extractYear a ≠ extractYear b then
        strCmp (extractYear a) (extractYear b)
      else
        strCmp (normalizeTitle ((getStrProp a "title").getD ""))
          (normalizeTitle ((getStrProp b "title").getD ""))) := rfl

theorem sortLe_iff (a b : Obj) : sortLe a b ↔ keyLe (sortKey a) (sortKey b) := by
  unfold sortLe keyLe sortKey
  rw [cmpItems_expand]
  by_cases hA : getFirstAuthorFamily a = getFirstAuthorFamily b
  · rw [if_neg (by simp [hA])]
    by_cases hY : extractYear a = extractYear b
    · rw [if_neg (by simp [hY])]
      simp [hA, hY, strCmp_le_iff, lt_irrefl]
    · rw [if_pos hY]
      rw [strCmp_le_iff]
      constructor
      · intro h
        exact Or.inr ⟨hA, Or.inl (lt_of_le_of_ne h hY)⟩
      · rintro (h | ⟨_, h | ⟨he, _⟩⟩)
        · exact absurd hA (ne_of_lt h).elim
        · exact le_of_lt h
        · exact absurd he hY
  · rw [if_pos hA, strCmp_le_iff]
    constructor
    · intro h
      exact Or.inl (lt_of_le_of_ne h hA)
    · rintro (h | ⟨he, _⟩)
      · exact le_of_lt h
      · exact absurd he hA

theorem keyLe_refl (x : String × String × String) : keyLe x x :=
  Or.inr ⟨rfl, Or.inr ⟨rfl, le_refl _⟩⟩

theorem keyLe_trans {x y z : String × String × String}
    (h1 : keyLe x y) (h2 : keyLe y z) : keyLe x z := by
  rcases h1 with h1 | ⟨e1, h1⟩
  · rcases h2 with h2 | ⟨e2, _⟩
    · exact Or.inl (lt_trans h1 h2)
    · exact Or.inl (e2 ▸ h1)
  · rcases h2 with h2 | ⟨e2, h2⟩
    · exact Or.inl (e1 ▸ h2)
    · refine Or.inr ⟨e1.trans e2, ?_⟩
      rcases h1 with h1 | ⟨f1, h1⟩
      · rcases h2 with h2 | ⟨f2, _⟩
        · exact Or.inl (lt_trans h1 h2)
        · exact Or.inl (f2 ▸ h1)
      · rcases h2 with h2 | ⟨f2, h2⟩
        · exact Or.inl (f1 ▸ h2)
        · exact Or.inr ⟨f1.trans f2, le_trans h1 h2⟩

theorem keyLe_total (x y : String × String × String) : keyLe x y ∨ keyLe y x := by
  rcases lt_trichotomy x.1 y.1 with h | h | h
  · exact Or.inl (Or.inl h)
  · rcases lt_trichotomy x.2.1 y.2.1 with h2 | h2 | h2
    · exact Or.inl (Or.inr ⟨h, Or.inl h2⟩)
    · rcases le_total x.2.2 y.2.2 with h3 | h3
      · exact Or.inl (Or.inr ⟨h, Or.inr ⟨h2, h3⟩⟩)
      · exact Or.inr (Or.inr ⟨h.symm, Or.inr ⟨h2.symm, h3⟩⟩)
    · exact Or.inr (Or.inr ⟨h.symm, Or.inl h2⟩)
  · exact Or.inr (Or.inl h)

theorem filter_orderedInsert_pos (K : String × String × String) (a : Obj)
    (ha : sortKey a = K) : ∀ s : List Obj,
    (s.orderedInsert sortLe a).filter (fun x => decide (sortKey x = K)) =
      a :: s.filter (fun x => decide (sortKey x = K)) := by
  intro s
  induction s with
  | nil => simp [List.orderedInsert, ha]
  | cons b l ih =>
    by_cases hle : sortLe a b
    · rw [List.orderedInsert, if_pos hle]
      simp [ha]
    · rw [List.orderedInsert, if_neg hle]
      have hb : sortKey b ≠ K := by
        intro hbk
        apply hle
        rw [sortLe_iff, ha, hbk]
        exact keyLe_refl K
      rw [List.filter_cons_of_neg (by simp [hb]), ih,
        List.filter_cons_of_neg (by simp [hb])]

theorem filter_orderedInsert_neg (K : String × String × String) (a : Obj)
    (ha : sortKey a ≠ K) : ∀ s : List Obj,
    (s.orderedInsert sortLe a).filter (fun x => decide (sortKey x = K)) =
      s.filter (fun x => decide (sortKey x = K)) := by
  intro s
  induction s with
  | nil => simp [List.orderedInsert, ha]
  | cons b l ih =>
    by_cases hle : sortLe a b
    · rw [List.orderedInsert, if_pos hle]
      rw [List.filter_cons_of_neg (by simp [ha])]
    · rw [List.orderedInsert, if_neg hle]
      by_cases hb : sortKey b = K
      · rw [List.filter_cons_of_pos (by simp [hb]), List.filter_cons_of_pos (by simp [hb]), ih]
      · rw [List.filter_cons_of_neg (by simp [hb]), List.filter_cons_of_neg (by simp [hb]), ih]

theorem digitYear_lt_unknown (y : String) (hlen : y.length = 4)
    (hd : ∀ c ∈ y.data, c.isDigit = true) : y < "unknown" := by
  have hne : y.data ≠ [] := by
    intro h
    rw [show y.length = y.data.length from rfl, h] at hlen
    simp at hlen
  cases hy : y.data with
  | nil => exact absurd hy hne
  | cons c cs =>
    have hcd : c.isDigit = true := hd c (by rw [hy]; exact List.mem_cons_self _ _)
    have hc57 : c.val ≤ 57 := by
      unfold Char.isDigit at hcd
      exact of_decide_eq_true ((Bool.and_eq_true _ _).mp hcd).2
    have hcu : c < 'u' := by
      have h1 : c.val.toNat ≤ 57 := hc57
      show c.val.toNat < 117
      omega
    rw [String.lt_iff_toList_lt]
    rw [show y.toList = c :: cs from hy]
    rw [show ("unknown" : String).toList = 'u' :: "nknown".toList from rfl]
    exact List.Lex.rel hcu

/-- C6: `sortItems` orders every record list by the (author, year, title) key
triple lexicographically (with any 4-digit year string sorting before the
literal `"unknown"`), permutes the input, and is stable: records with equal
key triples keep their relative input order. -/
theorem thmC6 : ∀ l : List Obj,
    (sortItems l).Pairwise (fun a b => keyLe (sortKey a) (sortKey b)) ∧
    (sortItems l).Perm l ∧
    (∀ K, (sortItems l).filter (fun x => decide (sortKey x = K)) =
      l.filter (fun x => decide (sortKey x = K))) ∧
    (∀ y : String, y.length = 4 → (∀ c ∈ y.data, c.isDigit = true) →
      y < "unknown") := by
  intro l
  haveI : IsTotal Obj sortLe := ⟨by
    intro a b
    rw [sortLe_iff, sortLe_iff]
    exact keyLe_total _ _⟩
  haveI : IsTrans Obj sortLe := ⟨by
    intro a b c hab hbc
    rw [sortLe_iff] at *
    exact keyLe_trans hab hbc⟩
  refine ⟨?_, ?_, ?_, ?_⟩
  · have hs := List.sorted_insertionSort sortLe l
    exact hs.imp (fun h => (sortLe_iff _ _).mp h)
  · exact List.perm_insertionSort sortLe l
  · intro K
    show (l.insertionSort sortLe).filter _ = _
    induction l with
    | nil => rfl
    | cons x l ih =>
      rw [List.insertionSort]
      by_cases hx : sortKey x = K
      · rw [filter_orderedInsert_pos K x hx, ih, List.filter_cons_of_pos (by simp [hx])]
      · rw [filter_orderedInsert_neg K x hx, ih, List.filter_cons_of_neg (by simp [hx])]
  · exact digitYear_lt_unknown

/-- Witness for C6 at a concrete two-record list and a concrete year. -/
theorem thmC6_witness :
    (sortItems [[("title", JsonValue.str "B")], [("title", JsonValue.str "A")]]).Perm
      [[("title", JsonValue.str "B")], [("title", JsonValue.str "A")]] ∧
    ("2023" : String) < "unknown" :=
  ⟨(thmC6 [[("title", JsonValue.str "B")], [("title", JsonValue.str "A")]]).2.1,
   (thmC6 []).2.2.2 "2023" (by decide) (by decide)⟩

/-! ## C5: the string-aware brace scanner -/

theorem fbbGo_cons_neutral (c : Char) (rest : List Char) (i : Nat) (d : Int)
    (h1 : (c == '"') = false) (h2 : (c == '{') = false) (h3 : (c == '}') = false) :
    fbbGo (c :: rest) i d false false = fbbGo rest (i + 1) d false false := by
  simp only [fbbGo]
  simp [h1, h2, h3]

theorem fbbGo_cons_escape (c : Char) (rest : List Char) (i : Nat) (d : Int) (s : Bool) :
    fbbGo (c :: rest) i d s true = fbbGo rest (i + 1) d s false := rfl

theorem fbbGo_cons_backslash (rest : List Char) (i : Nat) (d : Int) :
    fbbGo ('\\' :: rest) i d true false = fbbGo rest (i + 1) d true true := rfl

theorem fbbGo_cons_quote_open (rest : List Char) (i : Nat) (d : Int) :
    fbbGo ('"' :: rest) i d false false = fbbGo rest (i + 1) d true false := rfl

theorem fbbGo_cons_quote_close (rest : List Char) (i : Nat) (d : Int) :
    fbbGo ('"' :: rest) i d true false = fbbGo rest (i + 1) d false false := rfl

theorem fbbGo_cons_inStr (c : Char) (rest : List Char) (i : Nat) (d : Int)
    (h1 : (c == '"') = false) (h2 : (c == '\\') = false) :
    fbbGo (c :: rest) i d true false = fbbGo rest (i + 1) d true false := by
  simp only [fbbGo]
  simp [h1, h2]

theorem fbbGo_cons_open (rest : List Char) (i : Nat) (d : Int) :
    fbbGo ('{' :: rest) i d false false = fbbGo rest (i + 1) (d + 1) false false := rfl

theorem fbbGo_cons_close (rest : List Char) (i : Nat) (d : Int)
    (h : (d - 1 == 0) = false) :
    fbbGo ('}' :: rest) i d false false = fbbGo rest (i + 1) (d - 1) false false := by
  show (if d - 1 == 0 then some i else fbbGo rest (i + 1) (d - 1) false false)
      = fbbGo rest (i + 1) (d - 1) false false
  rw [h]
  simp

theorem fbbGo_cons_close_hit (rest : List Char) (i : Nat) (d : Int)
    (h : (d - 1 == 0) = true) :
    fbbGo ('}' :: rest) i d false false = some i := by
  show (if d - 1 == 0 then some i else fbbGo rest (i + 1) (d - 1) false false) = some i
  rw [h]
  simp

theorem fbbGo_append_neutral (cs : List Char) (h : ∀ c ∈ cs, OutNeutral c) :
    ∀ (rest : List Char) (i : Nat) (d : Int),
      fbbGo (cs ++ rest) i d false false = fbbGo rest (i + cs.length) d false false := by
  induction cs with
  | nil => intro rest i d; simp
  | cons c cs ih =>
    intro rest i d
    have hc : (c == '"') = false ∧ (c == '{') = false ∧ (c == '}') = false :=
      h c (List.mem_cons_self _ _)
    rw [show i + (c :: cs).length = i + 1 + cs.length from by
        simp only [List.length_cons]; omega,
      List.cons_append, fbbGo_cons_neutral c _ i d hc.1 hc.2.1 hc.2.2,
      ih (fun x hx => h x (List.mem_cons_of_mem _ hx)) rest (i + 1) d]

theorem scansThru_nil : ScansThru ([] : List Char) := fun _ _ _ _ => rfl

theorem scansThru_neutral (cs : List Char) (h : ∀ c ∈ cs, OutNeutral c) :
    ScansThru cs :=
  fun rest i d _ => fbbGo_append_neutral cs h rest i d

theorem scansThru_append {a b : List Char} (ha : ScansThru a) (hb : ScansThru b) :
    ScansThru (a ++ b) := by
  intro rest i d hd
  rw [List.append_assoc, ha (b ++ rest) i d hd, hb rest (i + a.length) d hd,
    show i + (a ++ b).length = i + a.length + b.length from by
      simp only [List.length_append]; omega]

theorem scansThru_braces {mid : List Char} (h : ScansThru mid) :
    ScansThru ('{' :: (mid ++ ['}'])) := by
  intro rest i d hd
  rw [List.cons_append, fbbGo_cons_open, List.append_assoc, List.singleton_append,
    h ('}' :: rest) (i + 1) (d + 1) (by omega),
    fbbGo_cons_close _ _ _ (beq_eq_false_iff_ne.mpr (by omega)),
    show (d + 1 - 1 : Int) = d from by omega,
    show i + ('{' :: (mid ++ ['}'])).length = i + 1 + mid.length + 1 from by
      simp only [List.length_cons, List.length_append, List.length_nil]; omega]

theorem hexDigitChar_inStr_neutral :
    ∀ n, n < 16 → (hexDigitChar n == '"') = false ∧ (hexDigitChar n == '\\') = false := by
  decide

theorem fbbGo_two_escape (x : Char) (rest : List Char) (i : Nat) (d : Int) :
    fbbGo ('\\' :: x :: rest) i d true false = fbbGo rest (i + 2) d true false := by
  rw [fbbGo_cons_backslash, fbbGo_cons_escape, show i + 2 = i + 1 + 1 from by omega]

theorem fbbGo_escapeJsonChar (c : Char) (rest : List Char) (i : Nat) (d : Int) :
    fbbGo (escapeJsonChar c ++ rest) i d true false
      = fbbGo rest (i + (escapeJsonChar c).length) d true false := by
  unfold escapeJsonChar
  by_cases h1 : (c == '"') = true
  · rw [if_pos h1]
    show fbbGo ('\\' :: '"' :: rest) i d true false = fbbGo rest (i + 2) d true false
    exact fbbGo_two_escape '"' rest i d
  · rw [if_neg h1]
    by_cases h2 : (c == '\\') = true
    · rw [if_pos h2]
      show fbbGo ('\\' :: '\\' :: rest) i d true false = fbbGo rest (i + 2) d true false
      exact fbbGo_two_escape '\\' rest i d
    · rw [if_neg h2]
      by_cases h3 : (c.toNat == 8) = true
      · rw [if_pos h3]
        show fbbGo ('\\' :: 'b' :: rest) i d true false = fbbGo rest (i + 2) d true false
        exact fbbGo_two_escape 'b' rest i d
      · rw [if_neg h3]
        by_cases h4 : (c.toNat == 12) = true
        · rw [if_pos h4]
          show fbbGo ('\\' :: 'f' :: rest) i d true false = fbbGo rest (i + 2) d true false
          exact fbbGo_two_escape 'f' rest i d
        · rw [if_neg h4]
          by_cases h5 : (c == '\n') = true
          · rw [if_pos h5]
            show fbbGo ('\\' :: 'n' :: rest) i d true false = fbbGo rest (i + 2) d true false
            exact fbbGo_two_escape 'n' rest i d
          · rw [if_neg h5]
            by_cases h6 : (c == '\r') = true
            · rw [if_pos h6]
              show fbbGo ('\\' :: 'r' :: rest) i d true false
                  = fbbGo rest (i + 2) d true false
              exact fbbGo_two_escape 'r' rest i d
            · rw [if_neg h6]
              by_cases h7 : (c == '\t') = true
              · rw [if_pos h7]
                show fbbGo ('\\' :: 't' :: rest) i d true false
                    = fbbGo rest (i + 2) d true false
                exact fbbGo_two_escape 't' rest i d
              · rw [if_neg h7]
                by_cases h8 : c.toNat < 32
                · rw [if_pos h8]
                  show fbbGo ('\\' :: 'u' :: '0' :: '0' :: hexDigitChar (c.toNat / 16)
                        :: hexDigitChar (c.toNat % 16) :: rest) i d true false
                      = fbbGo rest (i + 6) d true false
                  rw [fbbGo_cons_backslash, fbbGo_cons_escape,
                    fbbGo_cons_inStr '0' _ _ _ (by decide) (by decide),
                    fbbGo_cons_inStr '0' _ _ _ (by decide) (by decide),
                    fbbGo_cons_inStr _ _ _ _
                      (hexDigitChar_inStr_neutral (c.toNat / 16) (by omega)).1
                      (hexDigitChar_inStr_neutral (c.toNat / 16) (by omega)).2,
                    fbbGo_cons_inStr _ _ _ _
                      (hexDigitChar_inStr_neutral (c.toNat % 16) (by omega)).1
                      (hexDigitChar_inStr_neutral (c.toNat % 16) (by omega)).2,
                    show i + 6 = i + 1 + 1 + 1 + 1 + 1 + 1 from by omega]
                · rw [if_neg h8]
                  show fbbGo (c :: rest) i d true false = fbbGo rest (i + 1) d true false
                  exact fbbGo_cons_inStr c rest i d
                    (Bool.eq_false_iff.mpr h1) (Bool.eq_false_iff.mpr h2)

theorem fbbGo_strBody : ∀ (l : List Char) (rest : List Char) (i : Nat) (d : Int),
    fbbGo ((l.map escapeJsonChar).flatten ++ rest) i d true false
      = fbbGo rest (i + ((l.map escapeJsonChar).flatten).length) d true false := by
  intro l
  induction l with
  | nil => intro rest i d; simp
  | cons c l ih =>
    intro rest i d
    rw [List.map_cons, List.flatten_cons, List.append_assoc,
      fbbGo_escapeJsonChar c _ i d, ih _ (i + (escapeJsonChar c).length) d,
      show i + (escapeJsonChar c ++ (l.map escapeJsonChar).flatten).length
          = i + (escapeJsonChar c).length + ((l.map escapeJsonChar).flatten).length from by
        simp only [List.length_append]; omega]

theorem fbbGo_quoteJson (s : String) (rest : List Char) (i : Nat) (d : Int) :
    fbbGo (quoteJson s ++ rest) i d false false
      = fbbGo rest (i + (quoteJson s).length) d false false := by
  show fbbGo (('"' :: ((s.data.map escapeJsonChar).flatten ++ ['"'])) ++ rest) i d false false
      = fbbGo rest (i + (quoteJson s).length) d false false
  rw [List.cons_append, fbbGo_cons_quote_open, List.append_assoc, List.singleton_append,
    fbbGo_strBody s.data ('"' :: rest) (i + 1) d, fbbGo_cons_quote_close,
    show i + (quoteJson s).length
        = i + 1 + ((s.data.map escapeJsonChar).flatten).length + 1 from by
      simp only [quoteJson, List.length_append, List.length_cons, List.length_nil]; omega]

theorem scansThru_quote (s : String) : ScansThru (quoteJson s) :=
  fun rest i d _ => fbbGo_quoteJson s rest i d

theorem digitChar_neutral : ∀ k, k < 10 → OutNeutral (Char.ofNat ('0'.toNat + k)) := by
  decide

theorem natDigitsGo_neutral (m : Nat) (acc : List Char) (hacc : ∀ c ∈ acc, OutNeutral c) :
    ∀ c ∈ natDigitsGo m acc, OutNeutral c := by
  rw [natDigitsGo]
  split
  · exact hacc
  · rename_i hm
    exact natDigitsGo_neutral (m / 10) _ (fun x hx => by
      rcases List.mem_cons.mp hx with h | h
      · rw [h]; exact digitChar_neutral _ (Nat.mod_lt _ (by omega))
      · exact hacc x h)
termination_by m
decreasing_by exact Nat.div_lt_self (Nat.pos_of_ne_zero (by assumption)) (by omega)

theorem natDigits_neutral (m : Nat) : ∀ c ∈ natDigits m, OutNeutral c := by
  rw [natDigits]
  split
  · intro c hc
    rw [List.mem_singleton] at hc
    rw [hc]; decide
  · exact natDigitsGo_neutral m [] (by intro c hc; cases hc)

theorem intChars_neutral (n : Int) : ∀ c ∈ intChars n, OutNeutral c := by
  rw [intChars]
  split
  · intro c hc
    rcases List.mem_cons.mp hc with h | h
    · rw [h]; decide
    · exact natDigits_neutral _ c h
  · exact natDigits_neutral _

theorem indentOf_neutral (lvl : Nat) : ∀ c ∈ indentOf lvl, OutNeutral c := by
  intro c hc
  rw [List.eq_of_mem_replicate hc]
  decide

theorem jsonSep_neutral (p : Bool) (lvl : Nat) : ∀ c ∈ jsonSep p lvl, OutNeutral c := by
  intro c hc
  cases p with
  | false =>
    rw [show jsonSep false lvl = [','] from rfl, List.mem_singleton] at hc
    rw [hc]; decide
  | true =>
    rw [show jsonSep true lvl = ',' :: '\n' :: indentOf lvl from rfl] at hc
    rcases List.mem_cons.mp hc with h | h
    · rw [h]; decide
    rcases List.mem_cons.mp h with h2 | h2
    · rw [h2]; decide
    · exact indentOf_neutral lvl c h2

/-- The shape of a pretty-printed non-empty object: an opening brace, a
scanner-neutral body, and the closing brace. -/
theorem rVal_obj_pretty_shape (lvl : Nat) (m : String × JsonValue)
    (ms : List (String × JsonValue)) :
    rVal true lvl (JsonValue.obj (m :: ms))
      = '{' :: (('\n' :: ((indentOf (lvl + 1) ++ rObj true (lvl + 1) (m :: ms))
          ++ ('\n' :: indentOf lvl))) ++ ['}']) := by
  show '{' :: '\n' :: ((indentOf (lvl + 1) ++ rObj true (lvl + 1) (m :: ms))
      ++ ('\n' :: (indentOf lvl ++ ['}']))) = _
  simp [List.append_assoc]

mutual
theorem scansThru_rVal (p : Bool) (lvl : Nat) : ∀ v : JsonValue, ScansThru (rVal p lvl v)
  | .null => scansThru_neutral ['n', 'u', 'l', 'l'] (by decide)
  | .bool true => scansThru_neutral ['t', 'r', 'u', 'e'] (by decide)
  | .bool false => scansThru_neutral ['f', 'a', 'l', 's', 'e'] (by decide)
  | .num n => scansThru_neutral _ (fun c hc => intChars_neutral n c hc)
  | .str s => scansThru_quote s
  | .arr [] => scansThru_neutral ['[', ']'] (by decide)
  | .arr (x :: xs) => by
    cases p with
    | false =>
      exact scansThru_append (scansThru_neutral ['['] (by decide))
        (scansThru_append (scansThru_rArr false lvl (x :: xs))
          (scansThru_neutral [']'] (by decide)))
    | true =>
      exact scansThru_append (scansThru_neutral ['[', '\n'] (by decide))
        (scansThru_append
          (scansThru_append (scansThru_neutral _ (indentOf_neutral (lvl + 1)))
            (scansThru_rArr true (lvl + 1) (x :: xs)))
          (scansThru_append (scansThru_neutral ['\n'] (by decide))
            (scansThru_append (scansThru_neutral _ (indentOf_neutral lvl))
              (scansThru_neutral [']'] (by decide)))))
  | .obj [] => scansThru_braces scansThru_nil
  | .obj (m :: ms) => by
    cases p with
    | false => exact scansThru_braces (scansThru_rObj false lvl (m :: ms))
    | true =>
      rw [rVal_obj_pretty_shape lvl m ms]
      exact scansThru_braces
        (scansThru_append (scansThru_neutral ['\n'] (by decide))
          (scansThru_append
            (scansThru_append (scansThru_neutral _ (indentOf_neutral (lvl + 1)))
              (scansThru_rObj true (lvl + 1) (m :: ms)))
            (scansThru_append (scansThru_neutral ['\n'] (by decide))
              (scansThru_neutral _ (indentOf_neutral lvl)))))

theorem scansThru_rArr (p : Bool) (lvl : Nat) :
    ∀ vs : List JsonValue, ScansThru (rArr p lvl vs)
  | [] => scansThru_nil
  | [x] => scansThru_rVal p lvl x
  | x :: y :: ys =>
    scansThru_append (scansThru_append (scansThru_rVal p lvl x)
      (scansThru_neutral _ (jsonSep_neutral p lvl)))
      (scansThru_rArr p lvl (y :: ys))

theorem scansThru_rObj (p : Bool) (lvl : Nat) :
    ∀ ms : List (String × JsonValue), ScansThru (rObj p lvl ms)
  | [] => scansThru_nil
  | [m] => scansThru_rMember p lvl m
  | m :: m2 :: ms =>
    scansThru_append (scansThru_append (scansThru_rMember p lvl m)
      (scansThru_neutral _ (jsonSep_neutral p lvl)))
      (scansThru_rObj p lvl (m2 :: ms))

theorem scansThru_rMember (p : Bool) (lvl : Nat) :
    ∀ m : String × JsonValue, ScansThru (rMember p lvl m)
  | (k, v) => by
    cases p with
    | false =>
      exact scansThru_append (scansThru_quote k)
        (scansThru_append (scansThru_neutral [':'] (by decide))
          (scansThru_rVal false lvl v))
    | true =>
      exact scansThru_append (scansThru_quote k)
        (scansThru_append (scansThru_neutral [':', ' '] (by decide))
          (scansThru_rVal true lvl v))
end

theorem scansThru_obj_pretty_mid (lvl : Nat) (m : String × JsonValue)
    (ms : List (String × JsonValue)) :
    ScansThru ('\n' :: ((indentOf (lvl + 1) ++ rObj true (lvl + 1) (m :: ms))
      ++ ('\n' :: indentOf lvl))) :=
  scansThru_append (scansThru_neutral ['\n'] (by decide))
    (scansThru_append
      (scansThru_append (scansThru_neutral _ (indentOf_neutral (lvl + 1)))
        (scansThru_rObj true (lvl + 1) (m :: ms)))
      (scansThru_append (scansThru_neutral ['\n'] (by decide))
        (scansThru_neutral _ (indentOf_neutral lvl))))

theorem fbbGo_brace_wrap (mid : List Char) (h : ScansThru mid) (rest : List Char) (i : Nat) :
    fbbGo (('{' :: (mid ++ ['}'])) ++ rest) i 0 false false = some (i + (mid.length + 1)) := by
  rw [List.cons_append, fbbGo_cons_open, List.append_assoc, List.singleton_append,
    h ('}' :: rest) (i + 1) (0 + 1) (by omega),
    fbbGo_cons_close_hit _ _ _ (by decide),
    show i + (mid.length + 1) = i + 1 + mid.length from by omega]

theorem fbbGo_obj_render (p : Bool) (lvl : Nat) (fs : Obj) (rest : List Char) (i : Nat) :
    fbbGo (rVal p lvl (JsonValue.obj fs) ++ rest) i 0 false false
      = some (i + ((rVal p lvl (JsonValue.obj fs)).length - 1)) := by
  cases fs with
  | nil => exact fbbGo_brace_wrap [] scansThru_nil rest i
  | cons m ms =>
    cases p with
    | false =>
      rw [show (rVal false lvl (JsonValue.obj (m :: ms))).length - 1
          = (rObj false lvl (m :: ms)).length + 1 from by
        show ('{' :: (rObj false lvl (m :: ms) ++ ['}'])).length - 1 = _
        simp only [List.length_cons, List.length_append, List.length_nil]; omega]
      exact fbbGo_brace_wrap _ (scansThru_rObj false lvl (m :: ms)) rest i
    | true =>
      rw [rVal_obj_pretty_shape lvl m ms,
        show ('{' :: (('\n' :: ((indentOf (lvl + 1) ++ rObj true (lvl + 1) (m :: ms))
            ++ ('\n' :: indentOf lvl))) ++ ['}'])).length - 1
          = ('\n' :: ((indentOf (lvl + 1) ++ rObj true (lvl + 1) (m :: ms))
            ++ ('\n' :: indentOf lvl))).length + 1 from by
        simp only [List.length_cons, List.length_append, List.length_nil]; omega]
      exact fbbGo_brace_wrap _ (scansThru_obj_pretty_mid lvl m ms) rest i

theorem findIdx_brace_pre (pre tl : List Char) (hpre : ∀ c ∈ pre, (c == '{') = false) :
    List.findIdx? (fun x => x == '{') (pre ++ '{' :: tl) = some pre.length := by
  induction pre with
  | nil => simp
  | cons c pre ih =>
    have h1 := hpre c (List.mem_cons_self _ _)
    simp [List.findIdx?_cons, h1,
      ih (fun x hx => hpre x (List.mem_cons_of_mem _ hx))]

theorem indexOfFrom_split (cs : List Char) (e : Nat) (pre tl : List Char)
    (hdrop : cs.drop e = pre ++ '{' :: tl) (hpre : ∀ c ∈ pre, (c == '{') = false) :
    indexOfFrom cs '{' e = some (e + pre.length) := by
  unfold indexOfFrom
  rw [hdrop, findIdx_brace_pre pre tl hpre]

theorem blockAt_eq_of (cs : List Char) (e js : Nat) (h : indexOfFrom cs '{' e = some js) :
    blockAt cs e = match findBalancedBrace cs js with
      | none => none
      | some je => some ((cs.drop js).take (je + 1 - js)) := by
  unfold blockAt
  rw [h]

theorem blockAt_recover (p : Bool) (lvl : Nat) (fs : Obj) (e : Nat)
    (cs pre rest : List Char)
    (hdrop : cs.drop e = pre ++ (rVal p lvl (JsonValue.obj fs) ++ rest))
    (hpre : ∀ c ∈ pre, (c == '{') = false) :
    blockAt cs e = some (rVal p lvl (JsonValue.obj fs)) := by
  obtain ⟨tl, htl⟩ : ∃ tl, rVal p lvl (JsonValue.obj fs) = '{' :: tl := by
    cases fs <;> cases p <;> exact ⟨_, rfl⟩
  have hidx : indexOfFrom cs '{' e = some (e + pre.length) :=
    indexOfFrom_split cs e pre (tl ++ rest) (by rw [hdrop, htl]; simp) hpre
  have hdrop2 : cs.drop (e + pre.length) = rVal p lvl (JsonValue.obj fs) ++ rest := by
    rw [← List.drop_drop, hdrop]
    exact List.drop_left pre _
  have hfbb : findBalancedBrace cs (e + pre.length)
      = some (e + pre.length + ((rVal p lvl (JsonValue.obj fs)).length - 1)) := by
    unfold findBalancedBrace
    rw [hdrop2]
    exact fbbGo_obj_render p lvl fs rest (e + pre.length)
  have hlen1 : 1 ≤ (rVal p lvl (JsonValue.obj fs)).length := by rw [htl]; simp
  rw [blockAt_eq_of cs e (e + pre.length) hidx, hfbb]
  show some ((cs.drop (e + pre.length)).take
      (e + pre.length + ((rVal p lvl (JsonValue.obj fs)).length - 1) + 1 - (e + pre.length)))
    = some (rVal p lvl (JsonValue.obj fs))
  rw [hdrop2,
    show e + pre.length + ((rVal p lvl (JsonValue.obj fs)).length - 1) + 1 - (e + pre.length)
      = (rVal p lvl (JsonValue.obj fs)).length from by omega,
    List.take_left]

theorem blockAt_no_brace (cs : List Char) (e : Nat) (h : indexOfFrom cs '{' e = none) :
    blockAt cs e = none := by
  unfold blockAt
  rw [h]

theorem blockAt_unbalanced (cs : List Char) (e js : Nat)
    (h1 : indexOfFrom cs '{' e = some js) (h2 : findBalancedBrace cs js = none) :
    blockAt cs e = none := by
  rw [blockAt_eq_of cs e js h1, h2]

theorem extractJsonBlocks_no_brace (cs : List Char) (h : ∀ c ∈ cs, (c == '{') = false) :
    extractJsonBlocks cs = [] := by
  unfold extractJsonBlocks
  rw [List.filterMap_eq_nil_iff]
  intro e _
  apply blockAt_no_brace
  unfold indexOfFrom
  rw [show (cs.drop e).findIdx? (fun x => x == '{') = none from
    List.findIdx?_eq_none_iff.mpr (fun x hx => h x (List.mem_of_mem_drop hx))]

/-- C5: the brace scanner is string-aware — a rendered JSON string literal
(quotes, escapes and any interior characters, braces included) never changes
the depth or terminates the scan; consequently a marker whose following `{`
opens a rendered JSON object recovers that object in full, never a truncated
prefix, whatever literal braces its string values contain; a marker with no
following `{` contributes no block; and a span whose depth never returns to
zero contributes no block (in particular a text without `{` yields none). -/
theorem thmC5 :
    (∀ (s : String) (rest : List Char) (i : Nat) (d : Int),
        fbbGo (quoteJson s ++ rest) i d false false
          = fbbGo rest (i + (quoteJson s).length) d false false) ∧
    (∀ (p : Bool) (lvl : Nat) (fs : Obj) (e : Nat) (cs pre rest : List Char),
        cs.drop e = pre ++ (rVal p lvl (JsonValue.obj fs) ++ rest) →
        (∀ c ∈ pre, (c == '{') = false) →
        blockAt cs e = some (rVal p lvl (JsonValue.obj fs))) ∧
    (∀ (cs : List Char) (e : Nat), indexOfFrom cs '{' e = none → blockAt cs e = none) ∧
    (∀ (cs : List Char) (e js : Nat), indexOfFrom cs '{' e = some js →
        findBalancedBrace cs js = none → blockAt cs e = none) ∧
    (∀ cs : List Char, (∀ c ∈ cs, (c == '{') = false) → extractJsonBlocks cs = []) :=
  ⟨fbbGo_quoteJson, blockAt_recover, blockAt_no_brace, blockAt_unbalanced,
    extractJsonBlocks_no_brace⟩

/-- Witness for C5: a concrete object whose string value contains literal
braces is recovered in full from the position following a marker. -/
theorem thmC5_witness :
    blockAt (rVal false 0 (JsonValue.obj [("t", JsonValue.str "x\x7by\x7dz")]) ++ [' ']) 0
      = some (rVal false 0 (JsonValue.obj [("t", JsonValue.str "x\x7by\x7dz")])) :=
  thmC5.2.1 false 0 [("t", JsonValue.str "x\x7by\x7dz")] 0
    (rVal false 0 (JsonValue.obj [("t", JsonValue.str "x\x7by\x7dz")]) ++ [' '])
    [] [' '] (by simp) (by decide)

/-! ## C4: parsing back a rendered value -/

theorem ws_boundary (c : Char) (h : jsonWsChar c = true) :
    c.isDigit = false ∧ c ≠ '.' ∧ c ≠ 'e' ∧ c ≠ 'E' ∧ c ≠ ']' ∧ c ≠ '\x7d' := by
  rcases Bool.or_eq_true _ _ |>.mp h with h' | h'
  rcases Bool.or_eq_true _ _ |>.mp h' with h'' | h''
  rcases Bool.or_eq_true _ _ |>.mp h'' with h3 | h3
  · rw [eq_of_beq h3]; decide
  · rw [eq_of_beq h3]; decide
  · rw [eq_of_beq h'']; decide
  · rw [eq_of_beq h']; decide

theorem skipWs_cons_false {c : Char} (h : jsonWsChar c = false) (cs : List Char) :
    skipWs (c :: cs) = c :: cs := by
  simp [skipWs, List.dropWhile_cons, h]

theorem skipWs_append_ws (ws cs : List Char) (h : ∀ c ∈ ws, jsonWsChar c = true) :
    skipWs (ws ++ cs) = skipWs cs := by
  induction ws with
  | nil => rfl
  | cons w ws ih =>
    rw [List.cons_append]
    show skipWs (w :: (ws ++ cs)) = skipWs cs
    simp only [skipWs, List.dropWhile_cons, h w (List.mem_cons_self _ _), if_true]
    exact ih (fun c hc => h c (List.mem_cons_of_mem _ hc))

theorem digit_isDigit : ∀ k, k < 10 → (Char.ofNat ('0'.toNat + k)).isDigit = true := by
  decide

theorem digit_ne_zero : ∀ k, k < 10 → k ≠ 0 → Char.ofNat ('0'.toNat + k) ≠ '0' := by
  decide

theorem digit_toNat_sub : ∀ k, k < 10 → (Char.ofNat ('0'.toNat + k)).toNat - '0'.toNat = k := by
  decide

theorem natDigitsGo_zero (acc : List Char) : natDigitsGo 0 acc = acc := by
  rw [natDigitsGo]
  simp

theorem natDigitsGo_acc (m : Nat) (acc : List Char) :
    natDigitsGo m acc = natDigitsGo m [] ++ acc := by
  by_cases hm : m = 0
  · subst hm
    rw [natDigitsGo_zero, natDigitsGo_zero]
    simp
  · rw [natDigitsGo, dif_neg hm,
      natDigitsGo_acc (m / 10) (Char.ofNat ('0'.toNat + m % 10) :: acc)]
    conv_rhs => rw [natDigitsGo, dif_neg hm,
      natDigitsGo_acc (m / 10) [Char.ofNat ('0'.toNat + m % 10)]]
    rw [List.append_assoc]
    rfl
termination_by m
decreasing_by
  all_goals exact Nat.div_lt_self (Nat.pos_of_ne_zero hm) (by omega)

theorem natDigitsGo_digits (m : Nat) (acc : List Char)
    (hacc : ∀ c ∈ acc, c.isDigit = true) :
    ∀ c ∈ natDigitsGo m acc, c.isDigit = true := by
  rw [natDigitsGo]
  split
  · exact hacc
  · exact natDigitsGo_digits (m / 10) _ (fun x hx => by
      rcases List.mem_cons.mp hx with h | h
      · rw [h]; exact digit_isDigit _ (Nat.mod_lt _ (by omega))
      · exact hacc x h)
termination_by m
decreasing_by exact Nat.div_lt_self (Nat.pos_of_ne_zero (by assumption)) (by omega)

theorem natDigitsGo_ne_nil (m : Nat) (hm : m ≠ 0) : natDigitsGo m [] ≠ [] := by
  rw [natDigitsGo, dif_neg hm, natDigitsGo_acc]
  simp

theorem natDigitsGo_head_ne_zero (m : Nat) (hm : m ≠ 0) (c : Char)
    (hc : (natDigitsGo m []).head? = some c) : c ≠ '0' := by
  rw [natDigitsGo, dif_neg hm, natDigitsGo_acc] at hc
  by_cases h10 : m / 10 = 0
  · rw [h10, natDigitsGo_zero] at hc
    simp at hc
    rw [← hc]
    exact digit_ne_zero (m % 10) (by omega) (by omega)
  · rw [List.head?_append] at hc
    cases hA : (natDigitsGo (m / 10) []).head? with
    | none =>
      exact absurd (List.head?_eq_none_iff.mp hA) (natDigitsGo_ne_nil _ h10)
    | some a =>
      rw [hA] at hc
      simp at hc
      rw [← hc]
      exact natDigitsGo_head_ne_zero (m / 10) h10 a hA
termination_by m
decreasing_by exact Nat.div_lt_self (Nat.pos_of_ne_zero hm) (by omega)

theorem natDigitsGo_foldl (m : Nat) :
    (natDigitsGo m []).foldl (fun acc c => 10 * acc + (c.toNat - '0'.toNat)) 0 = m := by
  by_cases hm : m = 0
  · subst hm; simp [natDigitsGo_zero]
  · rw [natDigitsGo, dif_neg hm, natDigitsGo_acc, List.foldl_append, natDigitsGo_foldl (m / 10)]
    show 10 * (m / 10) + ((Char.ofNat ('0'.toNat + m % 10)).toNat - '0'.toNat) = m
    rw [digit_toNat_sub (m % 10) (Nat.mod_lt _ (by omega))]
    omega
termination_by m
decreasing_by
  all_goals exact Nat.div_lt_self (Nat.pos_of_ne_zero hm) (by omega)

theorem natDigits_digits (m : Nat) : ∀ c ∈ natDigits m, c.isDigit = true := by
  rw [natDigits]
  split
  · intro c hc; rw [List.mem_singleton] at hc; rw [hc]; decide
  · exact natDigitsGo_digits m [] (by intro c hc; cases hc)

theorem natDigits_head (m : Nat) : ∃ c tl, natDigits m = c :: tl ∧ c.isDigit = true := by
  rw [natDigits]
  split
  · exact ⟨'0', [], rfl, by decide⟩
  · rename_i hm
    cases h : natDigitsGo m [] with
    | nil => exact absurd h (natDigitsGo_ne_nil m hm)
    | cons c tl =>
      refine ⟨c, tl, rfl, ?_⟩
      exact natDigitsGo_digits m [] (by intro x hx; cases hx) c
        (by rw [h]; exact List.mem_cons_self _ _)

theorem natDigits_foldl (m : Nat) :
    (natDigits m).foldl (fun acc c => 10 * acc + (c.toNat - '0'.toNat)) 0 = m := by
  rw [natDigits]
  split
  · rename_i hm; rw [hm]; rfl
  · exact natDigitsGo_foldl m

theorem takeWhile_digits (ds rest : List Char) (hds : ∀ c ∈ ds, c.isDigit = true)
    (hrest : BoundaryOk rest) :
    (ds ++ rest).takeWhile Char.isDigit = ds ∧ (ds ++ rest).dropWhile Char.isDigit = rest := by
  induction ds with
  | nil =>
    cases rest with
    | nil => exact ⟨rfl, rfl⟩
    | cons c t =>
      have h1 : c.isDigit = false := hrest.1
      constructor
      · show (c :: t).takeWhile Char.isDigit = []
        simp [List.takeWhile_cons, h1]
      · show (c :: t).dropWhile Char.isDigit = c :: t
        simp [List.dropWhile_cons, h1]
  | cons d ds ih =>
    have hd : d.isDigit = true := hds d (List.mem_cons_self _ _)
    have h2 := ih (fun c hc => hds c (List.mem_cons_of_mem _ hc))
    constructor
    · show ((d :: (ds ++ rest)).takeWhile Char.isDigit) = d :: ds
      simp [List.takeWhile_cons, hd, h2.1]
    · show ((d :: (ds ++ rest)).dropWhile Char.isDigit) = rest
      simp [List.dropWhile_cons, hd, h2.2]

theorem parseNatLit_render (m : Nat) (rest : List Char) (hrest : BoundaryOk rest) :
    parseNatLit (natDigits m ++ rest) = some (m, rest) := by
  have htw := takeWhile_digits (natDigits m) rest (natDigits_digits m) hrest
  have hne : natDigits m ≠ [] := by
    obtain ⟨c, tl, hct, -⟩ := natDigits_head m
    rw [hct]; exact List.cons_ne_nil c tl
  have hlz : ¬(1 < (natDigits m).length ∧ (natDigits m).head? = some '0') := by
    rintro ⟨hl, hh⟩
    by_cases hm : m = 0
    · rw [hm, show natDigits 0 = ['0'] from rfl] at hl
      simp at hl
    · rw [natDigits, if_neg hm] at hh
      exact natDigitsGo_head_ne_zero m hm '0' hh rfl
  simp only [parseNatLit]
  rw [htw.1, htw.2, if_neg (by
      intro hEmp
      exact hne (List.isEmpty_iff.mp hEmp)),
    if_neg hlz]
  cases rest with
  | nil =>
    show some ((natDigits m).foldl _ 0, ([] : List Char)) = some (m, [])
    rw [natDigits_foldl]
  | cons c t =>
    have hb : c.isDigit = false ∧ c ≠ '.' ∧ c ≠ 'e' ∧ c ≠ 'E' := hrest
    split
    · rename_i heq
      injection heq with hcEq
      exact absurd hcEq hb.2.1
    · rename_i heq
      injection heq with hcEq
      exact absurd hcEq hb.2.2.1
    · rename_i heq
      injection heq with hcEq
      exact absurd hcEq hb.2.2.2
    · show some ((natDigits m).foldl _ 0, c :: t) = some (m, c :: t)
      rw [natDigits_foldl]

theorem parseIntLit_render (k : Int) (rest : List Char) (hrest : BoundaryOk rest) :
    parseIntLit (intChars k ++ rest) = some (k, rest) := by
  unfold parseIntLit intChars
  by_cases hk : k < 0
  · rw [if_pos hk]
    show ((parseNatLit (natDigits k.natAbs ++ rest)).map
        fun pr => (-(pr.1 : Int), pr.2)) = some (k, rest)
    rw [parseNatLit_render k.natAbs rest hrest]
    show some (-(k.natAbs : Int), rest) = some (k, rest)
    rw [show -(k.natAbs : Int) = k from by omega]
  · rw [if_neg hk]
    obtain ⟨c, tl, hct, hcd⟩ := natDigits_head k.natAbs
    rw [hct]
    show (match c :: (tl ++ rest) with
      | '-' :: r => (parseNatLit r).map (fun pr => (-(pr.1 : Int), pr.2))
      | _ => (parseNatLit (c :: (tl ++ rest))).map (fun pr => ((pr.1 : Int), pr.2)))
      = some (k, rest)
    split
    · rename_i heq
      injection heq with hcEq
      rw [hcEq] at hcd
      exact absurd hcd (by decide)
    · rw [show c :: (tl ++ rest) = natDigits k.natAbs ++ rest from by rw [hct]; rfl,
        parseNatLit_render k.natAbs rest hrest]
      show some ((k.natAbs : Int), rest) = some (k, rest)
      rw [show (k.natAbs : Int) = k from by omega]

theorem hexVal_hexDigitChar : ∀ n, n < 16 → hexVal (hexDigitChar n) = some n := by
  decide

theorem hex4_hexDigit (x y : Nat) (hx : x < 16) (hy : y < 16) :
    hex4 '0' '0' (hexDigitChar x) (hexDigitChar y)
      = some (((0 * 16 + 0) * 16 + x) * 16 + y) := by
  unfold hex4
  rw [show hexVal '0' = some 0 from rfl, hexVal_hexDigitChar x hx, hexVal_hexDigitChar y hy]

theorem parseStrBody_u (a b z d : Char) (r : List Char) :
    parseStrBody ('\\' :: 'u' :: a :: b :: z :: d :: r)
      = match hex4 a b z d with
        | some n => if n < 0xd800 then consStr (Char.ofNat n) (parseStrBody r) else none
        | none => none := rfl

set_option maxHeartbeats 1000000 in
theorem parseStrBody_cons_plain (c : Char) (tail : List Char)
    (h1 : (c == '"') = false) (h2 : (c == '\\') = false) :
    parseStrBody (c :: tail)
      = if c.toNat < 32 then none else consStr c (parseStrBody tail) := by
  rw [parseStrBody.eq_def]
  split
  · rename_i heq; cases heq
  · rename_i heq
    injection heq with hcEq
    rw [hcEq] at h1
    simp at h1
  · rename_i heq
    injection heq with hcEq
    rw [hcEq] at h2
    simp at h2
  · rename_i c' rest' heq
    injection heq with hcEq htEq
    rw [hcEq, htEq]

theorem parseStrBody_render : ∀ (l : List Char) (rest : List Char),
    parseStrBody ((l.map escapeJsonChar).flatten ++ ('"' :: rest)) = some (l, rest) := by
  intro l
  induction l with
  | nil => intro rest; rfl
  | cons c l ih =>
    intro rest
    rw [List.map_cons, List.flatten_cons, List.append_assoc]
    unfold escapeJsonChar
    by_cases h1 : (c == '"') = true
    · rw [if_pos h1]
      show consStr '"' (parseStrBody ((l.map escapeJsonChar).flatten ++ ('"' :: rest)))
          = some (c :: l, rest)
      rw [ih rest]
      show some ('"' :: l, rest) = some (c :: l, rest)
      rw [show ('"' : Char) = c from (eq_of_beq h1).symm]
    · rw [if_neg h1]
      by_cases h2 : (c == '\\') = true
      · rw [if_pos h2]
        show consStr '\\' (parseStrBody ((l.map escapeJsonChar).flatten ++ ('"' :: rest)))
            = some (c :: l, rest)
        rw [ih rest]
        show some ('\\' :: l, rest) = some (c :: l, rest)
        rw [show ('\\' : Char) = c from (eq_of_beq h2).symm]
      · rw [if_neg h2]
        by_cases h3 : (c.toNat == 8) = true
        · rw [if_pos h3]
          show consStr (Char.ofNat 8)
              (parseStrBody ((l.map escapeJsonChar).flatten ++ ('"' :: rest)))
              = some (c :: l, rest)
          rw [ih rest]
          show some (Char.ofNat 8 :: l, rest) = some (c :: l, rest)
          rw [show Char.ofNat 8 = c from by rw [← eq_of_beq h3]; exact Char.ofNat_toNat c]
        · rw [if_neg h3]
          by_cases h4 : (c.toNat == 12) = true
          · rw [if_pos h4]
            show consStr (Char.ofNat 12)
                (parseStrBody ((l.map escapeJsonChar).flatten ++ ('"' :: rest)))
                = some (c :: l, rest)
            rw [ih rest]
            show some (Char.ofNat 12 :: l, rest) = some (c :: l, rest)
            rw [show Char.ofNat 12 = c from by rw [← eq_of_beq h4]; exact Char.ofNat_toNat c]
          · rw [if_neg h4]
            by_cases h5 : (c == '\n') = true
            · rw [if_pos h5]
              show consStr '\n'
                  (parseStrBody ((l.map escapeJsonChar).flatten ++ ('"' :: rest)))
                  = some (c :: l, rest)
              rw [ih rest]
              show some ('\n' :: l, rest) = some (c :: l, rest)
              rw [show ('\n' : Char) = c from (eq_of_beq h5).symm]
            · rw [if_neg h5]
              by_cases h6 : (c == '\r') = true
              · rw [if_pos h6]
                show consStr '\r'
                    (parseStrBody ((l.map escapeJsonChar).flatten ++ ('"' :: rest)))
                    = some (c :: l, rest)
                rw [ih rest]
                show some ('\r' :: l, rest) = some (c :: l, rest)
                rw [show ('\r' : Char) = c from (eq_of_beq h6).symm]
              · rw [if_neg h6]
                by_cases h7 : (c == '\t') = true
                · rw [if_pos h7]
                  show consStr '\t'
                      (parseStrBody ((l.map escapeJsonChar).flatten ++ ('"' :: rest)))
                      = some (c :: l, rest)
                  rw [ih rest]
                  show some ('\t' :: l, rest) = some (c :: l, rest)
                  rw [show ('\t' : Char) = c from (eq_of_beq h7).symm]
                · rw [if_neg h7]
                  by_cases h8 : c.toNat < 32
                  · rw [if_pos h8]
                    show parseStrBody ('\\' :: 'u' :: '0' :: '0'
                          :: hexDigitChar (c.toNat / 16) :: hexDigitChar (c.toNat % 16)
                          :: ((l.map escapeJsonChar).flatten ++ ('"' :: rest)))
                        = some (c :: l, rest)
                    rw [parseStrBody_u,
                      hex4_hexDigit (c.toNat / 16) (c.toNat % 16) (by omega) (by omega)]
                    show (if ((0 * 16 + 0) * 16 + c.toNat / 16) * 16 + c.toNat % 16 < 0xd800
                        then consStr
                          (Char.ofNat (((0 * 16 + 0) * 16 + c.toNat / 16) * 16 + c.toNat % 16))
                          (parseStrBody ((l.map escapeJsonChar).flatten ++ ('"' :: rest)))
                        else none) = some (c :: l, rest)
                    rw [if_pos (by omega), ih rest,
                      show ((0 * 16 + 0) * 16 + c.toNat / 16) * 16 + c.toNat % 16 = c.toNat
                        from by omega, Char.ofNat_toNat]
                    rfl
                  · rw [if_neg h8]
                    show parseStrBody (c
                        :: ((l.map escapeJsonChar).flatten ++ ('"' :: rest)))
                        = some (c :: l, rest)
                    rw [parseStrBody_cons_plain c _ (Bool.eq_false_iff.mpr h1)
                        (Bool.eq_false_iff.mpr h2), if_neg h8, ih rest]
                    rfl

theorem intChars_head (k : Int) :
    ∃ c tl, intChars k = c :: tl ∧ (c = '-' ∨ c.isDigit = true) := by
  unfold intChars
  by_cases hk : k < 0
  · exact ⟨'-', natDigits k.natAbs, by rw [if_pos hk], Or.inl rfl⟩
  · obtain ⟨c, tl, hct, hcd⟩ := natDigits_head k.natAbs
    exact ⟨c, tl, by rw [if_neg hk, hct], Or.inr hcd⟩

theorem rVal_head_info (p : Bool) (lvl : Nat) (v : JsonValue) :
    ∃ c tl, rVal p lvl v = c :: tl ∧
      (c = '\x7b' ∨ c = '[' ∨ c = '"' ∨ c = 't' ∨ c = 'f' ∨ c = 'n' ∨ c = '-'
        ∨ c.isDigit = true) := by
  cases v with
  | null => exact ⟨'n', ['u', 'l', 'l'], rfl, by decide⟩
  | bool b =>
    cases b with
    | true => exact ⟨'t', ['r', 'u', 'e'], rfl, by decide⟩
    | false => exact ⟨'f', ['a', 'l', 's', 'e'], rfl, by decide⟩
  | num k =>
    obtain ⟨c, tl, hct, hcd⟩ := intChars_head k
    exact ⟨c, tl, hct, by
      rcases hcd with h | h
      · rw [h]; decide
      · exact Or.inr (Or.inr (Or.inr (Or.inr (Or.inr (Or.inr (Or.inr h))))))⟩
  | str s =>
    exact ⟨'"', (s.data.map escapeJsonChar).flatten ++ ['"'], rfl, by decide⟩
  | arr vs =>
    cases vs with
    | nil => exact ⟨'[', [']'], rfl, by decide⟩
    | cons x xs =>
      cases p with
      | false => exact ⟨'[', _, rfl, by decide⟩
      | true => exact ⟨'[', _, rfl, by decide⟩
  | obj ms =>
    cases ms with
    | nil => exact ⟨'\x7b', ['\x7d'], rfl, by decide⟩
    | cons m ms =>
      cases p with
      | false => exact ⟨'\x7b', _, rfl, by decide⟩
      | true => exact ⟨'\x7b', _, rfl, by decide⟩

theorem headChar_facts (c : Char)
    (h : c = '\x7b' ∨ c = '[' ∨ c = '"' ∨ c = 't' ∨ c = 'f' ∨ c = 'n' ∨ c = '-'
      ∨ c.isDigit = true) :
    jsonWsChar c = false ∧ c ≠ ']' ∧ c ≠ '\x7d' ∧ c ≠ ',' ∧ c ≠ ':' := by
  rcases h with h | h | h | h | h | h | h | h
  · rw [h]; exact ⟨by decide, by decide, by decide, by decide, by decide⟩
  · rw [h]; exact ⟨by decide, by decide, by decide, by decide, by decide⟩
  · rw [h]; exact ⟨by decide, by decide, by decide, by decide, by decide⟩
  · rw [h]; exact ⟨by decide, by decide, by decide, by decide, by decide⟩
  · rw [h]; exact ⟨by decide, by decide, by decide, by decide, by decide⟩
  · rw [h]; exact ⟨by decide, by decide, by decide, by decide, by decide⟩
  · rw [h]; exact ⟨by decide, by decide, by decide, by decide, by decide⟩
  · refine ⟨?_, ?_, ?_, ?_, ?_⟩
    · cases hw : jsonWsChar c with
      | false => rfl
      | true =>
        have := (ws_boundary c hw).1
        rw [this] at h
        cases h
    · intro he; rw [he] at h; exact absurd h (by decide)
    · intro he; rw [he] at h; exact absurd h (by decide)
    · intro he; rw [he] at h; exact absurd h (by decide)
    · intro he; rw [he] at h; exact absurd h (by decide)

theorem skipWs_rVal (p : Bool) (lvl : Nat) (v : JsonValue) (X : List Char) :
    skipWs (rVal p lvl v ++ X) = rVal p lvl v ++ X := by
  obtain ⟨c, tl, hct, hcd⟩ := rVal_head_info p lvl v
  rw [hct, List.cons_append]
  exact skipWs_cons_false (headChar_facts c hcd).1 _

theorem rVal_length_pos (p : Bool) (lvl : Nat) (v : JsonValue) :
    1 ≤ (rVal p lvl v).length := by
  obtain ⟨c, tl, hct, -⟩ := rVal_head_info p lvl v
  rw [hct]
  simp

theorem rVal_append_head (p : Bool) (lvl : Nat) (v : JsonValue) (W : List Char)
    {c' : Char} {r : List Char} (h : rVal p lvl v ++ W = c' :: r) :
    c' = '\x7b' ∨ c' = '[' ∨ c' = '"' ∨ c' = 't' ∨ c' = 'f' ∨ c' = 'n' ∨ c' = '-'
      ∨ c'.isDigit = true := by
  obtain ⟨c, tl, hct, hcd⟩ := rVal_head_info p lvl v
  rw [hct, List.cons_append] at h
  injection h with h1 _
  rw [← h1]
  exact hcd

theorem rArr_cons_decomp (p : Bool) (lvl : Nat) (x : JsonValue) (xs : List JsonValue) :
    ∃ Z, rArr p lvl (x :: xs) = rVal p lvl x ++ Z := by
  cases xs with
  | nil => exact ⟨[], by simp [rArr]⟩
  | cons y ys =>
    exact ⟨jsonSep p lvl ++ rArr p lvl (y :: ys), by
      show (rVal p lvl x ++ jsonSep p lvl) ++ rArr p lvl (y :: ys) = _
      simp [List.append_assoc]⟩

theorem skipWs_rArr_cons (p : Bool) (lvl : Nat) (x : JsonValue) (xs : List JsonValue)
    (Y : List Char) :
    skipWs (rArr p lvl (x :: xs) ++ Y) = rArr p lvl (x :: xs) ++ Y := by
  obtain ⟨Z, hZ⟩ := rArr_cons_decomp p lvl x xs
  rw [hZ, List.append_assoc]
  exact skipWs_rVal p lvl x _

theorem rArr_cons_length_pos (p : Bool) (lvl : Nat) (x : JsonValue) (xs : List JsonValue) :
    1 ≤ (rArr p lvl (x :: xs)).length := by
  obtain ⟨Z, hZ⟩ := rArr_cons_decomp p lvl x xs
  rw [hZ]
  have := rVal_length_pos p lvl x
  simp only [List.length_append]
  omega

theorem quoteJson_append_cons (s : String) (X : List Char) :
    quoteJson s ++ X
      = '"' :: ((s.data.map escapeJsonChar).flatten ++ ('"' :: X)) := by
  show ('"' :: (s.data.map escapeJsonChar).flatten ++ ['"']) ++ X = _
  simp [List.append_assoc]

theorem rObj_cons_decomp (p : Bool) (lvl : Nat) (m : String × JsonValue)
    (ms : List (String × JsonValue)) :
    ∃ Z, rObj p lvl (m :: ms) = rMember p lvl m ++ Z := by
  cases ms with
  | nil => exact ⟨[], by simp [rObj]⟩
  | cons m2 ms2 =>
    exact ⟨jsonSep p lvl ++ rObj p lvl (m2 :: ms2), by
      show (rMember p lvl m ++ jsonSep p lvl) ++ rObj p lvl (m2 :: ms2) = _
      simp [List.append_assoc]⟩

theorem rMember_append_cons (p : Bool) (lvl : Nat) (k : String) (v : JsonValue)
    (X : List Char) :
    rMember p lvl (k, v) ++ X
      = '"' :: ((k.data.map escapeJsonChar).flatten
          ++ ('"' :: (':' :: ((if p then ' ' :: rVal p lvl v else rVal p lvl v) ++ X)))) := by
  show (quoteJson k ++ ':' :: (if p then ' ' :: rVal p lvl v else rVal p lvl v)) ++ X = _
  rw [List.append_assoc, quoteJson_append_cons]
  simp

theorem rObj_append_head (p : Bool) (lvl : Nat) (m : String × JsonValue)
    (ms : List (String × JsonValue)) (W : List Char)
    {c' : Char} {r : List Char} (h : rObj p lvl (m :: ms) ++ W = c' :: r) :
    c' = '"' := by
  obtain ⟨Z, hZ⟩ := rObj_cons_decomp p lvl m ms
  obtain ⟨k, v⟩ := m
  rw [hZ, List.append_assoc, rMember_append_cons] at h
  injection h with h1 _
  exact h1.symm

theorem skipWs_rObj_cons (p : Bool) (lvl : Nat) (m : String × JsonValue)
    (ms : List (String × JsonValue)) (Y : List Char) :
    skipWs (rObj p lvl (m :: ms) ++ Y) = rObj p lvl (m :: ms) ++ Y := by
  obtain ⟨Z, hZ⟩ := rObj_cons_decomp p lvl m ms
  obtain ⟨k, v⟩ := m
  rw [hZ, List.append_assoc, rMember_append_cons]
  exact skipWs_cons_false (by decide) _

theorem rObj_cons_length_pos (p : Bool) (lvl : Nat) (m : String × JsonValue)
    (ms : List (String × JsonValue)) :
    3 ≤ (rObj p lvl (m :: ms)).length := by
  obtain ⟨Z, hZ⟩ := rObj_cons_decomp p lvl m ms
  obtain ⟨k, v⟩ := m
  have h3 : 3 ≤ (rMember p lvl (k, v)).length := by
    have := rMember_append_cons p lvl k v []
    have hlen : (rMember p lvl (k, v) ++ ([] : List Char)).length
        = ('"' :: ((k.data.map escapeJsonChar).flatten
            ++ ('"' :: (':' :: ((if p then ' ' :: rVal p lvl v else rVal p lvl v)
              ++ ([] : List Char)))))).length := by rw [this]
    have hv := rVal_length_pos p lvl v
    cases p <;>
      simp only [List.length_append, List.length_cons, List.length_nil, if_true,
        if_false, Bool.false_eq_true, ite_false, ite_true] at hlen <;>
      omega
  rw [hZ]
  simp only [List.length_append]
  omega

theorem jsonSep_ws_tail (p : Bool) (lvl : Nat) :
    ∃ t, jsonSep p lvl = ',' :: t ∧ ∀ c ∈ t, jsonWsChar c = true := by
  cases p with
  | false => exact ⟨[], rfl, by intro c hc; cases hc⟩
  | true =>
    refine ⟨'\n' :: indentOf lvl, rfl, ?_⟩
    intro c hc
    rcases List.mem_cons.mp hc with h | h
    · rw [h]; decide
    · rw [List.eq_of_mem_replicate h]; decide

theorem indentWs (lvl : Nat) : ∀ c ∈ '\n' :: indentOf lvl, jsonWsChar c = true := by
  intro c hc
  rcases List.mem_cons.mp hc with h | h
  · rw [h]; decide
  · rw [List.eq_of_mem_replicate h]; decide

theorem skipWs_nl_indent (lvl : Nat) (ch : Char) (h : jsonWsChar ch = false)
    (rest : List Char) :
    skipWs (('\n' :: (indentOf lvl ++ [ch])) ++ rest) = ch :: rest := by
  rw [show ('\n' :: (indentOf lvl ++ [ch])) ++ rest
      = ('\n' :: indentOf lvl) ++ (ch :: rest) from by simp,
    skipWs_append_ws _ _ (indentWs lvl)]
  exact skipWs_cons_false h rest

theorem BoundaryOk_close (close rest : List Char) (c' : Char)
    (hc : skipWs (close ++ rest) = c' :: rest) (h' : c' = ']' ∨ c' = '\x7d') :
    BoundaryOk (close ++ rest) := by
  cases hcr : close ++ rest with
  | nil =>
    rw [hcr] at hc
    simp [skipWs] at hc
  | cons a T =>
    cases hwa : jsonWsChar a with
    | true =>
      obtain ⟨h1, h2, h3, h4, -, -⟩ := ws_boundary a hwa
      exact ⟨h1, h2, h3, h4⟩
    | false =>
      rw [hcr, skipWs_cons_false hwa] at hc
      injection hc with ha _
      rw [ha]
      rcases h' with h' | h' <;> rw [h'] <;>
        exact ⟨by decide, by decide, by decide, by decide⟩

theorem BoundaryOk_sep (p : Bool) (lvl : Nat) (X : List Char) :
    BoundaryOk (jsonSep p lvl ++ X) := by
  obtain ⟨t, ht, -⟩ := jsonSep_ws_tail p lvl
  rw [ht, List.cons_append]
  exact ⟨by decide, by decide, by decide, by decide⟩

set_option maxHeartbeats 1600000 in
theorem parseVal_skip (n : Nat) (ws cs : List Char) (hws : ∀ c ∈ ws, jsonWsChar c = true) :
    parseVal (n + 1) (ws ++ cs) = parseVal (n + 1) cs := by
  simp only [parseVal]
  rw [skipWs_append_ws ws cs hws]

theorem parseVal_open_arr (n : Nat) (cs1 : List Char) :
    parseVal (n + 1) ('[' :: cs1)
      = match skipWs cs1 with
        | ']' :: r2 => some (JsonValue.arr [], r2)
        | cs2 => (parseElems n cs2).map (fun pr => (JsonValue.arr pr.1, pr.2)) := rfl

theorem parseVal_open_obj (n : Nat) (cs1 : List Char) :
    parseVal (n + 1) ('\x7b' :: cs1)
      = match skipWs cs1 with
        | '\x7d' :: r2 => some (JsonValue.obj [], r2)
        | cs2 => (parseMembers n cs2).map (fun pr => (JsonValue.obj pr.1, pr.2)) := rfl

theorem parseVal_null_red (n : Nat) (rest : List Char) :
    parseVal (n + 1) ('n' :: 'u' :: 'l' :: 'l' :: rest) = some (JsonValue.null, rest) := rfl

theorem parseVal_true_red (n : Nat) (rest : List Char) :
    parseVal (n + 1) ('t' :: 'r' :: 'u' :: 'e' :: rest)
      = some (JsonValue.bool true, rest) := rfl

theorem parseVal_false_red (n : Nat) (rest : List Char) :
    parseVal (n + 1) ('f' :: 'a' :: 'l' :: 's' :: 'e' :: rest)
      = some (JsonValue.bool false, rest) := rfl

theorem parseVal_arr_nil_red (n : Nat) (rest : List Char) :
    parseVal (n + 1) ('[' :: ']' :: rest) = some (JsonValue.arr [], rest) := rfl

theorem parseVal_obj_nil_red (n : Nat) (rest : List Char) :
    parseVal (n + 1) ('\x7b' :: '\x7d' :: rest) = some (JsonValue.obj [], rest) := rfl

theorem parseVal_quote_red (n : Nat) (rest : List Char) :
    parseVal (n + 1) ('"' :: rest)
      = (parseStrBody rest).map (fun pr => (JsonValue.str (String.mk pr.1), pr.2)) := rfl

theorem numHead_facts (c : Char) (h : c = '-' ∨ c.isDigit = true) :
    jsonWsChar c = false ∧ c ≠ '\x7b' ∧ c ≠ '[' ∧ c ≠ '"' ∧ c ≠ 't' ∧ c ≠ 'f'
      ∧ c ≠ 'n' := by
  rcases h with h | h
  · rw [h]
    exact ⟨by decide, by decide, by decide, by decide, by decide, by decide, by decide⟩
  · refine ⟨?_, ?_, ?_, ?_, ?_, ?_, ?_⟩
    · cases hw : jsonWsChar c with
      | false => rfl
      | true => rw [(ws_boundary c hw).1] at h; cases h
    · intro he; rw [he] at h; exact absurd h (by decide)
    · intro he; rw [he] at h; exact absurd h (by decide)
    · intro he; rw [he] at h; exact absurd h (by decide)
    · intro he; rw [he] at h; exact absurd h (by decide)
    · intro he; rw [he] at h; exact absurd h (by decide)
    · intro he; rw [he] at h; exact absurd h (by decide)

set_option maxHeartbeats 1600000 in
theorem parseVal_not_special (n : Nat) (c : Char) (T : List Char)
    (hws : jsonWsChar c = false) (h1 : c ≠ '\x7b') (h2 : c ≠ '[') (h3 : c ≠ '"')
    (h4 : c ≠ 't') (h5 : c ≠ 'f') (h6 : c ≠ 'n') :
    parseVal (n + 1) (c :: T)
      = (parseIntLit (c :: T)).map (fun pr => (JsonValue.num pr.1, pr.2)) := by
  simp only [parseVal]
  rw [skipWs_cons_false hws]
  split
  · rename_i heq; injection heq with hc hT; exact absurd hc h1
  · rename_i heq; injection heq with hc hT; exact absurd hc h2
  · rename_i heq; injection heq with hc hT; exact absurd hc h3
  · rename_i heq; injection heq with hc hT; exact absurd hc h4
  · rename_i heq; injection heq with hc hT; exact absurd hc h5
  · rename_i heq; injection heq with hc hT; exact absurd hc h6
  · rfl

set_option maxHeartbeats 1600000 in
mutual

theorem parseVal_render (p : Bool) (lvl : Nat) :
    ∀ (v : JsonValue) (ws rest : List Char) (n : Nat),
      (rVal p lvl v).length < n →
      (∀ c ∈ ws, jsonWsChar c = true) → BoundaryOk rest →
      parseVal n (ws ++ (rVal p lvl v ++ rest)) = some (v, rest)
  | v, ws, rest, 0, hfuel, _, _ => absurd hfuel (by omega)
  | .null, ws, rest, n + 1, _, hws, _ => by
    rw [parseVal_skip n ws _ hws]
    exact parseVal_null_red n rest
  | .bool true, ws, rest, n + 1, _, hws, _ => by
    rw [parseVal_skip n ws _ hws]
    exact parseVal_true_red n rest
  | .bool false, ws, rest, n + 1, _, hws, _ => by
    rw [parseVal_skip n ws _ hws]
    exact parseVal_false_red n rest
  | .num k, ws, rest, n + 1, _, hws, hrest => by
    obtain ⟨c, tl, hct, hcd⟩ := intChars_head k
    have hf := numHead_facts c hcd
    rw [parseVal_skip n ws _ hws,
      show rVal p lvl (JsonValue.num k) ++ rest = c :: (tl ++ rest) from by
        rw [show rVal p lvl (JsonValue.num k) = c :: tl from hct]; rfl,
      parseVal_not_special n c _ hf.1 hf.2.1 hf.2.2.1 hf.2.2.2.1 hf.2.2.2.2.1
        hf.2.2.2.2.2.1 hf.2.2.2.2.2.2,
      show c :: (tl ++ rest) = intChars k ++ rest from by
        rw [show (intChars k : List Char) = c :: tl from hct]; rfl,
      parseIntLit_render k rest hrest]
    rfl
  | .str s, ws, rest, n + 1, _, hws, _ => by
    rw [parseVal_skip n ws _ hws,
      show rVal p lvl (JsonValue.str s) ++ rest
        = '"' :: ((s.data.map escapeJsonChar).flatten ++ ('"' :: rest)) from
        quoteJson_append_cons s rest,
      parseVal_quote_red n _, parseStrBody_render s.data rest]
    rfl
  | .arr [], ws, rest, n + 1, _, hws, _ => by
    rw [parseVal_skip n ws _ hws]
    exact parseVal_arr_nil_red n rest
  | .arr (x :: xs), ws, rest, n + 1, hfuel, hws, _ => by
    cases p with
    | false =>
      have hlen : (rVal false lvl (JsonValue.arr (x :: xs))).length
          = (rArr false lvl (x :: xs)).length + 2 := by
        show ('[' :: (rArr false lvl (x :: xs) ++ [']'])).length = _
        simp only [List.length_cons, List.length_append, List.length_nil]
      have hfT : (rArr false lvl (x :: xs)).length + 1 < n := by omega
      rw [parseVal_skip n ws _ hws,
        show rVal false lvl (JsonValue.arr (x :: xs)) ++ rest
          = '[' :: (rArr false lvl (x :: xs) ++ ([']'] ++ rest)) from by
          show ('[' :: (rArr false lvl (x :: xs) ++ [']'])) ++ rest = _
          simp [List.append_assoc],
        parseVal_open_arr n _, skipWs_rArr_cons false lvl x xs _]
      split
      · rename_i heq
        obtain ⟨Z, hZ⟩ := rArr_cons_decomp false lvl x xs
        rw [hZ, List.append_assoc] at heq
        exact absurd rfl ((headChar_facts _ (rVal_append_head false lvl x _ heq)).2.1)
      · rw [show parseElems n (rArr false lvl (x :: xs) ++ ([']'] ++ rest))
            = some (x :: xs, rest) from
            parseElems_render false lvl x xs [] [']'] rest n hfT
              (by intro c hc; cases hc) (skipWs_cons_false (by decide) rest)]
        rfl
    | true =>
      have hlen : (rVal true lvl (JsonValue.arr (x :: xs))).length
          = (rArr true (lvl + 1) (x :: xs)).length
            + ((indentOf (lvl + 1)).length + ((indentOf lvl).length + 4)) := by
        show ('[' :: '\n' :: ((indentOf (lvl + 1) ++ rArr true (lvl + 1) (x :: xs))
            ++ ('\n' :: (indentOf lvl ++ [']'])))).length = _
        simp only [List.length_cons, List.length_append, List.length_nil]
        omega
      have hfT : (rArr true (lvl + 1) (x :: xs)).length + 1 < n := by omega
      rw [parseVal_skip n ws _ hws,
        show rVal true lvl (JsonValue.arr (x :: xs)) ++ rest
          = '[' :: (('\n' :: indentOf (lvl + 1))
              ++ (rArr true (lvl + 1) (x :: xs)
                ++ (('\n' :: (indentOf lvl ++ [']'])) ++ rest))) from by
          show ('[' :: '\n' :: ((indentOf (lvl + 1) ++ rArr true (lvl + 1) (x :: xs))
              ++ ('\n' :: (indentOf lvl ++ [']'])))) ++ rest = _
          simp [List.append_assoc],
        parseVal_open_arr n _,
        skipWs_append_ws _ _ (indentWs (lvl + 1)), skipWs_rArr_cons true (lvl + 1) x xs _]
      split
      · rename_i heq
        obtain ⟨Z, hZ⟩ := rArr_cons_decomp true (lvl + 1) x xs
        rw [hZ, List.append_assoc] at heq
        exact absurd rfl ((headChar_facts _ (rVal_append_head true (lvl + 1) x _ heq)).2.1)
      · rw [show parseElems n (rArr true (lvl + 1) (x :: xs)
              ++ (('\n' :: (indentOf lvl ++ [']'])) ++ rest))
            = some (x :: xs, rest) from
            parseElems_render true (lvl + 1) x xs [] ('\n' :: (indentOf lvl ++ [']'])) rest n
              hfT (by intro c hc; cases hc) (skipWs_nl_indent lvl ']' (by decide) rest)]
        rfl
  | .obj [], ws, rest, n + 1, _, hws, _ => by
    rw [parseVal_skip n ws _ hws]
    exact parseVal_obj_nil_red n rest
  | .obj ((k, v) :: ms), ws, rest, n + 1, hfuel, hws, _ => by
    cases p with
    | false =>
      have hlen : (rVal false lvl (JsonValue.obj ((k, v) :: ms))).length
          = (rObj false lvl ((k, v) :: ms)).length + 2 := by
        show ('\x7b' :: (rObj false lvl ((k, v) :: ms) ++ ['\x7d'])).length = _
        simp only [List.length_cons, List.length_append, List.length_nil]
      have hfT : (rObj false lvl ((k, v) :: ms)).length + 1 < n := by omega
      rw [parseVal_skip n ws _ hws,
        show rVal false lvl (JsonValue.obj ((k, v) :: ms)) ++ rest
          = '\x7b' :: (rObj false lvl ((k, v) :: ms) ++ (['\x7d'] ++ rest)) from by
          show ('\x7b' :: (rObj false lvl ((k, v) :: ms) ++ ['\x7d'])) ++ rest = _
          simp [List.append_assoc],
        parseVal_open_obj n _, skipWs_rObj_cons false lvl (k, v) ms _]
      split
      · rename_i heq
        exact absurd (rObj_append_head false lvl (k, v) ms _ heq) (by decide)
      · rw [show parseMembers n (rObj false lvl ((k, v) :: ms) ++ (['\x7d'] ++ rest))
            = some ((k, v) :: ms, rest) from
            parseMembers_render false lvl k v ms ['\x7d'] rest n hfT
              (skipWs_cons_false (by decide) rest)]
        rfl
    | true =>
      have hlen : (rVal true lvl (JsonValue.obj ((k, v) :: ms))).length
          = (rObj true (lvl + 1) ((k, v) :: ms)).length
            + ((indentOf (lvl + 1)).length + ((indentOf lvl).length + 4)) := by
        show ('\x7b' :: '\n' :: ((indentOf (lvl + 1) ++ rObj true (lvl + 1) ((k, v) :: ms))
            ++ ('\n' :: (indentOf lvl ++ ['\x7d'])))).length = _
        simp only [List.length_cons, List.length_append, List.length_nil]
        omega
      have hfT : (rObj true (lvl + 1) ((k, v) :: ms)).length + 1 < n := by omega
      rw [parseVal_skip n ws _ hws,
        show rVal true lvl (JsonValue.obj ((k, v) :: ms)) ++ rest
          = '\x7b' :: (('\n' :: indentOf (lvl + 1))
              ++ (rObj true (lvl + 1) ((k, v) :: ms)
                ++ (('\n' :: (indentOf lvl ++ ['\x7d'])) ++ rest))) from by
          show ('\x7b' :: '\n' :: ((indentOf (lvl + 1) ++ rObj true (lvl + 1) ((k, v) :: ms))
              ++ ('\n' :: (indentOf lvl ++ ['\x7d'])))) ++ rest = _
          simp [List.append_assoc],
        parseVal_open_obj n _,
        skipWs_append_ws _ _ (indentWs (lvl + 1)),
        skipWs_rObj_cons true (lvl + 1) (k, v) ms _]
      split
      · rename_i heq
        exact absurd (rObj_append_head true (lvl + 1) (k, v) ms _ heq) (by decide)
      · rw [show parseMembers n (rObj true (lvl + 1) ((k, v) :: ms)
              ++ (('\n' :: (indentOf lvl ++ ['\x7d'])) ++ rest))
            = some ((k, v) :: ms, rest) from
            parseMembers_render true (lvl + 1) k v ms ('\n' :: (indentOf lvl ++ ['\x7d']))
              rest n hfT (skipWs_nl_indent lvl '\x7d' (by decide) rest)]
        rfl

theorem parseElems_render (p : Bool) (lvl : Nat) :
    ∀ (x : JsonValue) (xs : List JsonValue) (ws close rest : List Char) (n : Nat),
      (rArr p lvl (x :: xs)).length + 1 < n →
      (∀ c ∈ ws, jsonWsChar c = true) →
      skipWs (close ++ rest) = ']' :: rest →
      parseElems n (ws ++ (rArr p lvl (x :: xs) ++ (close ++ rest))) = some (x :: xs, rest)
  | x, xs, ws, close, rest, 0, hfuel, _, _ => absurd hfuel (by omega)
  | x, [], ws, close, rest, n + 1, hfuel, hws, hclose => by
    have hx : (rArr p lvl [x]).length = (rVal p lvl x).length := rfl
    have hfx : (rVal p lvl x).length < n := by omega
    simp only [parseElems]
    rw [show ws ++ (rArr p lvl [x] ++ (close ++ rest))
        = ws ++ (rVal p lvl x ++ (close ++ rest)) from rfl,
      parseVal_render p lvl x ws (close ++ rest) n hfx hws
        (BoundaryOk_close close rest ']' hclose (Or.inl rfl))]
    dsimp only
    rw [hclose]
    split
    · rename_i r2 heq
      injection heq with _ hr
      rw [← hr]
    · rename_i r2 heq
      injection heq with hch _
      exact absurd hch (by decide)
    · rename_i hn1 hn2
      exact absurd rfl (hn1 rest)
  | x, y :: ys, ws, close, rest, n + 1, hfuel, hws, hclose => by
    have hL : (rArr p lvl (x :: y :: ys)).length
        = (rVal p lvl x).length
          + ((jsonSep p lvl).length + (rArr p lvl (y :: ys)).length) := by
      show ((rVal p lvl x ++ jsonSep p lvl) ++ rArr p lvl (y :: ys)).length = _
      simp [List.length_append]
    have hsepl : 1 ≤ (jsonSep p lvl).length := by
      obtain ⟨t, ht, -⟩ := jsonSep_ws_tail p lvl
      rw [ht]; simp
    have hxl := rVal_length_pos p lvl x
    have hTl := rArr_cons_length_pos p lvl y ys
    have hfx : (rVal p lvl x).length < n := by omega
    have hfT : (rArr p lvl (y :: ys)).length + 1 < n := by omega
    obtain ⟨t, ht, htws⟩ := jsonSep_ws_tail p lvl
    simp only [parseElems]
    rw [show ws ++ (rArr p lvl (x :: y :: ys) ++ (close ++ rest))
        = ws ++ (rVal p lvl x
            ++ (jsonSep p lvl ++ (rArr p lvl (y :: ys) ++ (close ++ rest)))) from by
        show ws ++ (((rVal p lvl x ++ jsonSep p lvl) ++ rArr p lvl (y :: ys))
            ++ (close ++ rest)) = _
        simp [List.append_assoc],
      parseVal_render p lvl x ws _ n hfx hws (BoundaryOk_sep p lvl _)]
    dsimp only
    rw [show skipWs (jsonSep p lvl ++ (rArr p lvl (y :: ys) ++ (close ++ rest)))
        = ',' :: (t ++ (rArr p lvl (y :: ys) ++ (close ++ rest))) from by
        rw [ht, List.cons_append]
        exact skipWs_cons_false (by decide) _]
    split
    · rename_i r2 heq
      injection heq with hch _
      exact absurd hch (by decide)
    · rename_i r2 heq
      injection heq with _ hX
      rw [← hX,
        show parseElems n (t ++ (rArr p lvl (y :: ys) ++ (close ++ rest)))
          = some (y :: ys, rest) from
        parseElems_render p lvl y ys t close rest n hfT htws hclose]
    · rename_i hn1 hn2
      exact absurd rfl (hn2 (t ++ (rArr p lvl (y :: ys) ++ (close ++ rest))))

theorem parseMembers_render (p : Bool) (lvl : Nat) :
    ∀ (k : String) (v : JsonValue) (ms : List (String × JsonValue))
      (close rest : List Char) (n : Nat),
      (rObj p lvl ((k, v) :: ms)).length + 1 < n →
      skipWs (close ++ rest) = '\x7d' :: rest →
      parseMembers n (rObj p lvl ((k, v) :: ms) ++ (close ++ rest))
        = some ((k, v) :: ms, rest)
  | k, v, ms, close, rest, 0, hfuel, _ => absurd hfuel (by omega)
  | k, v, [], close, rest, n + 1, hfuel, hclose => by
    have hq : (quoteJson k).length = (k.data.map escapeJsonChar).flatten.length + 2 := by
      simp [quoteJson]
    have hm : (quoteJson k).length + 1 + (rVal p lvl v).length
        ≤ (rMember p lvl (k, v)).length := by
      cases p with
      | false =>
        show _ ≤ (quoteJson k ++ ':' :: rVal false lvl v).length
        simp only [List.length_append, List.length_cons]
        omega
      | true =>
        show _ ≤ (quoteJson k ++ ':' :: ' ' :: rVal true lvl v).length
        simp only [List.length_append, List.length_cons]
        omega
    have hobj : (rObj p lvl [(k, v)]).length = (rMember p lvl (k, v)).length := rfl
    have hfv : (rVal p lvl v).length < n := by omega
    have hb : BoundaryOk (close ++ rest) :=
      BoundaryOk_close close rest '\x7d' hclose (Or.inr rfl)
    cases p with
    | false =>
      simp only [parseMembers]
      rw [show rObj false lvl [(k, v)] ++ (close ++ rest)
          = '"' :: ((k.data.map escapeJsonChar).flatten
              ++ ('"' :: (':' :: (rVal false lvl v ++ (close ++ rest))))) from
          rMember_append_cons false lvl k v (close ++ rest)]
      split
      · rename_i rest1 heq
        injection heq with _ hT
        rw [← hT, parseStrBody_render k.data _]
        dsimp only
        rw [show skipWs (':' :: (rVal false lvl v ++ (close ++ rest)))
            = ':' :: (rVal false lvl v ++ (close ++ rest)) from
            skipWs_cons_false (by decide) _]
        split
        · rename_i r2 heq2
          injection heq2 with _ h2
          rw [← h2,
            show parseVal n (rVal false lvl v ++ (close ++ rest))
              = some (v, close ++ rest) from
              parseVal_render false lvl v [] (close ++ rest) n hfv
                (by intro c hc; cases hc) hb]
          dsimp only
          rw [hclose]
          split
          · rename_i r4 heq4
            injection heq4 with _ h4
            rw [← h4]
          · rename_i r4 heq4
            injection heq4 with hch _
            exact absurd hch (by decide)
          · rename_i hn1 hn2
            exact absurd rfl (hn1 rest)
        · rename_i hn
          exact absurd rfl (hn (rVal false lvl v ++ (close ++ rest)))
      · rename_i hn
        exact absurd rfl (hn ((k.data.map escapeJsonChar).flatten
            ++ ('"' :: (':' :: (rVal false lvl v ++ (close ++ rest))))))
    | true =>
      simp only [parseMembers]
      rw [show rObj true lvl [(k, v)] ++ (close ++ rest)
          = '"' :: ((k.data.map escapeJsonChar).flatten
              ++ ('"' :: (':' :: (' ' :: (rVal true lvl v ++ (close ++ rest)))))) from by
          have h0 := rMember_append_cons true lvl k v (close ++ rest)
          rw [show rObj true lvl [(k, v)] = rMember true lvl (k, v) from rfl, h0]
          rfl]
      split
      · rename_i rest1 heq
        injection heq with _ hT
        rw [← hT, parseStrBody_render k.data _]
        dsimp only
        rw [show skipWs (':' :: (' ' :: (rVal true lvl v ++ (close ++ rest))))
            = ':' :: (' ' :: (rVal true lvl v ++ (close ++ rest))) from
            skipWs_cons_false (by decide) _]
        split
        · rename_i r2 heq2
          injection heq2 with _ h2
          rw [← h2,
            show parseVal n (' ' :: (rVal true lvl v ++ (close ++ rest)))
              = some (v, close ++ rest) from
              parseVal_render true lvl v [' '] (close ++ rest) n hfv
                (by intro c hc; rw [List.mem_singleton.mp hc]; decide) hb]
          dsimp only
          rw [hclose]
          split
          · rename_i r4 heq4
            injection heq4 with _ h4
            rw [← h4]
          · rename_i r4 heq4
            injection heq4 with hch _
            exact absurd hch (by decide)
          · rename_i hn1 hn2
            exact absurd rfl (hn1 rest)
        · rename_i hn
          exact absurd rfl (hn (' ' :: (rVal true lvl v ++ (close ++ rest))))
      · rename_i hn
        exact absurd rfl (hn ((k.data.map escapeJsonChar).flatten
            ++ ('"' :: (':' :: (' ' :: (rVal true lvl v ++ (close ++ rest)))))))
  | k, v, (k2, v2) :: ms2, close, rest, n + 1, hfuel, hclose => by
    have hq : (quoteJson k).length = (k.data.map escapeJsonChar).flatten.length + 2 := by
      simp [quoteJson]
    have hm : (quoteJson k).length + 1 + (rVal p lvl v).length
        ≤ (rMember p lvl (k, v)).length := by
      cases p with
      | false =>
        show _ ≤ (quoteJson k ++ ':' :: rVal false lvl v).length
        simp only [List.length_append, List.length_cons]
        omega
      | true =>
        show _ ≤ (quoteJson k ++ ':' :: ' ' :: rVal true lvl v).length
        simp only [List.length_append, List.length_cons]
        omega
    have hLtot : (rObj p lvl ((k, v) :: (k2, v2) :: ms2)).length
        = (rMember p lvl (k, v)).length + ((jsonSep p lvl).length
          + (rObj p lvl ((k2, v2) :: ms2)).length) := by
      show ((rMember p lvl (k, v) ++ jsonSep p lvl)
          ++ rObj p lvl ((k2, v2) :: ms2)).length = _
      simp [List.length_append]
    have hsepl : 1 ≤ (jsonSep p lvl).length := by
      obtain ⟨t, ht, -⟩ := jsonSep_ws_tail p lvl
      rw [ht]; simp
    have hfv : (rVal p lvl v).length < n := by omega
    have hfT : (rObj p lvl ((k2, v2) :: ms2)).length + 1 < n := by omega
    obtain ⟨t, ht, htws⟩ := jsonSep_ws_tail p lvl
    cases p with
    | false =>
      simp only [parseMembers]
      rw [show rObj false lvl ((k, v) :: (k2, v2) :: ms2) ++ (close ++ rest)
          = '"' :: ((k.data.map escapeJsonChar).flatten
              ++ ('"' :: (':' :: (rVal false lvl v
                ++ (jsonSep false lvl
                  ++ (rObj false lvl ((k2, v2) :: ms2) ++ (close ++ rest))))))) from by
          show ((rMember false lvl (k, v) ++ jsonSep false lvl)
              ++ rObj false lvl ((k2, v2) :: ms2)) ++ (close ++ rest) = _
          rw [show rMember false lvl (k, v)
              = quoteJson k ++ ':' :: rVal false lvl v from rfl]
          simp [quoteJson, List.append_assoc]]
      split
      · rename_i rest1 heq
        injection heq with _ hT
        rw [← hT, parseStrBody_render k.data _]
        dsimp only
        rw [show skipWs (':' :: (rVal false lvl v ++ (jsonSep false lvl
              ++ (rObj false lvl ((k2, v2) :: ms2) ++ (close ++ rest)))))
            = ':' :: (rVal false lvl v ++ (jsonSep false lvl
              ++ (rObj false lvl ((k2, v2) :: ms2) ++ (close ++ rest)))) from
            skipWs_cons_false (by decide) _]
        split
        · rename_i r2 heq2
          injection heq2 with _ h2
          rw [← h2,
            show parseVal n (rVal false lvl v ++ (jsonSep false lvl
                ++ (rObj false lvl ((k2, v2) :: ms2) ++ (close ++ rest))))
              = some (v, jsonSep false lvl
                  ++ (rObj false lvl ((k2, v2) :: ms2) ++ (close ++ rest))) from
              parseVal_render false lvl v [] _ n hfv (by intro c hc; cases hc)
                (BoundaryOk_sep false lvl _)]
          dsimp only
          rw [show skipWs (jsonSep false lvl
                ++ (rObj false lvl ((k2, v2) :: ms2) ++ (close ++ rest)))
              = ',' :: (rObj false lvl ((k2, v2) :: ms2) ++ (close ++ rest)) from
              skipWs_cons_false (by decide) _]
          split
          · rename_i r4 heq4
            injection heq4 with hch _
            exact absurd hch (by decide)
          · rename_i r4 heq4
            injection heq4 with _ h4
            rw [← h4, skipWs_rObj_cons false lvl (k2, v2) ms2 _,
              show parseMembers n (rObj false lvl ((k2, v2) :: ms2) ++ (close ++ rest))
                = some ((k2, v2) :: ms2, rest) from
                parseMembers_render false lvl k2 v2 ms2 close rest n hfT hclose]
          · rename_i hn1 hn2
            exact absurd rfl
              (hn2 (rObj false lvl ((k2, v2) :: ms2) ++ (close ++ rest)))
        · rename_i hn
          exact absurd rfl (hn (rVal false lvl v ++ (jsonSep false lvl
              ++ (rObj false lvl ((k2, v2) :: ms2) ++ (close ++ rest)))))
      · rename_i hn
        exact absurd rfl (hn ((k.data.map escapeJsonChar).flatten
            ++ ('"' :: (':' :: (rVal false lvl v ++ (jsonSep false lvl
              ++ (rObj false lvl ((k2, v2) :: ms2) ++ (close ++ rest))))))))
    | true =>
      simp only [parseMembers]
      rw [show rObj true lvl ((k, v) :: (k2, v2) :: ms2) ++ (close ++ rest)
          = '"' :: ((k.data.map escapeJsonChar).flatten
              ++ ('"' :: (':' :: (' ' :: (rVal true lvl v
                ++ (jsonSep true lvl
                  ++ (rObj true lvl ((k2, v2) :: ms2) ++ (close ++ rest)))))))) from by
          show ((rMember true lvl (k, v) ++ jsonSep true lvl)
              ++ rObj true lvl ((k2, v2) :: ms2)) ++ (close ++ rest) = _
          rw [show rMember true lvl (k, v)
              = quoteJson k ++ ':' :: ' ' :: rVal true lvl v from rfl]
          simp [quoteJson, List.append_assoc]]
      split
      · rename_i rest1 heq
        injection heq with _ hT
        rw [← hT, parseStrBody_render k.data _]
        dsimp only
        rw [show skipWs (':' :: (' ' :: (rVal true lvl v ++ (jsonSep true lvl
              ++ (rObj true lvl ((k2, v2) :: ms2) ++ (close ++ rest))))))
            = ':' :: (' ' :: (rVal true lvl v ++ (jsonSep true lvl
              ++ (rObj true lvl ((k2, v2) :: ms2) ++ (close ++ rest))))) from
            skipWs_cons_false (by decide) _]
        split
        · rename_i r2 heq2
          injection heq2 with _ h2
          rw [← h2,
            show parseVal n (' ' :: (rVal true lvl v ++ (jsonSep true lvl
                ++ (rObj true lvl ((k2, v2) :: ms2) ++ (close ++ rest)))))
              = some (v, jsonSep true lvl
                  ++ (rObj true lvl ((k2, v2) :: ms2) ++ (close ++ rest))) from
              parseVal_render true lvl v [' '] _ n hfv
                (by intro c hc; rw [List.mem_singleton.mp hc]; decide)
                (BoundaryOk_sep true lvl _)]
          dsimp only
          rw [show skipWs (jsonSep true lvl
                ++ (rObj true lvl ((k2, v2) :: ms2) ++ (close ++ rest)))
              = ',' :: (('\n' :: indentOf lvl)
                ++ (rObj true lvl ((k2, v2) :: ms2) ++ (close ++ rest))) from
              skipWs_cons_false (by decide) _]
          split
          · rename_i r4 heq4
            injection heq4 with hch _
            exact absurd hch (by decide)
          · rename_i r4 heq4
            injection heq4 with _ h4
            rw [← h4, skipWs_append_ws _ _ (indentWs lvl),
              skipWs_rObj_cons true lvl (k2, v2) ms2 _,
              show parseMembers n (rObj true lvl ((k2, v2) :: ms2) ++ (close ++ rest))
                = some ((k2, v2) :: ms2, rest) from
                parseMembers_render true lvl k2 v2 ms2 close rest n hfT hclose]
          · rename_i hn1 hn2
            exact absurd rfl (hn2 (('\n' :: indentOf lvl)
              ++ (rObj true lvl ((k2, v2) :: ms2) ++ (close ++ rest))))
        · rename_i hn
          exact absurd rfl (hn (' ' :: (rVal true lvl v ++ (jsonSep true lvl
              ++ (rObj true lvl ((k2, v2) :: ms2) ++ (close ++ rest))))))
      · rename_i hn
        exact absurd rfl (hn ((k.data.map escapeJsonChar).flatten
            ++ ('"' :: (':' :: (' ' :: (rVal true lvl v ++ (jsonSep true lvl
              ++ (rObj true lvl ((k2, v2) :: ms2) ++ (close ++ rest)))))))))

end

theorem parseJson_render (p : Bool) (v : JsonValue) :
    parseJson (String.mk (rVal p 0 v)) = some v := by
  have h := parseVal_render p 0 v [] [] ((rVal p 0 v).length + 1) (by omega)
    (by intro c hc; cases hc) trivial
  rw [List.append_nil] at h
  rw [List.nil_append] at h
  unfold parseJson
  rw [show (String.mk (rVal p 0 v)).length = (rVal p 0 v).length from rfl,
    show (String.mk (rVal p 0 v)).data = rVal p 0 v from rfl, h]
  rfl

theorem map_id_of_no_key (o : Obj) (k : String) (v : JsonValue)
    (h : ∀ x ∈ o, (x.1 == k) = false) :
    o.map (fun kv => if kv.1 == k then (kv.1, v) else kv) = o := by
  induction o with
  | nil => rfl
  | cons a o ih =>
    have ha := h a (List.mem_cons_self _ _)
    show (if (a.1 == k) = true then (a.1, v) else a)
        :: o.map (fun kv => if kv.1 == k then (kv.1, v) else kv) = a :: o
    rw [if_neg (by rw [ha]; exact Bool.false_ne_true),
      ih (fun x hx => h x (List.mem_cons_of_mem _ hx))]

theorem map_set_self (o : Obj) (k : String) (v : JsonValue)
    (hnd : (o.map Prod.fst).Nodup) (hl : o.lookup k = some v) :
    o.map (fun kv => if kv.1 == k then (kv.1, v) else kv) = o := by
  induction o with
  | nil => simp at hl
  | cons a o ih =>
    obtain ⟨k1, v1⟩ := a
    show (if (k1 == k) = true then (k1, v) else (k1, v1))
        :: o.map (fun kv => if kv.1 == k then (kv.1, v) else kv) = (k1, v1) :: o
    by_cases hk : (k1 == k) = true
    · have hk2 : (k == k1) = true := beq_iff_eq.mpr (eq_of_beq hk).symm
      have hv : v1 = v := by
        rw [List.lookup_cons, hk2] at hl
        have hl2 : some v1 = some v := hl
        exact Option.some.inj hl2
      have hno : ∀ x ∈ o, (x.1 == k) = false := by
        intro x hx
        cases hxk : (x.1 == k) with
        | false => rfl
        | true =>
          have hx1 : x.1 = k := eq_of_beq hxk
          have hmem : k1 ∈ o.map Prod.fst := by
            rw [eq_of_beq hk, ← hx1]
            exact List.mem_map_of_mem _ hx
          rw [List.map_cons, List.nodup_cons] at hnd
          exact absurd hmem hnd.1
      rw [if_pos hk, map_id_of_no_key o k v hno, hv]
    · have hk1f : (k1 == k) = false := Bool.eq_false_iff.mpr hk
      have hk2 : (k == k1) = false :=
        beq_eq_false_iff_ne.mpr (fun he => beq_eq_false_iff_ne.mp hk1f he.symm)
      have hl2 : o.lookup k = some v := by
        rw [List.lookup_cons, hk2] at hl
        exact hl
      have hnd2 : (o.map Prod.fst).Nodup := by
        rw [List.map_cons, List.nodup_cons] at hnd
        exact hnd.2
      rw [if_neg hk, ih hnd2 hl2]

theorem setProp_self (o : Obj) (k : String) (v : JsonValue)
    (hnd : (o.map Prod.fst).Nodup) (h : getProp o k = some v) :
    setProp o k v = o := by
  have hl : o.lookup k = some v := h
  unfold setProp
  rw [if_pos (by rw [hl]; rfl), map_set_self o k v hnd hl]

theorem assignIdValue_of_id (item : Obj) (v : JsonValue) (idx : Nat)
    (h : getProp item "id" = some v) (hne : v ≠ JsonValue.null) :
    assignIdValue item idx = v := by
  unfold assignIdValue
  rw [h]
  cases v with
  | null => exact absurd rfl hne
  | bool b => rfl
  | num n => rfl
  | str s => rfl
  | arr l => rfl
  | obj o => rfl

theorem enumFrom_withId_fix (items : List Obj) :
    ∀ i : Nat,
      (∀ item ∈ items, (item.map Prod.fst).Nodup ∧
        ∃ vId, getProp item "id" = some vId ∧ vId ≠ JsonValue.null) →
      (items.enumFrom i).map (fun p => withId p.2 p.1) = items := by
  induction items with
  | nil => intro i _; rfl
  | cons a items ih =>
    intro i h
    obtain ⟨hnd, vId, hv, hvn⟩ := h a (List.mem_cons_self _ _)
    rw [List.enumFrom_cons, List.map_cons]
    dsimp only
    rw [show withId a i = a from by
        unfold withId
        rw [assignIdValue_of_id a vId i hv hvn]
        exact setProp_self a "id" vId hnd hv,
      ih (i + 1) (fun x hx => h x (List.mem_cons_of_mem _ hx))]

theorem itemsWithIds_fix (items : List Obj)
    (h : ∀ item ∈ items, (item.map Prod.fst).Nodup ∧
      ∃ vId, getProp item "id" = some vId ∧ vId ≠ JsonValue.null) :
    itemsWithIds items = items :=
  enumFrom_withId_fix items 0 h

/-- C4: conversion to the native CSL-JSON format serializes, with or without
the minify option, exactly the `itemsWithIds` list — each record with its `id`
materialized — and parsing the output text recovers that list exactly.  When
every record already carries a non-nullish `id` (and, as JavaScript objects
guarantee, its keys are unique), `itemsWithIds` is the identity, so the round
trip returns the input list unchanged; a record without an `id` instead gains
one, so the round trip is not lossless in general (see the counterexample). -/
theorem thmC4 :
    (∀ (items : List Obj) (minify : Bool),
        parseJson (convertToCsl items minify)
          = some (JsonValue.arr ((itemsWithIds items).map JsonValue.obj))) ∧
    (∀ items : List Obj,
        (∀ item ∈ items, (item.map Prod.fst).Nodup ∧
          ∃ vId, getProp item "id" = some vId ∧ vId ≠ JsonValue.null) →
        itemsWithIds items = items) := by
  constructor
  · intro items minify
    unfold convertToCsl formatCslJson
    cases minify with
    | true =>
      rw [if_pos rfl]
      exact parseJson_render false (JsonValue.arr ((itemsWithIds items).map JsonValue.obj))
    | false =>
      rw [if_neg (by simp)]
      exact parseJson_render true (JsonValue.arr ((itemsWithIds items).map JsonValue.obj))
  · exact itemsWithIds_fix

/-- C4 counterexample: a record with no `id` field does not round-trip — the
output of the native CSL-JSON conversion parses back to a record that gained
an `id` (the derived citation key), so the conversion is not the claimed
as-is, lossless serialization of the input list. -/
theorem thmC4_cex :
    parseJson (convertToCsl [[]] true)
        = some (JsonValue.arr [JsonValue.obj [("id", JsonValue.str "UnknownunknownUntitled")]])
      ∧ JsonValue.arr (([[]] : List Obj).map JsonValue.obj)
        ≠ JsonValue.arr [JsonValue.obj [("id", JsonValue.str "UnknownunknownUntitled")]] := by
  constructor
  · decide
  · decide

/-- Witness for C4 at a concrete record that already has an `id`. -/
theorem thmC4_witness :
    itemsWithIds [[("id", JsonValue.str "Smith2020")]]
      = [[("id", JsonValue.str "Smith2020")]] :=
  thmC4.2 [[("id", JsonValue.str "Smith2020")]] (by
    intro item him
    rw [List.mem_singleton] at him
    rw [him]
    exact ⟨by decide, JsonValue.str "Smith2020", rfl, by decide⟩)

/-- C1: minimum viability holds on the PDF (TEI) side — `biblStructToCsl`
only ever returns a record with a truthy `title` — but on the DOCX
citation-field side `extractItemData` accepts a candidate record exactly when
its `itemData` is an object with a truthy `type`: it never inspects the title
or any identifier, so a record with neither is kept, not dropped. -/
theorem thmC1 :
    (∀ (bibl : JsonValue) (item : Obj), biblStructToCsl bibl = some item →
        truthyProp item "title" = true) ∧
    (∀ (item : JsonValue) (io : Obj),
        extractItemDataM item = some io ↔
          propOf item "itemData" = some (.obj io) ∧ truthyProp io "type" = true) := by
  refine ⟨?_, ?_⟩
  · intro bibl item h
    cases bibl with
    | obj o =>
      simp only [biblStructToCsl] at h
      split at h
      · rename_i hcond
        injection h with h2
        rw [← h2]
        exact hcond
      · exact Option.noConfusion h
    | null => exact Option.noConfusion h
    | bool b => exact Option.noConfusion h
    | num n => exact Option.noConfusion h
    | str s => exact Option.noConfusion h
    | arr xs => exact Option.noConfusion h
  · intro item io
    constructor
    · intro h
      unfold extractItemDataM at h
      split at h
      · rename_i io' hprop
        split at h
        · rename_i tv htv
          split at h
          · rename_i hj
            injection h with h2
            subst h2
            refine ⟨hprop, ?_⟩
            unfold truthyProp
            rw [htv]
            exact hj
          · exact Option.noConfusion h
        · exact Option.noConfusion h
      · exact Option.noConfusion h
    · rintro ⟨h1, h2⟩
      unfold extractItemDataM
      rw [h1]
      show (match getProp io "type" with
            | some tv => if jsTruthy tv then some io else none
            | none => none) = some io
      cases hg : getProp io "type" with
      | none =>
        exfalso
        unfold truthyProp at h2
        rw [hg] at h2
        exact absurd h2 (by decide)
      | some tv =>
        have hj : jsTruthy tv = true := by
          unfold truthyProp at h2
          rw [hg] at h2
          exact h2
        show (if jsTruthy tv then some io else none) = some io
        rw [if_pos hj]

/-- C1 counterexample: a full DOCX pipeline run on an instruction text whose
only citation item has a `type` but no title and no identifier; the record
survives extraction and normalization and sits in the final output with
`title`, `DOI`, `ISBN`, `ISSN`, `PMID`, `PMCID` and `URL` all absent. -/
theorem thmC1_cex :
    docxPipeline exC1text = [[("type", JsonValue.str "article-journal")]] ∧
    getProp [("type", JsonValue.str "article-journal")] "title" = none ∧
    getProp [("type", JsonValue.str "article-journal")] "DOI" = none ∧
    getProp [("type", JsonValue.str "article-journal")] "ISBN" = none ∧
    getProp [("type", JsonValue.str "article-journal")] "ISSN" = none ∧
    getProp [("type", JsonValue.str "article-journal")] "PMID" = none ∧
    getProp [("type", JsonValue.str "article-journal")] "PMCID" = none ∧
    getProp [("type", JsonValue.str "article-journal")] "URL" = none := by
  decide

/-- Witness for C1: the PDF-side conjunct at a concrete TEI `biblStruct`
and the DOCX-side characterization at a concrete citation item. -/
theorem thmC1_witness :
    truthyProp [("type", JsonValue.str "article-journal"),
      ("title", JsonValue.str "My Title")] "title" = true ∧
    extractItemDataM (JsonValue.obj [("itemData",
      JsonValue.obj [("type", JsonValue.str "book")])]) =
      some [("type", JsonValue.str "book")] :=
  ⟨thmC1.1 (JsonValue.obj [("analytic", JsonValue.obj [("title", JsonValue.str "My Title")])])
      [("type", JsonValue.str "article-journal"), ("title", JsonValue.str "My Title")]
      (by decide),
   (thmC1.2 (JsonValue.obj [("itemData", JsonValue.obj [("type", JsonValue.str "book")])])
      [("type", JsonValue.str "book")]).mpr ⟨by decide, by decide⟩⟩

end ZRE
